import Mathlib

/-!
# Cubic spline of `qubic_spline/old_version/spline.h` and demo of `ode_solver/main.cpp`

A shallow embedding of the class `Spline` and of its member functions
`create_spline`, `f`, `dfdx` and `operator=`, and of the right-hand side `ode2`
of `ode_solver/main.cpp`, followed by theorems about them.  The class
`OdeSolver` that `main.cpp` uses is not part of the sources; the definitions
marked "Modelled from the spec" render its description in the specification.

Conventions of the embedding.

* `realT` is an arbitrary linearly ordered field `K` with a floor function
  (exact arithmetic).  Instantiating `K` with `ℚ` makes every definition
  evaluable on concrete data.
* `int` is `Int`; the range of a machine `int` is not modelled.
* A `realT*` that owns `n` cells is a `List K`; `rd` and `wr` are the indexed
  read and write with an `int` index.  C++ gives no meaning to an access
  outside the array: in the model such a read yields `0` and such a write
  does nothing.
* `exit(1)` is the result `none`.
* `log` comes from `<math.h>` and is a parameter `lg` of the lookup.
-/

namespace Spec2Proof

/-! ## Arrays -/

section Arrays

variable {K : Type}

/-- Indexed read `a[i]`. -/
def rd [Zero K] (a : List K) (i : Int) : K :=
  if 0 ≤ i then a.getD i.toNat 0 else 0

/-- Indexed write `a[i] = v`. -/
def wr (a : List K) (i : Int) (v : K) : List K :=
  if 0 ≤ i then a.set i.toNat v else a

/-- Allocation `new realT[n]`.  The cells of a fresh array are indeterminate
in C++; they are `0` here, and `create_spline` writes every cell before it
reads it when `n ≥ 2`. -/
def newArray [Zero K] (n : Int) : List K :=
  List.replicate n.toNat 0

end Arrays

/-! ## The class `Spline` -/

/-- Data members of `class Spline` (spline.h, lines 25-28). -/
structure Spline (K : Type) where
  name : String
  y : List K
  x : List K
  y2 : List K
  x_start : K
  x_end : K
  n : Int
  type : Int

/-- The macro `MIN(x,y) ((x)>(y)? (y) : (x))` (spline.h, line 7). -/
def MIN (x y : Int) : Int :=
  if x > y then y else x

section Code

variable {K : Type} [LinearOrderedField K]

/-- The copy loop of `create_spline` (lines 91-95):
`for (i = 0; i<n; i++) { y[i] = yin[i]; x[i] = xin[i]; y2[i] = 0.0; }`.
The result is the triple `(x, y, y2)`. -/
def copyLoop (xin yin : List K) (n i : Int) (x y y2 : List K) :
    List K × List K × List K :=
  if i < n then
    copyLoop xin yin n (i + 1) (wr x i (rd xin i)) (wr y i (rd yin i)) (wr y2 i 0)
  else (x, y, y2)
termination_by (n - i).toNat
decreasing_by omega

/-- The forward elimination loop of `create_spline` (lines 106-112).  The
result is the pair `(y2, u)`. -/
def sweepLoop (x y : List K) (n i : Int) (y2 u : List K) : List K × List K :=
  if i < n - 1 then
    let sig := (rd x i - rd x (i - 1)) / (rd x (i + 1) - rd x (i - 1))
    let p := sig * rd y2 (i - 1) + 2
    let y2a := wr y2 i ((sig - 1) / p)
    let ua := wr u i ((rd y (i + 1) - rd y i) / (rd x (i + 1) - rd x i)
      - (rd y i - rd y (i - 1)) / (rd x i - rd x (i - 1)))
    let ub := wr ua i ((6 * rd ua i / (rd x (i + 1) - rd x (i - 1)) - sig * rd ua (i - 1)) / p)
    sweepLoop x y n (i + 1) y2a ub
  else (y2, u)
termination_by (n - 1 - i).toNat
decreasing_by omega

/-- The back-substitution loop of `create_spline` (line 123):
`for (i = n-2; i>=0; i--) y2[i] = y2[i]*y2[i+1]+u[i];`. -/
def backLoop (i : Int) (y2 u : List K) : List K :=
  if 0 ≤ i then
    backLoop (i - 1) (wr y2 i (rd y2 i * rd y2 (i + 1) + rd u i)) u
  else y2
termination_by (i + 1).toNat
decreasing_by omega

/-- Left boundary condition of `create_spline` (lines 98-103); the result is
the pair `(y2, u)`. -/
def leftBoundary (x y : List K) (dydx1 : K) (y2 u : List K) : List K × List K :=
  if dydx1 > 0.99e30 then
    (wr y2 0 0, wr u 0 0)
  else
    (wr y2 0 (-0.5),
     wr u 0 ((3 / (rd x 1 - rd x 0)) * ((rd y 1 - rd y 0) / (rd x 1 - rd x 0) - dydx1)))

/-- Right boundary condition of `create_spline` (lines 115-120). -/
def rightBoundary (x y : List K) (n : Int) (dydxn : K) (y2 u : List K) : List K :=
  if dydxn > 0.99e30 then
    wr y2 (n - 1) 0
  else
    let un := (3 / (rd x (n - 1) - rd x (n - 2)))
      * (dydxn - (rd y (n - 1) - rd y (n - 2)) / (rd x (n - 1) - rd x (n - 2)))
    wr y2 (n - 1) ((un - 0.5 * rd u (n - 2)) / (0.5 * rd y2 (n - 2) + 1))

/-- The member function `Spline::create_spline` (lines 75-126). -/
def create_spline (xin yin : List K) (nin : Int) (dydx1 dydxn : K) (typein : Int)
    (namein : String) : Spline K :=
  let n := nin
  let u : List K := newArray n
  let c := copyLoop xin yin n 0 (newArray n) (newArray n) (newArray n)
  let x := c.1
  let y := c.2.1
  let l := leftBoundary x y dydx1 c.2.2 u
  let s := sweepLoop x y n 1 l.1 l.2
  let y2 := backLoop (n - 2) (rightBoundary x y n dydxn s.1 s.2) s.2
  { name := namein
    type := typein
    n := n
    x_start := rd xin 0
    x_end := rd xin (n - 1)
    y := y
    x := x
    y2 := y2 }

/-- The binary search of `f` and `dfdx` (lines 143-150 and 181-188); the
result is the pair `(klo, khi)`. -/
def bisect (x : List K) (x0 : K) (klo khi : Int) : Int × Int :=
  if khi - klo > 1 then
    if rd x ((khi + klo) >>> (1 : Nat)) > x0 then
      bisect x x0 klo ((khi + klo) >>> (1 : Nat))
    else
      bisect x x0 ((khi + klo) >>> (1 : Nat)) khi
  else (klo, khi)
termination_by (khi - klo).toNat
decreasing_by
  all_goals
    rw [Int.shiftRight_eq_div_pow]
    omega

variable [FloorRing K]

/-- The conversion `int(v)` of a `realT`: truncation towards zero. -/
def truncToInt (v : K) : Int :=
  if 0 ≤ v then ⌊v⌋ else ⌈v⌉

/-- The lookup block that `f` (lines 134-151) and `dfdx` (lines 172-189)
share word for word; the result is the pair `(klo, khi)`. -/
def bracket (lg : K → K) (s : Spline K) (x0 : K) : Int × Int :=
  if s.type = 1 then
    let klo := MIN (truncToInt ((x0 - s.x_start) / (s.x_end - s.x_start) * ((s.n - 1 : Int) : K)))
      (s.n - 2)
    (klo, klo + 1)
  else if s.type = 2 then
    let klo := MIN (truncToInt (lg (x0 / s.x_start) / lg (s.x_end / s.x_start)
      * ((s.n - 1 : Int) : K))) (s.n - 2)
    (klo, klo + 1)
  else
    bisect s.x x0 0 (s.n - 1)

/-- Lines 152-163 of `f`: the value of the cubic on the bracket `(klo, khi)`,
or `exit(1)` when the bracket has width zero. -/
def segmentValue (s : Spline K) (klo khi : Int) (x0 : K) : Option K :=
  let h := rd s.x khi - rd s.x klo
  if h = 0 then none
  else
    let a := (rd s.x khi - x0) / h
    let b := (x0 - rd s.x klo) / h
    some (a * rd s.y klo + b * rd s.y khi
      + ((a * a * a - a) * rd s.y2 klo + (b * b * b - b) * rd s.y2 khi) * (h * h) / 6)

/-- Lines 190-199 of `dfdx`: the slope of the cubic on the bracket
`(klo, khi)`, or `exit(1)` when the bracket has width zero. -/
def segmentSlope (s : Spline K) (klo khi : Int) (x0 : K) : Option K :=
  let h := rd s.x khi - rd s.x klo
  if h = 0 then none
  else
    let a := (rd s.x khi - x0) / h
    let b := (x0 - rd s.x klo) / h
    some ((rd s.y khi - rd s.y klo) / h
      + h / 6 * (-(3 * a * a - 1) * rd s.y2 klo + (3 * b * b - 1) * rd s.y2 khi))

/-- The member function `Spline::f` (lines 129-164). -/
def f (lg : K → K) (s : Spline K) (x0 : K) : Option K :=
  segmentValue s (bracket lg s x0).1 (bracket lg s x0).2 x0

/-- The member function `Spline::dfdx` (lines 167-200). -/
def dfdx (lg : K → K) (s : Spline K) (x0 : K) : Option K :=
  segmentSlope s (bracket lg s x0).1 (bracket lg s x0).2 x0

/-- Allocation `new realT[n]` with the indeterminate contents of the fresh
cells made explicit: cell `i` holds `g i`. -/
def newArrayOf (g : Nat → K) (n : Int) : List K :=
  (List.range n.toNat).map g

/-- The member function `Spline::operator=` (lines 53-68), as the new state of
the target `self`.  `gx`, `gy`, `gy2` are the contents found in the three
freshly allocated arrays; the null pointer is the empty list. -/
def operatorAssign (gx gy gy2 : Nat → K) (self f : Spline K) : Spline K :=
  { self with
    n := f.n
    type := f.type
    x_start := f.x_start
    x_end := f.x_end
    name := f.name
    x := if f.n > 0 then newArrayOf gx f.n else []
    y := if f.n > 0 then newArrayOf gy f.n else []
    y2 := if f.n > 0 then newArrayOf gy2 f.n else [] }

/-- The binary search of `f` and `dfdx` (lines 143-150 and 181-188) once
more, recording the pair `(klo, khi)` at the start of every iteration of the
`while` loop; the index read in that iteration is `(khi+klo) >> 1`. -/
def bisectTrace (x : List K) (x0 : K) (klo khi : Int) : List (Int × Int) :=
  if khi - klo > 1 then
    if rd x ((khi + klo) >>> (1 : Nat)) > x0 then
      (klo, khi) :: bisectTrace x x0 klo ((khi + klo) >>> (1 : Nat))
    else
      (klo, khi) :: bisectTrace x x0 ((khi + klo) >>> (1 : Nat)) khi
  else []
termination_by (khi - klo).toNat
decreasing_by
  all_goals
    rw [Int.shiftRight_eq_div_pow]
    omega

end Code

/-! ## The demo system of `ode_solver/main.cpp` -/

section Ode

variable {K : Type} [LinearOrderedField K]

set_option linter.unusedVariables false in
/-- The function `ode2` of `ode_solver/main.cpp` (lines 25-28):
`dydx[0] = y[1]; dydx[1] = 1.0;`.  Both vectors are passed by reference; the
result is the pair `(y, dydx)` after the call. -/
def ode2 (x : K) (y dydx : List K) : List K × List K :=
  (y, wr (wr dydx 0 (rd y 1)) 1 1)

/-- Modelled from the spec: the part of the integrator that the spec leaves
to the implementation (steps 1-4 of section 4.2 and the open question of its
design notes).  `trial rhs x y h` is one trial step of the embedded
Runge–Kutta pair from `(x, y)` with size `h` for the right-hand side `rhs`:
the candidate state and the scalar error norm.  `grow` and `shrink` give the
next step size after an accepted and after a rejected step. -/
structure StepControl (K : Type) where
  trial : (K → List K → List K) → K → List K → K → List K × K
  grow : K → K
  shrink : K → K

/-- Modelled from the spec: the class `OdeSolver`, which `main.cpp` uses and
`src/` does not define, after construction with `(n, neq, rightHandSide)`,
`set_initial_conditions(xmin, xmax, ic)` and `set_precision(epsilon, h_start,
h_min)` (section 3, AdaptiveOdeIntegrator). -/
structure OdeSolver (K : Type) where
  n : Int
  neq : Int
  rightHandSide : K → List K → List K
  xmin : K
  xmax : K
  ic : List K
  epsilon : K
  h_start : K
  h_min : K

/-- Modelled from the spec: the result arrays of a solve: `x_array` is
`solutionX`, and `y_rows` holds the state vector recorded at each output
abscissa (`solutionY[eq][i]` is entry `eq` of row `i`). -/
structure OdeSolution (K : Type) where
  x_array : List K
  y_rows : List (List K)

/-- Modelled from the spec: output abscissa number `i` of the evenly spaced
grid of `n` points from `xmin` to `xmax` that the caller asks for. -/
def outputAbscissa (s : OdeSolver K) (i : Int) : K :=
  s.xmin + (i : K) * (s.xmax - s.xmin) / ((s.n - 1 : Int) : K)

/-- Modelled from the spec: the adaptive sub-steps of one output interval
(section 4.2, steps 1-5), from `(x, y)` with proposed step `h` until `target`
is reached.  A proposed step that would overshoot `target` is clamped to land
on it; a trial with error at most `epsilon` is accepted and the step grows; a
rejected trial shrinks the step, and the integration fails (`none`) when the
step would fall below `h_min`.  The first argument bounds the number of trial
steps; the spec has no such bound, and exhausting it stands for an
integration that does not end. -/
def advanceTo (c : StepControl K) (s : OdeSolver K) (target : K) :
    Nat → K → List K → K → Option (K × List K × K)
  | 0, _, _, _ => none
  | fuel + 1, x, y, h =>
    if x = target then some (x, y, h)
    else
      let hc := if x + h > target then target - x else h
      let r := c.trial s.rightHandSide x y hc
      if r.2 ≤ s.epsilon then advanceTo c s target fuel (x + hc) r.1 (c.grow hc)
      else if c.shrink hc < s.h_min then none
      else advanceTo c s target fuel x y (c.shrink hc)

/-- Modelled from the spec: the loop over the output intervals (section 4.2:
"for each of the n-1 output intervals ... values at each are recorded into
solutionX/solutionY").  `m` intervals remain, the next output abscissa has
number `i`, and `xs`, `ys` are the values recorded so far; what is recorded is
the abscissa reached by the sub-steps and the state there. -/
def outputLoop (c : StepControl K) (s : OdeSolver K) (fuel : Nat) :
    Nat → Int → K → List K → K → List K → List (List K) → Option (OdeSolution K)
  | 0, _, _, _, _, xs, ys => some { x_array := xs, y_rows := ys }
  | m + 1, i, x, y, h, xs, ys =>
    match advanceTo c s (outputAbscissa s i) fuel x y h with
    | none => none
    | some r => outputLoop c s fuel m (i + 1) r.1 r.2.1 r.2.2 (xs ++ [r.1]) (ys ++ [r.2.1])

/-- Modelled from the spec: `solve()`.  A degenerate configuration
(`neq ≤ 0`, `n < 2`, `xmin ≥ xmax`) is rejected at entry; otherwise the initial
point is recorded and the `n - 1` output intervals are integrated in turn,
starting with step `h_start`.  `none` is the state `Failed`. -/
def solve (c : StepControl K) (s : OdeSolver K) (fuel : Nat) : Option (OdeSolution K) :=
  if s.neq ≤ 0 ∨ s.n < 2 ∨ s.xmin ≥ s.xmax then none
  else outputLoop c s fuel (s.n - 1).toNat 1 s.xmin s.ic s.h_start [s.xmin] [s.ic]

end Ode

/-! ## Vocabulary of the statements -/

section Vocabulary

variable {K : Type} [LinearOrderedField K]

/-- The input contract of `create_spline`: `n ≥ 2` knots, both input arrays
hold at least `n` cells, and the abscissas `x[0..n-1]` are strictly
increasing. -/
def Knots (xin yin : List K) (n : Int) : Prop :=
  2 ≤ n ∧ n ≤ (xin.length : Int) ∧ n ≤ (yin.length : Int) ∧
    ∀ i : Int, 0 ≤ i → i + 1 < n → rd xin i < rd xin (i + 1)

/-- The arrays `(y2, u)` of `create_spline` when its forward loop has ended
(line 113): the decomposition coefficients and the reduced right-hand side. -/
def forwardState (xin yin : List K) (n : Int) (dydx1 : K) : List K × List K :=
  let c := copyLoop xin yin n 0 (newArray n) (newArray n) (newArray n)
  let l := leftBoundary c.1 c.2.1 dydx1 c.2.2 (newArray n)
  sweepLoop c.1 c.2.1 n 1 l.1 l.2

/-- What iteration `j` of the forward loop leaves in `y2[j]` and `u[j]`, in
terms of the entries at `j - 1`. -/
def SweepStep (x y D U : List K) (j : Int) : Prop :=
  rd D j = ((rd x j - rd x (j - 1)) / (rd x (j + 1) - rd x (j - 1)) - 1)
      / ((rd x j - rd x (j - 1)) / (rd x (j + 1) - rd x (j - 1)) * rd D (j - 1) + 2) ∧
  rd U j = (6 * ((rd y (j + 1) - rd y j) / (rd x (j + 1) - rd x j)
        - (rd y j - rd y (j - 1)) / (rd x j - rd x (j - 1))) / (rd x (j + 1) - rd x (j - 1))
      - (rd x j - rd x (j - 1)) / (rd x (j + 1) - rd x (j - 1)) * rd U (j - 1))
      / ((rd x j - rd x (j - 1)) / (rd x (j + 1) - rd x (j - 1)) * rd D (j - 1) + 2)

/-- The cubic polynomial `c0 + c1*x + c2*x^2 + c3*x^3`. -/
def cubic (c0 c1 c2 c3 x : K) : K :=
  c0 + c1 * x + c2 * x ^ 2 + c3 * x ^ 3

/-- First derivative of `cubic c0 c1 c2 c3`. -/
def cubicD (c1 c2 c3 x : K) : K :=
  c1 + 2 * c2 * x + 3 * c3 * x ^ 2

/-- Second derivative of `cubic c0 c1 c2 c3`. -/
def cubicDD (c2 c3 x : K) : K :=
  2 * c2 + 6 * c3 * x

end Vocabulary

/-- The index formula of the specification for UniformLinear mode,
`clamp(floor((x-domainStart)/(domainEnd-domainStart)*(N-1)), 0, N-2)`. -/
def specLinearIndex {K : Type} [LinearOrderedField K] [FloorRing K] (s : Spline K) (x : K) :
    Int :=
  max 0 (min ⌊(x - s.x_start) / (s.x_end - s.x_start) * ((s.n - 1 : Int) : K)⌋ (s.n - 2))

/-! ## Lemmas -/

section ArrayLemmas

variable {K : Type}

theorem length_wr (a : List K) (i : Int) (v : K) : (wr a i v).length = a.length := by
  unfold wr
  split <;> simp

theorem rd_wr_same [Zero K] (a : List K) (i : Int) (v : K) (h0 : 0 ≤ i)
    (h1 : i < (a.length : Int)) : rd (wr a i v) i = v := by
  have h2 : i.toNat < a.length := by omega
  simp [rd, wr, h0, List.getD_eq_getElem?_getD, List.getElem?_set, h2]

theorem rd_wr_ne [Zero K] (a : List K) (i j : Int) (v : K) (h : j ≠ i) :
    rd (wr a i v) j = rd a j := by
  unfold rd wr
  by_cases hj : 0 ≤ j
  · by_cases hi : 0 ≤ i
    · have h2 : i.toNat ≠ j.toNat := by omega
      simp [hj, hi, List.getD_eq_getElem?_getD, List.getElem?_set, h2]
    · simp [hj, hi]
  · simp [hj]

theorem length_newArray [Zero K] (n : Int) (h : 0 ≤ n) :
    (((newArray n : List K).length : Nat) : Int) = n := by
  simp [newArray, h]

end ArrayLemmas

section LoopLemmas

variable {K : Type} [LinearOrderedField K]

theorem copyLoop_spec (xin yin : List K) (n : Int) :
    ∀ (m : Nat) (i : Int) (x y y2 : List K), (n - i).toNat = m → 0 ≤ i →
      (n : Int) ≤ x.length → (n : Int) ≤ y.length → (n : Int) ≤ y2.length →
      (copyLoop xin yin n i x y y2).1.length = x.length ∧
      (copyLoop xin yin n i x y y2).2.1.length = y.length ∧
      (copyLoop xin yin n i x y y2).2.2.length = y2.length ∧
      (∀ j, j < i →
        rd (copyLoop xin yin n i x y y2).1 j = rd x j ∧
        rd (copyLoop xin yin n i x y y2).2.1 j = rd y j ∧
        rd (copyLoop xin yin n i x y y2).2.2 j = rd y2 j) ∧
      ∀ j, i ≤ j → j < n →
        rd (copyLoop xin yin n i x y y2).1 j = rd xin j ∧
        rd (copyLoop xin yin n i x y y2).2.1 j = rd yin j ∧
        rd (copyLoop xin yin n i x y y2).2.2 j = 0 := by
  intro m
  induction m with
  | zero =>
    intro i x y y2 hm hi hx hy hy2
    have hin : ¬ i < n := by omega
    rw [copyLoop]
    simp only [hin, if_false]
    exact ⟨trivial, trivial, trivial, fun j _ => ⟨trivial, trivial, trivial⟩,
      fun j h1 h2 => by omega⟩
  | succ m ih =>
    intro i x y y2 hm hi hx hy hy2
    have hin : i < n := by omega
    rw [copyLoop]
    simp only [hin, if_true]
    have IH := ih (i + 1) (wr x i (rd xin i)) (wr y i (rd yin i)) (wr y2 i 0)
      (by omega) (by omega) (by rw [length_wr]; exact hx) (by rw [length_wr]; exact hy)
      (by rw [length_wr]; exact hy2)
    obtain ⟨l1, l2, l3, hlow, hrd⟩ := IH
    simp only [length_wr] at l1 l2 l3
    refine ⟨l1, l2, l3, ?_, ?_⟩
    · intro j hj
      have := hlow j (by omega)
      rw [rd_wr_ne _ _ _ _ (by omega), rd_wr_ne _ _ _ _ (by omega),
        rd_wr_ne _ _ _ _ (by omega)] at this
      exact this
    · intro j h1 h2
      by_cases hji : j = i
      · subst hji
        have := hlow j (by omega)
        rw [rd_wr_same _ _ _ hi (by omega), rd_wr_same _ _ _ hi (by omega),
          rd_wr_same _ _ _ hi (by omega)] at this
        exact this
      · exact hrd j (by omega) h2

end LoopLemmas

section SweepLemmas

variable {K : Type} [LinearOrderedField K]

theorem sweepLoop_spec (x y : List K) (n : Int) :
    ∀ (m : Nat) (i : Int) (y2 u : List K), (n - 1 - i).toNat = m → 0 ≤ i →
      (n : Int) ≤ y2.length → (n : Int) ≤ u.length →
      (sweepLoop x y n i y2 u).1.length = y2.length ∧
      (sweepLoop x y n i y2 u).2.length = u.length ∧
      (∀ j, j < i ∨ n - 1 ≤ j →
        rd (sweepLoop x y n i y2 u).1 j = rd y2 j ∧
        rd (sweepLoop x y n i y2 u).2 j = rd u j) ∧
      ∀ j, i ≤ j → j < n - 1 →
        SweepStep x y (sweepLoop x y n i y2 u).1 (sweepLoop x y n i y2 u).2 j := by
  intro m
  induction m with
  | zero =>
    intro i y2 u hm hi hy2 hu
    have hin : ¬ i < n - 1 := by omega
    rw [sweepLoop]
    simp only [hin, if_false]
    exact ⟨trivial, trivial, fun j _ => ⟨trivial, trivial⟩, fun j h1 h2 => by omega⟩
  | succ m ih =>
    intro i y2 u hm hi hy2 hu
    have hin : i < n - 1 := by omega
    rw [sweepLoop]
    simp only [hin, if_true]
    rw [rd_wr_same _ _ _ hi (by omega), rd_wr_ne _ _ _ _ (by omega : i - 1 ≠ i)]
    generalize hA : wr y2 i _ = y2a
    generalize hB : wr (wr u i _) i _ = ub
    have ly2a : y2a.length = y2.length := by rw [← hA, length_wr]
    have lub : ub.length = u.length := by rw [← hB, length_wr, length_wr]
    obtain ⟨l1, l2, hout, hstep⟩ := ih (i + 1) y2a ub (by omega) (by omega)
      (by rw [ly2a]; exact hy2) (by rw [lub]; exact hu)
    refine ⟨by rw [l1, ly2a], by rw [l2, lub], ?_, ?_⟩
    · intro j hj
      have hne : j ≠ i := by omega
      obtain ⟨e1, e2⟩ := hout j (by omega)
      rw [e1, e2, ← hA, ← hB, rd_wr_ne _ _ _ _ hne, rd_wr_ne _ _ _ _ hne, rd_wr_ne _ _ _ _ hne]
      exact ⟨rfl, rfl⟩
    · intro j h1 h2
      by_cases hji : j = i
      · subst hji
        obtain ⟨e1, e2⟩ := hout j (by omega)
        obtain ⟨e3, e4⟩ := hout (j - 1) (by omega)
        have hne : j - 1 ≠ j := by omega
        unfold SweepStep
        rw [e1, e2, e3, e4, ← hA, ← hB, rd_wr_same _ _ _ hi (by omega),
          rd_wr_same _ _ _ hi (by rw [length_wr]; omega), rd_wr_ne _ _ _ _ hne,
          rd_wr_ne _ _ _ _ hne, rd_wr_ne _ _ _ _ hne]
        exact ⟨rfl, rfl⟩
      · exact hstep j (by omega) h2

theorem backLoop_spec (u : List K) :
    ∀ (m : Nat) (i : Int) (y2 : List K), (i + 1).toNat = m → -1 ≤ i →
      i + 1 < (y2.length : Int) →
      (backLoop i y2 u).length = y2.length ∧
      (∀ j, i < j → rd (backLoop i y2 u) j = rd y2 j) ∧
      ∀ j, 0 ≤ j → j ≤ i →
        rd (backLoop i y2 u) j = rd y2 j * rd (backLoop i y2 u) (j + 1) + rd u j := by
  intro m
  induction m with
  | zero =>
    intro i y2 hm hi hlen
    have hin : ¬ 0 ≤ i := by omega
    rw [backLoop]
    simp only [hin, if_false]
    exact ⟨trivial, fun j _ => trivial, fun j h1 h2 => by omega⟩
  | succ m ih =>
    intro i y2 hm hi hlen
    have hin : 0 ≤ i := by omega
    rw [backLoop]
    simp only [hin, if_true]
    generalize hA : wr y2 i _ = y2a
    have ly2a : y2a.length = y2.length := by rw [← hA, length_wr]
    obtain ⟨l1, hhigh, hrec⟩ := ih (i - 1) y2a (by omega) (by omega) (by rw [ly2a]; omega)
    refine ⟨by rw [l1, ly2a], ?_, ?_⟩
    · intro j hj
      rw [hhigh j (by omega), ← hA, rd_wr_ne _ _ _ _ (by omega)]
    · intro j h1 h2
      by_cases hji : j = i
      · subst hji
        rw [hhigh j (by omega), hhigh (j + 1) (by omega), ← hA,
          rd_wr_same _ _ _ hin (by omega), rd_wr_ne _ _ _ _ (by omega)]
      · have := hrec j h1 (by omega)
        rw [this, ← hA, rd_wr_ne _ _ _ _ hji]

end SweepLemmas

section CreateLemmas

variable {K : Type} [LinearOrderedField K]

theorem create_spline_fields (xin yin : List K) (n : Int) (d1 dn : K) (t : Int) (nm : String) :
    (create_spline xin yin n d1 dn t nm).n = n ∧
    (create_spline xin yin n d1 dn t nm).type = t ∧
    (create_spline xin yin n d1 dn t nm).name = nm ∧
    (create_spline xin yin n d1 dn t nm).x_start = rd xin 0 ∧
    (create_spline xin yin n d1 dn t nm).x_end = rd xin (n - 1) :=
  ⟨rfl, rfl, rfl, rfl, rfl⟩

theorem create_spline_xy (xin yin : List K) (n : Int) (d1 dn : K) (t : Int) (nm : String)
    (hn : 0 ≤ n) :
    ((create_spline xin yin n d1 dn t nm).x.length : Int) = n ∧
    ((create_spline xin yin n d1 dn t nm).y.length : Int) = n ∧
    ∀ j, 0 ≤ j → j < n →
      rd (create_spline xin yin n d1 dn t nm).x j = rd xin j ∧
      rd (create_spline xin yin n d1 dn t nm).y j = rd yin j := by
  have hl := length_newArray (K := K) n hn
  obtain ⟨l1, l2, _, _, h⟩ := copyLoop_spec xin yin n (n - 0).toNat 0 (newArray n) (newArray n)
    (newArray n) rfl le_rfl hl.ge hl.ge hl.ge
  refine ⟨?_, ?_, ?_⟩
  · show (((copyLoop xin yin n 0 (newArray n) (newArray n) (newArray n)).1.length : Nat) : Int) = n
    rw [l1, hl]
  · show (((copyLoop xin yin n 0 (newArray n) (newArray n) (newArray n)).2.1.length : Nat) : Int) = n
    rw [l2, hl]
  · intro j h0 h1
    exact ⟨(h j h0 h1).1, (h j h0 h1).2.1⟩

theorem create_spline_y2 (xin yin : List K) (n : Int) (d1 dn : K) (t : Int) (nm : String) :
    (create_spline xin yin n d1 dn t nm).y2
      = backLoop (n - 2)
          (rightBoundary (create_spline xin yin n d1 dn t nm).x
            (create_spline xin yin n d1 dn t nm).y n dn
            (forwardState xin yin n d1).1 (forwardState xin yin n d1).2)
          (forwardState xin yin n d1).2 :=
  rfl

theorem forwardState_spec (xin yin : List K) (n : Int) (d1 : K) (hn : 2 ≤ n) :
    ((forwardState xin yin n d1).1.length : Int) = n ∧
    ((forwardState xin yin n d1).2.length : Int) = n ∧
    rd (forwardState xin yin n d1).1 0 = (if d1 > 0.99e30 then 0 else -0.5) ∧
    rd (forwardState xin yin n d1).2 0 = (if d1 > 0.99e30 then 0 else
      (3 / (rd xin 1 - rd xin 0)) * ((rd yin 1 - rd yin 0) / (rd xin 1 - rd xin 0) - d1)) ∧
    ∀ j, 1 ≤ j → j < n - 1 →
      SweepStep xin yin (forwardState xin yin n d1).1 (forwardState xin yin n d1).2 j := by
  have hl := length_newArray (K := K) n (by omega)
  obtain ⟨l1, l2, l3, _, h⟩ := copyLoop_spec xin yin n (n - 0).toNat 0 (newArray n) (newArray n)
    (newArray n) rfl le_rfl hl.ge hl.ge hl.ge
  unfold forwardState
  simp only []
  generalize copyLoop xin yin n 0 (newArray n) (newArray n) (newArray n) = c at l1 l2 l3 h ⊢
  have hL1 : ((leftBoundary c.1 c.2.1 d1 c.2.2 (newArray n)).1.length : Int) = n := by
    unfold leftBoundary; split <;> simp only [length_wr, l3, hl]
  have hL2 : ((leftBoundary c.1 c.2.1 d1 c.2.2 (newArray n)).2.length : Int) = n := by
    unfold leftBoundary; split <;> simp only [length_wr, hl]
  have hx : ∀ j, 0 ≤ j → j < n → rd c.1 j = rd xin j := fun j a b => (h j a b).1
  have hy : ∀ j, 0 ≤ j → j < n → rd c.2.1 j = rd yin j := fun j a b => (h j a b).2.1
  have hL3 : rd (leftBoundary c.1 c.2.1 d1 c.2.2 (newArray n)).1 0
      = (if d1 > 0.99e30 then 0 else -0.5) := by
    unfold leftBoundary
    split
    · exact rd_wr_same _ _ _ le_rfl (by omega)
    · exact rd_wr_same _ _ _ le_rfl (by omega)
  have hL4 : rd (leftBoundary c.1 c.2.1 d1 c.2.2 (newArray n)).2 0 = (if d1 > 0.99e30 then 0 else
      (3 / (rd xin 1 - rd xin 0)) * ((rd yin 1 - rd yin 0) / (rd xin 1 - rd xin 0) - d1)) := by
    unfold leftBoundary
    split
    · exact rd_wr_same _ _ _ le_rfl (by omega)
    · rw [rd_wr_same _ _ _ le_rfl (by omega), hx 0 le_rfl (by omega), hx 1 (by omega) (by omega),
        hy 0 le_rfl (by omega), hy 1 (by omega) (by omega)]
  generalize leftBoundary c.1 c.2.1 d1 c.2.2 (newArray n) = l at hL1 hL2 hL3 hL4 ⊢
  obtain ⟨s1, s2, hout, hstep⟩ := sweepLoop_spec c.1 c.2.1 n (n - 1 - 1).toNat 1 l.1 l.2 rfl
    (by omega) hL1.ge hL2.ge
  refine ⟨by rw [s1, hL1], by rw [s2, hL2], ?_, ?_, ?_⟩
  · rw [(hout 0 (by omega)).1, hL3]
  · rw [(hout 0 (by omega)).2, hL4]
  · intro j h1 h2
    have := hstep j h1 h2
    unfold SweepStep at this ⊢
    rw [hx j (by omega) (by omega), hx (j - 1) (by omega) (by omega),
      hx (j + 1) (by omega) (by omega), hy j (by omega) (by omega),
      hy (j - 1) (by omega) (by omega), hy (j + 1) (by omega) (by omega)] at this
    exact this

end CreateLemmas

section CreateLemmas2

variable {K : Type} [LinearOrderedField K]

theorem create_spline_y2_spec (xin yin : List K) (n : Int) (d1 dn : K) (t : Int) (nm : String)
    (hn : 2 ≤ n) :
    ((create_spline xin yin n d1 dn t nm).y2.length : Int) = n ∧
    rd (create_spline xin yin n d1 dn t nm).y2 (n - 1) = (if dn > 0.99e30 then 0 else
      ((3 / (rd xin (n - 1) - rd xin (n - 2)))
          * (dn - (rd yin (n - 1) - rd yin (n - 2)) / (rd xin (n - 1) - rd xin (n - 2)))
        - 0.5 * rd (forwardState xin yin n d1).2 (n - 2))
        / (0.5 * rd (forwardState xin yin n d1).1 (n - 2) + 1)) ∧
    ∀ j, 0 ≤ j → j ≤ n - 2 →
      rd (create_spline xin yin n d1 dn t nm).y2 j
        = rd (forwardState xin yin n d1).1 j * rd (create_spline xin yin n d1 dn t nm).y2 (j + 1)
          + rd (forwardState xin yin n d1).2 j := by
  obtain ⟨_, _, hxy⟩ := create_spline_xy xin yin n d1 dn t nm (by omega)
  obtain ⟨f1, f2, -, -, -⟩ := forwardState_spec xin yin n d1 hn
  rw [create_spline_y2]
  generalize (create_spline xin yin n d1 dn t nm).x = x at hxy ⊢
  generalize (create_spline xin yin n d1 dn t nm).y = y at hxy ⊢
  generalize forwardState xin yin n d1 = F at f1 f2 ⊢
  have hR1 : ((rightBoundary x y n dn F.1 F.2).length : Int) = n := by
    unfold rightBoundary; split <;> simp only [length_wr, f1]
  have hR2 : rd (rightBoundary x y n dn F.1 F.2) (n - 1) = (if dn > 0.99e30 then 0 else
      ((3 / (rd xin (n - 1) - rd xin (n - 2)))
          * (dn - (rd yin (n - 1) - rd yin (n - 2)) / (rd xin (n - 1) - rd xin (n - 2)))
        - 0.5 * rd F.2 (n - 2)) / (0.5 * rd F.1 (n - 2) + 1)) := by
    unfold rightBoundary
    split
    · exact rd_wr_same _ _ _ (by omega) (by omega)
    · simp only []
      rw [rd_wr_same _ _ _ (by omega) (by omega), (hxy (n - 1) (by omega) (by omega)).1,
        (hxy (n - 2) (by omega) (by omega)).1, (hxy (n - 1) (by omega) (by omega)).2,
        (hxy (n - 2) (by omega) (by omega)).2]
  have hR3 : ∀ j, j ≠ n - 1 → rd (rightBoundary x y n dn F.1 F.2) j = rd F.1 j := by
    intro j hj
    unfold rightBoundary
    split
    · exact rd_wr_ne _ _ _ _ hj
    · exact rd_wr_ne _ _ _ _ hj
  generalize rightBoundary x y n dn F.1 F.2 = R at hR1 hR2 hR3 ⊢
  obtain ⟨b1, b2, b3⟩ := backLoop_spec F.2 (n - 2 + 1).toNat (n - 2) R rfl (by omega) (by omega)
  refine ⟨by rw [b1, hR1], ?_, ?_⟩
  · rw [b2 (n - 1) (by omega), hR2]
  · intro j h0 h1
    rw [b3 j h0 h1, hR3 j (by omega)]

/-- Adjacent strict growth gives strict growth between any two indices. -/
theorem increasing_of_adjacent (x : List K) (n : Int)
    (hx : ∀ i, 0 ≤ i → i + 1 < n → rd x i < rd x (i + 1)) :
    ∀ i j, 0 ≤ i → i < j → j < n → rd x i < rd x j := by
  intro i j hi hij hj
  obtain ⟨d, rfl⟩ : ∃ d : Nat, j = i + 1 + d := ⟨(j - i - 1).toNat, by omega⟩
  induction d with
  | zero => simpa using hx i hi (by simpa using hj)
  | succ d ih =>
    have h1 := ih (by omega) (by omega)
    have h2 := hx (i + 1 + d) (by omega) (by push_cast at hj; omega)
    have e : i + 1 + ((d + 1 : Nat) : Int) = i + 1 + d + 1 := by push_cast; ring
    rw [e]
    exact lt_trans h1 h2

theorem increasing_le (x : List K) (n : Int)
    (hx : ∀ i, 0 ≤ i → i + 1 < n → rd x i < rd x (i + 1)) :
    ∀ i j, 0 ≤ i → i < n → 0 ≤ j → j < n → rd x i ≤ rd x j → i ≤ j := by
  intro i j hi hin hj hjn hle
  by_contra hcon
  have := increasing_of_adjacent x n hx j i hj (by omega) hin
  exact absurd hle (not_le.mpr this)

end CreateLemmas2

section BisectLemmas

variable {K : Type} [LinearOrderedField K]

theorem shiftRight_one (m : Int) : m >>> (1 : Nat) = m / 2 := by
  rw [Int.shiftRight_eq_div_pow]
  norm_num

theorem bisect_spec (x : List K) (x0 : K) :
    ∀ (m : Nat) (klo khi : Int), (khi - klo).toNat = m → klo < khi →
      (bisect x x0 klo khi).2 = (bisect x x0 klo khi).1 + 1 ∧
      klo ≤ (bisect x x0 klo khi).1 ∧ (bisect x x0 klo khi).2 ≤ khi ∧
      ((bisect x x0 klo khi).1 = klo ∨ rd x (bisect x x0 klo khi).1 ≤ x0) ∧
      ((bisect x x0 klo khi).2 = khi ∨ x0 < rd x (bisect x x0 klo khi).2) := by
  intro m
  induction m using Nat.strong_induction_on with
  | _ m ih =>
    intro klo khi hm hlt
    rw [bisect]
    by_cases hgap : khi - klo > 1
    · simp only [hgap, if_true]
      rw [shiftRight_one]
      by_cases hk : rd x ((khi + klo) / 2) > x0
      · simp only [hk, if_true]
        obtain ⟨a1, a2, a3, a4, a5⟩ := ih (((khi + klo) / 2 - klo).toNat) (by omega) klo
          ((khi + klo) / 2) rfl (by omega)
        refine ⟨a1, a2, by omega, a4, ?_⟩
        rcases a5 with a5 | a5
        · right; rw [a5]; exact hk
        · right; exact a5
      · simp only [hk, if_false]
        obtain ⟨a1, a2, a3, a4, a5⟩ := ih ((khi - (khi + klo) / 2).toNat) (by omega)
          ((khi + klo) / 2) khi rfl (by omega)
        refine ⟨a1, by omega, a3, ?_, a5⟩
        rcases a4 with a4 | a4
        · right; rw [a4]; exact not_lt.mp hk
        · right; exact a4
    · simp only [hgap, if_false]
      exact ⟨by omega, le_rfl, le_rfl, Or.inl trivial, Or.inl trivial⟩

end BisectLemmas

section EvalLemmas

variable {K : Type} [LinearOrderedField K]

theorem segmentValue_left (s : Spline K) (klo khi : Int) (h : rd s.x klo ≠ rd s.x khi) :
    segmentValue s klo khi (rd s.x klo) = some (rd s.y klo) := by
  have h' : rd s.x khi - rd s.x klo ≠ 0 := sub_ne_zero.mpr (Ne.symm h)
  unfold segmentValue
  simp only [h', if_false, sub_self, zero_div, div_self h', Option.some.injEq]
  ring

theorem segmentValue_right (s : Spline K) (klo khi : Int) (h : rd s.x klo ≠ rd s.x khi) :
    segmentValue s klo khi (rd s.x khi) = some (rd s.y khi) := by
  have h' : rd s.x khi - rd s.x klo ≠ 0 := sub_ne_zero.mpr (Ne.symm h)
  unfold segmentValue
  simp only [h', if_false, sub_self, zero_div, div_self h', Option.some.injEq]
  ring

/-- Where the binary search stops when the query is the knot `x[i]` of a
strictly increasing array: on `(i, i+1)`, or on `(n-2, n-1)` for the last
knot. -/
theorem bisect_knot (x : List K) (n : Int) (hn : 2 ≤ n)
    (hx : ∀ i, 0 ≤ i → i + 1 < n → rd x i < rd x (i + 1)) (i : Int) (hi0 : 0 ≤ i)
    (hin : i < n) :
    (bisect x (rd x i) 0 (n - 1) = (i, i + 1) ∧ i + 1 < n) ∨
    (bisect x (rd x i) 0 (n - 1) = (i - 1, i) ∧ i = n - 1) := by
  obtain ⟨a1, a2, a3, a4, a5⟩ := bisect_spec x (rd x i) (n - 1 - 0).toNat 0 (n - 1) rfl (by omega)
  generalize bisect x (rd x i) 0 (n - 1) = r at a1 a2 a3 a4 a5 ⊢
  obtain ⟨klo, khi⟩ := r
  simp only at a1 a2 a3 a4 a5
  subst a1
  have hmono := increasing_of_adjacent x n hx
  have hle : klo ≤ i := by
    rcases a4 with a4 | a4
    · omega
    · exact increasing_le x n hx klo i a2 (by omega) hi0 hin a4
  rcases a5 with a5 | a5
  · by_cases hlast : i = n - 1
    · right; exact ⟨by rw [Prod.mk.injEq]; constructor <;> omega, hlast⟩
    · left; exact ⟨by rw [Prod.mk.injEq]; constructor <;> omega, by omega⟩
  · have : i < klo + 1 := by
      by_contra hcon
      have := increasing_le x n hx (klo + 1) i (by omega) (by omega) hi0 hin
      by_cases heq : klo + 1 = i
      · rw [heq] at a5; exact lt_irrefl _ a5
      · have h3 := hmono (klo + 1) i (by omega) (by omega) hin
        exact lt_asymm a5 h3
    left; exact ⟨by rw [Prod.mk.injEq]; constructor <;> omega, by omega⟩

variable [FloorRing K]

theorem truncToInt_intCast (k : Int) : truncToInt ((k : Int) : K) = k := by
  unfold truncToInt
  split <;> simp

theorem bracket_arbitrary (lg : K → K) (s : Spline K) (x0 : K) (h1 : s.type ≠ 1)
    (h2 : s.type ≠ 2) : bracket lg s x0 = bisect s.x x0 0 (s.n - 1) := by
  unfold bracket
  simp [h1, h2]

theorem bracket_linear (lg : K → K) (s : Spline K) (x0 : K) (h1 : s.type = 1) :
    bracket lg s x0
      = (MIN (truncToInt ((x0 - s.x_start) / (s.x_end - s.x_start) * ((s.n - 1 : Int) : K)))
          (s.n - 2),
         MIN (truncToInt ((x0 - s.x_start) / (s.x_end - s.x_start) * ((s.n - 1 : Int) : K)))
          (s.n - 2) + 1) := by
  unfold bracket
  simp [h1]

end EvalLemmas

section BoundLemmas

variable {K : Type} [LinearOrderedField K]

theorem lit_half : (0.5 : K) = 1 / 2 := by norm_num

theorem lit_neg_half : (-0.5 : K) = -(1 / 2) := by norm_num

/-- One step of the coefficient recurrence keeps the coefficient in
`[-1/2, 0]` and the pivot above `3/2`. -/
theorem coeff_step (sig d : K) (hs0 : 0 < sig) (hs1 : sig < 1) (hd0 : -(1 / 2) ≤ d)
    (hd1 : d ≤ 0) :
    3 / 2 < sig * d + 2 ∧ sig * d + 2 ≤ 2 ∧
    -(1 / 2) ≤ (sig - 1) / (sig * d + 2) ∧ (sig - 1) / (sig * d + 2) ≤ 0 := by
  have h1 : sig * d ≤ 0 := mul_nonpos_of_nonneg_of_nonpos hs0.le hd1
  have h2 : -(1 / 2) < sig * d := by nlinarith
  have hp : 0 < sig * d + 2 := by linarith
  refine ⟨by linarith, by linarith, ?_, ?_⟩
  · rw [le_div_iff₀ hp]
    nlinarith
  · exact div_nonpos_of_nonpos_of_nonneg (by linarith) hp.le

theorem sigma_bounds (x : List K) (n : Int)
    (hx : ∀ i : Int, 0 ≤ i → i + 1 < n → rd x i < rd x (i + 1)) (j : Int) (h1 : 1 ≤ j)
    (h2 : j < n - 1) :
    0 < (rd x j - rd x (j - 1)) / (rd x (j + 1) - rd x (j - 1)) ∧
    (rd x j - rd x (j - 1)) / (rd x (j + 1) - rd x (j - 1)) < 1 := by
  have a := hx (j - 1) (by omega) (by omega)
  rw [sub_add_cancel] at a
  have b := hx j (by omega) (by omega)
  have hp : 0 < rd x (j + 1) - rd x (j - 1) := by linarith
  refine ⟨div_pos (by linarith) hp, ?_⟩
  rw [div_lt_one hp]
  linarith

theorem forward_coeff_bounds (xin yin : List K) (n : Int) (d1 : K) (hk : Knots xin yin n) :
    ∀ j : Int, 0 ≤ j → j ≤ n - 2 →
      -(1 / 2) ≤ rd (forwardState xin yin n d1).1 j ∧ rd (forwardState xin yin n d1).1 j ≤ 0 := by
  obtain ⟨hn, -, -, hinc⟩ := hk
  obtain ⟨-, -, h0, -, hstep⟩ := forwardState_spec xin yin n d1 hn
  intro j hj0 hj1
  obtain ⟨k, rfl⟩ : ∃ k : Nat, j = k := ⟨j.toNat, by omega⟩
  induction k with
  | zero =>
    simp only [Nat.cast_zero] at *
    rw [h0]
    split <;> norm_num
  | succ k ih =>
    have ih' := ih (by omega) (by omega)
    have hs := (hstep ((k + 1 : Nat) : Int) (by omega) (by omega)).1
    have e : ((k + 1 : Nat) : Int) - 1 = (k : Int) := by push_cast; ring
    rw [e] at hs
    obtain ⟨s0, s1⟩ := sigma_bounds xin n hinc ((k + 1 : Nat) : Int) (by omega) (by omega)
    rw [e] at s0 s1
    rw [hs]
    exact (coeff_step _ _ s0 s1 ih'.1 ih'.2).2.2

end BoundLemmas

section SystemLemmas

variable {K : Type} [LinearOrderedField K]

/-- Left end of the solved system: `y2[0] = 0` for the natural condition,
`2*y2[0] + y2[1] = 6/h * ((y[1]-y[0])/h - dydx1)` for the clamped one. -/
theorem left_relation (xin yin : List K) (n : Int) (d1 dn : K) (t : Int) (nm : String)
    (hk : Knots xin yin n) :
    (d1 > 0.99e30 → rd (create_spline xin yin n d1 dn t nm).y2 0 = 0) ∧
    (¬ d1 > 0.99e30 →
      2 * rd (create_spline xin yin n d1 dn t nm).y2 0 + rd (create_spline xin yin n d1 dn t nm).y2 1
        = 6 / (rd xin 1 - rd xin 0) * ((rd yin 1 - rd yin 0) / (rd xin 1 - rd xin 0) - d1)) := by
  obtain ⟨hn, -, -, -⟩ := hk
  obtain ⟨-, -, h0, u0, -⟩ := forwardState_spec xin yin n d1 hn
  obtain ⟨-, -, hb⟩ := create_spline_y2_spec xin yin n d1 dn t nm hn
  have e := hb 0 le_rfl (by omega)
  rw [h0, u0, zero_add] at e
  constructor
  · intro h
    rw [e, if_pos h, if_pos h]
    ring
  · intro h
    rw [e, if_neg h, if_neg h, lit_neg_half]
    ring

/-- Right end of the solved system: `y2[n-1] = 0` for the natural condition,
`y2[n-2] + 2*y2[n-1] = 6/h * (dydxn - (y[n-1]-y[n-2])/h)` for the clamped one. -/
theorem right_relation (xin yin : List K) (n : Int) (d1 dn : K) (t : Int) (nm : String)
    (hk : Knots xin yin n) :
    (dn > 0.99e30 → rd (create_spline xin yin n d1 dn t nm).y2 (n - 1) = 0) ∧
    (¬ dn > 0.99e30 →
      rd (create_spline xin yin n d1 dn t nm).y2 (n - 2)
          + 2 * rd (create_spline xin yin n d1 dn t nm).y2 (n - 1)
        = 6 / (rd xin (n - 1) - rd xin (n - 2))
          * (dn - (rd yin (n - 1) - rd yin (n - 2)) / (rd xin (n - 1) - rd xin (n - 2)))) := by
  have hD := forward_coeff_bounds xin yin n d1 hk (n - 2) (by have := hk.1; omega) le_rfl
  obtain ⟨hn, -, -, -⟩ := hk
  obtain ⟨-, hlast, hb⟩ := create_spline_y2_spec xin yin n d1 dn t nm hn
  have e := hb (n - 2) (by omega) le_rfl
  have e1 : n - 2 + 1 = n - 1 := by ring
  rw [e1] at e
  constructor
  · intro h
    rw [hlast, if_pos h]
  · intro h
    rw [if_neg h, lit_half] at hlast
    have hp : (1 / 2 : K) * rd (forwardState xin yin n d1).1 (n - 2) + 1 ≠ 0 := by
      have : (0 : K) < 1 / 2 * rd (forwardState xin yin n d1).1 (n - 2) + 1 := by linarith [hD.1]
      exact this.ne'
    rw [eq_div_iff hp] at hlast
    rw [e]
    linear_combination 2 * hlast

/-- Interior rows of the solved system, in the normalised form the forward
loop works with. -/
theorem interior_relation (xin yin : List K) (n : Int) (d1 dn : K) (t : Int) (nm : String)
    (hk : Knots xin yin n) (j : Int) (h1 : 1 ≤ j) (h2 : j ≤ n - 2) :
    (rd xin j - rd xin (j - 1)) / (rd xin (j + 1) - rd xin (j - 1))
        * rd (create_spline xin yin n d1 dn t nm).y2 (j - 1)
      + 2 * rd (create_spline xin yin n d1 dn t nm).y2 j
      + (1 - (rd xin j - rd xin (j - 1)) / (rd xin (j + 1) - rd xin (j - 1)))
        * rd (create_spline xin yin n d1 dn t nm).y2 (j + 1)
      = 6 * ((rd yin (j + 1) - rd yin j) / (rd xin (j + 1) - rd xin j)
          - (rd yin j - rd yin (j - 1)) / (rd xin j - rd xin (j - 1)))
        / (rd xin (j + 1) - rd xin (j - 1)) := by
  have hD := forward_coeff_bounds xin yin n d1 hk (j - 1) (by omega) (by omega)
  obtain ⟨hn, -, -, hinc⟩ := hk
  obtain ⟨-, -, -, -, hstep⟩ := forwardState_spec xin yin n d1 hn
  obtain ⟨-, -, hb⟩ := create_spline_y2_spec xin yin n d1 dn t nm hn
  obtain ⟨s0, s1⟩ := sigma_bounds xin n hinc j h1 (by omega)
  obtain ⟨p0, -, -, -⟩ := coeff_step _ _ s0 s1 hD.1 hD.2
  obtain ⟨hd, hu⟩ := hstep j h1 (by omega)
  have ej := hb j (by omega) h2
  have ej' := hb (j - 1) (by omega) (by omega)
  rw [sub_add_cancel] at ej'
  generalize rd (create_spline xin yin n d1 dn t nm).y2 (j - 1) = m0 at ej' ⊢
  generalize rd (create_spline xin yin n d1 dn t nm).y2 j = m1 at ej ej' ⊢
  generalize rd (create_spline xin yin n d1 dn t nm).y2 (j + 1) = m2 at ej ⊢
  generalize (rd xin j - rd xin (j - 1)) / (rd xin (j + 1) - rd xin (j - 1)) = sig at *
  generalize 6 * ((rd yin (j + 1) - rd yin j) / (rd xin (j + 1) - rd xin j)
          - (rd yin j - rd yin (j - 1)) / (rd xin j - rd xin (j - 1)))
        / (rd xin (j + 1) - rd xin (j - 1)) = r at *
  generalize rd (forwardState xin yin n d1).1 (j - 1) = dp at *
  generalize rd (forwardState xin yin n d1).2 (j - 1) = up at *
  generalize rd (forwardState xin yin n d1).1 j = dj at *
  generalize rd (forwardState xin yin n d1).2 j = uj at *
  have hp : sig * dp + 2 ≠ 0 := by
    have : (0 : K) < sig * dp + 2 := by linarith
    exact this.ne'
  rw [eq_div_iff hp] at hd hu
  subst ej'
  rw [ej]
  linear_combination (m2) * hd + hu

end SystemLemmas

section KnotLemmas

variable {K : Type} [LinearOrderedField K]

theorem segmentSlope_left (s : Spline K) (klo khi : Int) (h : rd s.x klo ≠ rd s.x khi) :
    segmentSlope s klo khi (rd s.x klo)
      = some ((rd s.y khi - rd s.y klo) / (rd s.x khi - rd s.x klo)
          - (rd s.x khi - rd s.x klo) / 6 * (2 * rd s.y2 klo + rd s.y2 khi)) := by
  have h' : rd s.x khi - rd s.x klo ≠ 0 := sub_ne_zero.mpr (Ne.symm h)
  unfold segmentSlope
  simp only [h', if_false, sub_self, zero_div, div_self h', Option.some.injEq]
  ring

theorem segmentSlope_right (s : Spline K) (klo khi : Int) (h : rd s.x klo ≠ rd s.x khi) :
    segmentSlope s klo khi (rd s.x khi)
      = some ((rd s.y khi - rd s.y klo) / (rd s.x khi - rd s.x klo)
          + (rd s.x khi - rd s.x klo) / 6 * (rd s.y2 klo + 2 * rd s.y2 khi)) := by
  have h' : rd s.x khi - rd s.x klo ≠ 0 := sub_ne_zero.mpr (Ne.symm h)
  unfold segmentSlope
  simp only [h', if_false, sub_self, zero_div, div_self h', Option.some.injEq]
  ring

/-- A clamped left end: the slope of the first segment at `x[0]` is the hint. -/
theorem clamped_left_slope (xin yin : List K) (n : Int) (d1 dn : K) (t : Int) (nm : String)
    (hk : Knots xin yin n) (hc : ¬ d1 > 0.99e30) :
    segmentSlope (create_spline xin yin n d1 dn t nm) 0 1 (rd xin 0) = some d1 := by
  have hrel := (left_relation xin yin n d1 dn t nm hk).2 hc
  obtain ⟨hn, -, -, hinc⟩ := hk
  obtain ⟨-, -, hxy⟩ := create_spline_xy xin yin n d1 dn t nm (by omega)
  have hlt := hinc 0 le_rfl (by omega)
  rw [zero_add] at hlt
  have hne : rd xin 1 - rd xin 0 ≠ 0 := (sub_pos.mpr hlt).ne'
  have e0 := hxy 0 le_rfl (by omega)
  have e1 := hxy 1 (by omega) (by omega)
  rw [← e0.1, segmentSlope_left _ _ _ (by rw [e0.1, e1.1]; exact hlt.ne), e0.1, e0.2, e1.1, e1.2,
    Option.some.injEq]
  generalize rd (create_spline xin yin n d1 dn t nm).y2 0 = m0 at hrel ⊢
  generalize rd (create_spline xin yin n d1 dn t nm).y2 1 = m1 at hrel ⊢
  rw [hrel]
  field_simp
  ring

/-- A clamped right end: the slope of the last segment at `x[n-1]` is the
hint. -/
theorem clamped_right_slope (xin yin : List K) (n : Int) (d1 dn : K) (t : Int) (nm : String)
    (hk : Knots xin yin n) (hc : ¬ dn > 0.99e30) :
    segmentSlope (create_spline xin yin n d1 dn t nm) (n - 2) (n - 1) (rd xin (n - 1))
      = some dn := by
  have hrel := (right_relation xin yin n d1 dn t nm hk).2 hc
  obtain ⟨hn, -, -, hinc⟩ := hk
  obtain ⟨-, -, hxy⟩ := create_spline_xy xin yin n d1 dn t nm (by omega)
  have hlt := hinc (n - 2) (by omega) (by omega)
  have e : n - 2 + 1 = n - 1 := by ring
  rw [e] at hlt
  have hne : rd xin (n - 1) - rd xin (n - 2) ≠ 0 := (sub_pos.mpr hlt).ne'
  have e0 := hxy (n - 2) (by omega) (by omega)
  have e1 := hxy (n - 1) (by omega) (by omega)
  rw [← e1.1, segmentSlope_right _ _ _ (by rw [e0.1, e1.1]; exact hlt.ne), e0.1, e0.2, e1.1,
    e1.2, Option.some.injEq]
  generalize rd (create_spline xin yin n d1 dn t nm).y2 (n - 2) = m0 at hrel ⊢
  generalize rd (create_spline xin yin n d1 dn t nm).y2 (n - 1) = m1 at hrel ⊢
  rw [hrel]
  field_simp
  ring

variable [FloorRing K]

/-- The bracket that the lookup selects when the query is the knot `x[i]`:
`(i, i+1)`, or `(n-2, n-1)` at the last knot.  Arbitrary mode, and
UniformLinear mode on uniformly spaced knots. -/
theorem bracket_at_knot (lg : K → K) (xin yin : List K) (n : Int) (dydx1 dydxn : K)
    (typein : Int) (namein : String) (hk : Knots xin yin n)
    (hmode : typein = 0 ∨ (typein = 1 ∧ ∀ k : Int, 0 ≤ k → k < n →
      rd xin k = rd xin 0 + (k : K) * (rd xin (n - 1) - rd xin 0) / ((n - 1 : Int) : K)))
    (i : Int) (hi0 : 0 ≤ i) (hin : i < n) :
    (bracket lg (create_spline xin yin n dydx1 dydxn typein namein) (rd xin i)
        = (i, i + 1) ∧ i + 1 < n) ∨
    (bracket lg (create_spline xin yin n dydx1 dydxn typein namein) (rd xin i)
        = (i - 1, i) ∧ i = n - 1) := by
  obtain ⟨hn, -, -, hinc⟩ := hk
  obtain ⟨-, -, hxy⟩ := create_spline_xy xin yin n dydx1 dydxn typein namein (by omega)
  obtain ⟨fn, ft, -, fs, fe⟩ := create_spline_fields xin yin n dydx1 dydxn typein namein
  have hmono := increasing_of_adjacent xin n hinc
  rcases hmode with h0 | ⟨h1, huni⟩
  · rw [bracket_arbitrary lg _ _ (by rw [ft, h0]; decide) (by rw [ft, h0]; decide), fn,
      ← (hxy i hi0 hin).1]
    apply bisect_knot _ n hn _ i hi0 hin
    intro k hk0 hk1
    rw [(hxy k hk0 (by omega)).1, (hxy (k + 1) (by omega) hk1).1]
    exact hinc k hk0 hk1
  · rw [bracket_linear lg _ _ (by rw [ft, h1]), fn, fs, fe]
    have hpos : rd xin 0 < rd xin (n - 1) := hmono 0 (n - 1) le_rfl (by omega) (by omega)
    have hd : rd xin (n - 1) - rd xin 0 ≠ 0 := (sub_pos.mpr hpos).ne'
    have hn1 : ((n - 1 : Int) : K) ≠ 0 := by
      have : (n - 1 : Int) ≠ 0 := by omega
      exact_mod_cast this
    have ht : (rd xin i - rd xin 0) / (rd xin (n - 1) - rd xin 0) * ((n - 1 : Int) : K)
        = ((i : Int) : K) := by
      rw [huni i hi0 hin]
      push_cast at hn1 ⊢
      field_simp
      ring
    rw [ht, truncToInt_intCast]
    unfold MIN
    by_cases hlast : i = n - 1
    · right
      refine ⟨?_, hlast⟩
      rw [if_pos (by omega)]
      rw [Prod.mk.injEq]; constructor <;> omega
    · left
      refine ⟨?_, by omega⟩
      rw [if_neg (by omega)]

end KnotLemmas

section CubicLemmas

variable {K : Type} [LinearOrderedField K]

/-- The second derivative of a cubic solves an interior row of the spline
system built on samples of that cubic. -/
theorem cubic_interior_row (c0 c1 c2 c3 a b c : K) (hab : b - a ≠ 0) (hbc : c - b ≠ 0)
    (hac : c - a ≠ 0) :
    (b - a) / (c - a) * cubicDD c2 c3 a + 2 * cubicDD c2 c3 b
        + (1 - (b - a) / (c - a)) * cubicDD c2 c3 c
      = 6 * ((cubic c0 c1 c2 c3 c - cubic c0 c1 c2 c3 b) / (c - b)
          - (cubic c0 c1 c2 c3 b - cubic c0 c1 c2 c3 a) / (b - a)) / (c - a) := by
  unfold cubic cubicDD
  field_simp
  ring

theorem cubic_left_row (c0 c1 c2 c3 a b : K) (hab : b - a ≠ 0) :
    cubicDD c2 c3 a = -(1 / 2) * cubicDD c2 c3 b
      + 3 / (b - a) * ((cubic c0 c1 c2 c3 b - cubic c0 c1 c2 c3 a) / (b - a) - cubicD c1 c2 c3 a) := by
  unfold cubic cubicD cubicDD
  field_simp
  ring

theorem cubic_right_row (c0 c1 c2 c3 a b : K) (hab : b - a ≠ 0) :
    1 / 2 * cubicDD c2 c3 a + cubicDD c2 c3 b
      = 3 / (b - a) * (cubicD c1 c2 c3 b - (cubic c0 c1 c2 c3 b - cubic c0 c1 c2 c3 a) / (b - a)) := by
  unfold cubic cubicD cubicDD
  field_simp
  ring

/-- The segment formula of `f` returns the cubic when both ends of the
bracket carry its values and its second derivatives. -/
theorem cubic_segment_value (c0 c1 c2 c3 : K) (s : Spline K) (klo khi : Int) (x0 : K)
    (h : rd s.x klo ≠ rd s.x khi)
    (hy0 : rd s.y klo = cubic c0 c1 c2 c3 (rd s.x klo))
    (hy1 : rd s.y khi = cubic c0 c1 c2 c3 (rd s.x khi))
    (hm0 : rd s.y2 klo = cubicDD c2 c3 (rd s.x klo))
    (hm1 : rd s.y2 khi = cubicDD c2 c3 (rd s.x khi)) :
    segmentValue s klo khi x0 = some (cubic c0 c1 c2 c3 x0) := by
  have h' : rd s.x khi - rd s.x klo ≠ 0 := sub_ne_zero.mpr (Ne.symm h)
  unfold segmentValue
  simp only [h', if_false, Option.some.injEq]
  rw [hy0, hy1, hm0, hm1]
  unfold cubic cubicDD
  field_simp
  ring

/-- The segment formula of `dfdx` returns the derivative of the cubic under
the same conditions. -/
theorem cubic_segment_slope (c0 c1 c2 c3 : K) (s : Spline K) (klo khi : Int) (x0 : K)
    (h : rd s.x klo ≠ rd s.x khi)
    (hy0 : rd s.y klo = cubic c0 c1 c2 c3 (rd s.x klo))
    (hy1 : rd s.y khi = cubic c0 c1 c2 c3 (rd s.x khi))
    (hm0 : rd s.y2 klo = cubicDD c2 c3 (rd s.x klo))
    (hm1 : rd s.y2 khi = cubicDD c2 c3 (rd s.x khi)) :
    segmentSlope s klo khi x0 = some (cubicD c1 c2 c3 x0) := by
  have h' : rd s.x khi - rd s.x klo ≠ 0 := sub_ne_zero.mpr (Ne.symm h)
  unfold segmentSlope
  simp only [h', if_false, Option.some.injEq]
  rw [hy0, hy1, hm0, hm1]
  unfold cubic cubicD cubicDD
  field_simp
  ring

end CubicLemmas

section CubicSolve

variable {K : Type} [LinearOrderedField K]

/-- Forward elimination applied to samples of a cubic: the second derivative
of the cubic satisfies every reduced row `m[j] = y2[j]*m[j+1] + u[j]`. -/
theorem cubic_forward (c0 c1 c2 c3 : K) (xin yin : List K) (n : Int) (d1 : K)
    (hk : Knots xin yin n)
    (hy : ∀ i : Int, 0 ≤ i → i < n → rd yin i = cubic c0 c1 c2 c3 (rd xin i))
    (hleft : (¬ d1 > 0.99e30 ∧ d1 = cubicD c1 c2 c3 (rd xin 0)) ∨
      (d1 > 0.99e30 ∧ cubicDD c2 c3 (rd xin 0) = 0)) :
    ∀ j : Int, 0 ≤ j → j ≤ n - 2 →
      cubicDD c2 c3 (rd xin j)
        = rd (forwardState xin yin n d1).1 j * cubicDD c2 c3 (rd xin (j + 1))
          + rd (forwardState xin yin n d1).2 j := by
  have hD := forward_coeff_bounds xin yin n d1 hk
  obtain ⟨hn, -, -, hinc⟩ := hk
  obtain ⟨-, -, h0, u0, hstep⟩ := forwardState_spec xin yin n d1 hn
  intro j hj0 hj1
  obtain ⟨k, rfl⟩ : ∃ k : Nat, j = k := ⟨j.toNat, by omega⟩
  induction k with
  | zero =>
    simp only [Nat.cast_zero, zero_add] at *
    rw [h0, u0]
    have hlt := hinc 0 le_rfl (by omega)
    rw [zero_add] at hlt
    rcases hleft with ⟨hc, hd⟩ | ⟨hc, hz⟩
    · rw [if_neg hc, if_neg hc, lit_neg_half, hy 0 le_rfl (by omega), hy 1 (by omega) (by omega),
        hd]
      exact cubic_left_row c0 c1 c2 c3 _ _ (sub_pos.mpr hlt).ne'
    · rw [if_pos hc, if_pos hc, hz]
      ring
  | succ k ih =>
    have ih' := ih (by omega) (by omega)
    have e : ((k + 1 : Nat) : Int) - 1 = (k : Int) := by push_cast; ring
    have e' : ((k + 1 : Nat) : Int) = (k : Int) + 1 := by push_cast; ring
    obtain ⟨hd, hu⟩ := hstep ((k + 1 : Nat) : Int) (by omega) (by omega)
    obtain ⟨s0, s1⟩ := sigma_bounds xin n hinc ((k + 1 : Nat) : Int) (by omega) (by omega)
    have hDk := hD (k : Int) (by omega) (by omega)
    rw [e] at hd hu s0 s1
    obtain ⟨p0, -, -, -⟩ := coeff_step _ _ s0 s1 hDk.1 hDk.2
    have a := hinc (k : Int) (by omega) (by omega)
    have b := hinc ((k : Int) + 1) (by omega) (by omega)
    have hrow := cubic_interior_row c0 c1 c2 c3 (rd xin (k : Int)) (rd xin ((k : Int) + 1))
      (rd xin ((k : Int) + 1 + 1)) (sub_pos.mpr a).ne' (sub_pos.mpr b).ne'
      (by have : (0 : K) < rd xin ((k : Int) + 1 + 1) - rd xin (k : Int) := by linarith
          exact this.ne')
    rw [e'] at hd hu s0 s1 p0 ⊢
    rw [hy (k : Int) (by omega) (by omega), hy ((k : Int) + 1) (by omega) (by omega),
      hy ((k : Int) + 1 + 1) (by omega) (by omega)] at hu
    generalize cubicDD c2 c3 (rd xin (k : Int)) = m0 at ih' hrow ⊢
    generalize cubicDD c2 c3 (rd xin ((k : Int) + 1)) = m1 at ih' hrow ⊢
    generalize cubicDD c2 c3 (rd xin ((k : Int) + 1 + 1)) = m2 at hrow ⊢
    generalize 6 * ((cubic c0 c1 c2 c3 (rd xin ((k : Int) + 1 + 1))
          - cubic c0 c1 c2 c3 (rd xin ((k : Int) + 1))) / (rd xin ((k : Int) + 1 + 1)
            - rd xin ((k : Int) + 1))
        - (cubic c0 c1 c2 c3 (rd xin ((k : Int) + 1)) - cubic c0 c1 c2 c3 (rd xin (k : Int)))
          / (rd xin ((k : Int) + 1) - rd xin (k : Int)))
        / (rd xin ((k : Int) + 1 + 1) - rd xin (k : Int)) = r at hu hrow
    generalize (rd xin ((k : Int) + 1) - rd xin (k : Int))
      / (rd xin ((k : Int) + 1 + 1) - rd xin (k : Int)) = sig at hd hu s0 s1 p0 hrow
    generalize rd (forwardState xin yin n d1).1 (k : Int) = dp at *
    generalize rd (forwardState xin yin n d1).2 (k : Int) = up at *
    generalize rd (forwardState xin yin n d1).1 ((k : Int) + 1) = dj at *
    generalize rd (forwardState xin yin n d1).2 ((k : Int) + 1) = uj at *
    have hp : sig * dp + 2 ≠ 0 := by
      have : (0 : K) < sig * dp + 2 := by linarith
      exact this.ne'
    rw [eq_div_iff hp] at hd hu
    have key : (sig * dp + 2) * m1 = (sig * dp + 2) * (dj * m2 + uj) := by
      linear_combination hrow - sig * ih' - m2 * hd - hu
    exact mul_left_cancel₀ hp key

end CubicSolve

section CubicSolve2

variable {K : Type} [LinearOrderedField K]

/-- On samples of a cubic, with each end either clamped to the slope of the
cubic or natural where the second derivative of the cubic vanishes,
`create_spline` stores the second derivative of the cubic at every knot. -/
theorem cubic_y2 (c0 c1 c2 c3 : K) (xin yin : List K) (n : Int) (d1 dn : K) (t : Int)
    (nm : String) (hk : Knots xin yin n)
    (hy : ∀ i : Int, 0 ≤ i → i < n → rd yin i = cubic c0 c1 c2 c3 (rd xin i))
    (hleft : (¬ d1 > 0.99e30 ∧ d1 = cubicD c1 c2 c3 (rd xin 0)) ∨
      (d1 > 0.99e30 ∧ cubicDD c2 c3 (rd xin 0) = 0))
    (hright : (¬ dn > 0.99e30 ∧ dn = cubicD c1 c2 c3 (rd xin (n - 1))) ∨
      (dn > 0.99e30 ∧ cubicDD c2 c3 (rd xin (n - 1)) = 0)) :
    ∀ j : Int, 0 ≤ j → j < n →
      rd (create_spline xin yin n d1 dn t nm).y2 j = cubicDD c2 c3 (rd xin j) := by
  have hfw := cubic_forward c0 c1 c2 c3 xin yin n d1 hk hy hleft
  have hD := forward_coeff_bounds xin yin n d1 hk (n - 2) (by have := hk.1; omega) le_rfl
  obtain ⟨hn, -, -, hinc⟩ := hk
  obtain ⟨-, hlast, hb⟩ := create_spline_y2_spec xin yin n d1 dn t nm hn
  -- the last entry
  have hend : rd (create_spline xin yin n d1 dn t nm).y2 (n - 1)
      = cubicDD c2 c3 (rd xin (n - 1)) := by
    rcases hright with ⟨hc, hd⟩ | ⟨hc, hz⟩
    · rw [hlast, if_neg hc, lit_half, hy (n - 1) (by omega) (by omega),
        hy (n - 2) (by omega) (by omega), hd]
      have hlt := hinc (n - 2) (by omega) (by omega)
      have e : n - 2 + 1 = n - 1 := by ring
      have hf := hfw (n - 2) (by omega) le_rfl
      rw [e] at hlt hf
      have hrow := cubic_right_row c0 c1 c2 c3 (rd xin (n - 2)) (rd xin (n - 1))
        (sub_pos.mpr hlt).ne'
      have hp : (1 / 2 : K) * rd (forwardState xin yin n d1).1 (n - 2) + 1 ≠ 0 := by
        have : (0 : K) < 1 / 2 * rd (forwardState xin yin n d1).1 (n - 2) + 1 := by
          linarith [hD.1]
        exact this.ne'
      rw [div_eq_iff hp]
      linear_combination (-1 : K) * hrow + (1 / 2 : K) * hf
    · rw [hlast, if_pos hc, hz]
  -- back substitution, from the last entry down
  have hdown : ∀ k : Nat, (k : Int) ≤ n - 1 →
      rd (create_spline xin yin n d1 dn t nm).y2 (n - 1 - k)
        = cubicDD c2 c3 (rd xin (n - 1 - k)) := by
    intro k
    induction k with
    | zero => intro _; simpa using hend
    | succ k ih =>
      intro hk1
      have ih' := ih (by omega)
      have e : n - 1 - ((k + 1 : Nat) : Int) + 1 = n - 1 - (k : Int) := by push_cast; ring
      have h1 := hb (n - 1 - ((k + 1 : Nat) : Int)) (by omega) (by omega)
      have h2 := hfw (n - 1 - ((k + 1 : Nat) : Int)) (by omega) (by omega)
      rw [e] at h1 h2
      rw [h1, h2, ih']
  intro j hj0 hj1
  have := hdown (n - 1 - j).toNat (by omega)
  have e : n - 1 - ((n - 1 - j).toNat : Int) = j := by omega
  rw [e] at this
  exact this

end CubicSolve2

section RangeLemmas

variable {K : Type} [LinearOrderedField K]

/-- Cubic reproduction on any bracket inside the arrays. -/
theorem cubic_on_bracket (c0 c1 c2 c3 : K) (xin yin : List K) (n : Int) (d1 dn : K) (t : Int)
    (nm : String) (hk : Knots xin yin n)
    (hy : ∀ i : Int, 0 ≤ i → i < n → rd yin i = cubic c0 c1 c2 c3 (rd xin i))
    (hleft : (¬ d1 > 0.99e30 ∧ d1 = cubicD c1 c2 c3 (rd xin 0)) ∨
      (d1 > 0.99e30 ∧ cubicDD c2 c3 (rd xin 0) = 0))
    (hright : (¬ dn > 0.99e30 ∧ dn = cubicD c1 c2 c3 (rd xin (n - 1))) ∨
      (dn > 0.99e30 ∧ cubicDD c2 c3 (rd xin (n - 1)) = 0))
    (klo : Int) (h0 : 0 ≤ klo) (h1 : klo ≤ n - 2) (x0 : K) :
    segmentValue (create_spline xin yin n d1 dn t nm) klo (klo + 1) x0
        = some (cubic c0 c1 c2 c3 x0) ∧
    segmentSlope (create_spline xin yin n d1 dn t nm) klo (klo + 1) x0
        = some (cubicD c1 c2 c3 x0) := by
  have hm := cubic_y2 c0 c1 c2 c3 xin yin n d1 dn t nm hk hy hleft hright
  obtain ⟨hn, -, -, hinc⟩ := hk
  obtain ⟨-, -, hxy⟩ := create_spline_xy xin yin n d1 dn t nm (by omega)
  have ea := hxy klo h0 (by omega)
  have eb := hxy (klo + 1) (by omega) (by omega)
  have hne : rd (create_spline xin yin n d1 dn t nm).x klo
      ≠ rd (create_spline xin yin n d1 dn t nm).x (klo + 1) := by
    rw [ea.1, eb.1]
    exact (hinc klo h0 (by omega)).ne
  have q0 : rd (create_spline xin yin n d1 dn t nm).y klo
      = cubic c0 c1 c2 c3 (rd (create_spline xin yin n d1 dn t nm).x klo) := by
    rw [ea.1, ea.2, hy klo h0 (by omega)]
  have q1 : rd (create_spline xin yin n d1 dn t nm).y (klo + 1)
      = cubic c0 c1 c2 c3 (rd (create_spline xin yin n d1 dn t nm).x (klo + 1)) := by
    rw [eb.1, eb.2, hy (klo + 1) (by omega) (by omega)]
  have q2 : rd (create_spline xin yin n d1 dn t nm).y2 klo
      = cubicDD c2 c3 (rd (create_spline xin yin n d1 dn t nm).x klo) := by
    rw [ea.1, hm klo h0 (by omega)]
  have q3 : rd (create_spline xin yin n d1 dn t nm).y2 (klo + 1)
      = cubicDD c2 c3 (rd (create_spline xin yin n d1 dn t nm).x (klo + 1)) := by
    rw [eb.1, hm (klo + 1) (by omega) (by omega)]
  exact ⟨cubic_segment_value c0 c1 c2 c3 _ klo (klo + 1) x0 hne q0 q1 q2 q3,
    cubic_segment_slope c0 c1 c2 c3 _ klo (klo + 1) x0 hne q0 q1 q2 q3⟩

variable [FloorRing K]

theorem truncToInt_nonneg (v : K) (h : 0 ≤ v) : 0 ≤ truncToInt v := by
  unfold truncToInt
  rw [if_pos h]
  exact Int.floor_nonneg.mpr h

theorem MIN_bounds (a b : Int) (ha : 0 ≤ a) (hb : 0 ≤ b) : 0 ≤ MIN a b ∧ MIN a b ≤ b := by
  unfold MIN
  split <;> omega

/-- The bracket of a spline built on `n ≥ 2` strictly increasing knots is an
adjacent pair inside the arrays: always in Arbitrary mode, for a query at or
above `x_start` in UniformLinear mode, and when the index ratio is not
negative in UniformLogarithmic mode. -/
theorem bracket_in_range (lg : K → K) (xin yin : List K) (n : Int) (d1 dn : K) (t : Int)
    (nm : String) (hk : Knots xin yin n) (x0 : K)
    (hmode : (t ≠ 1 ∧ t ≠ 2) ∨ (t = 1 ∧ rd xin 0 ≤ x0) ∨
      (t = 2 ∧ 0 ≤ lg (x0 / rd xin 0) / lg (rd xin (n - 1) / rd xin 0))) :
    0 ≤ (bracket lg (create_spline xin yin n d1 dn t nm) x0).1 ∧
    (bracket lg (create_spline xin yin n d1 dn t nm) x0).1 ≤ n - 2 ∧
    (bracket lg (create_spline xin yin n d1 dn t nm) x0).2
      = (bracket lg (create_spline xin yin n d1 dn t nm) x0).1 + 1 := by
  obtain ⟨hn, -, -, hinc⟩ := hk
  have hn1 : (0 : K) ≤ ((n - 1 : Int) : K) := by
    have : (0 : Int) ≤ n - 1 := by omega
    exact_mod_cast this
  rcases hmode with ⟨h1, h2⟩ | ⟨h1, hx⟩ | ⟨h2, hx⟩
  · rw [bracket_arbitrary lg _ _ h1 h2]
    show 0 ≤ (bisect _ x0 0 (n - 1)).1 ∧ (bisect _ x0 0 (n - 1)).1 ≤ n - 2 ∧ _
    obtain ⟨a1, a2, a3, -, -⟩ := bisect_spec (create_spline xin yin n d1 dn t nm).x x0
      (n - 1 - 0).toNat 0 (n - 1) rfl (by omega)
    exact ⟨a2, by omega, a1⟩
  · rw [bracket_linear lg _ _ h1]
    show 0 ≤ MIN (truncToInt ((x0 - rd xin 0) / (rd xin (n - 1) - rd xin 0)
        * ((n - 1 : Int) : K))) (n - 2) ∧ _
    have hpos : rd xin 0 < rd xin (n - 1) :=
      increasing_of_adjacent xin n hinc 0 (n - 1) le_rfl (by omega) (by omega)
    have hv : (0 : K) ≤ (x0 - rd xin 0) / (rd xin (n - 1) - rd xin 0) * ((n - 1 : Int) : K) :=
      mul_nonneg (div_nonneg (sub_nonneg.mpr hx) (sub_pos.mpr hpos).le) hn1
    obtain ⟨b1, b2⟩ := MIN_bounds _ (n - 2) (truncToInt_nonneg _ hv) (by omega)
    exact ⟨b1, b2, rfl⟩
  · have hb : bracket lg (create_spline xin yin n d1 dn t nm) x0
        = (MIN (truncToInt (lg (x0 / rd xin 0) / lg (rd xin (n - 1) / rd xin 0)
            * ((n - 1 : Int) : K))) (n - 2),
           MIN (truncToInt (lg (x0 / rd xin 0) / lg (rd xin (n - 1) / rd xin 0)
            * ((n - 1 : Int) : K))) (n - 2) + 1) := by
      unfold bracket
      have h1 : (create_spline xin yin n d1 dn t nm).type ≠ 1 := by
        show t ≠ 1
        omega
      have h2' : (create_spline xin yin n d1 dn t nm).type = 2 := h2
      rw [if_neg h1, if_pos h2']
      rfl
    rw [hb]
    obtain ⟨b1, b2⟩ := MIN_bounds _ (n - 2) (truncToInt_nonneg _ (mul_nonneg hx hn1)) (by omega)
    exact ⟨b1, b2, rfl⟩

end RangeLemmas

section SearchLemmas

variable {K : Type} [LinearOrderedField K]

/-- The binary search on the arrays of a built spline, for any query: an
adjacent pair inside the arrays whose lower knot is `x[0]` or does not exceed
the query, and whose upper knot is `x[n-1]` or exceeds the query. -/
theorem bisect_built (xin yin : List K) (n : Int) (d1 dn : K) (t : Int) (nm : String)
    (hk : Knots xin yin n) (x0 : K) :
    0 ≤ (bisect (create_spline xin yin n d1 dn t nm).x x0 0 (n - 1)).1 ∧
    (bisect (create_spline xin yin n d1 dn t nm).x x0 0 (n - 1)).1 ≤ n - 2 ∧
    (bisect (create_spline xin yin n d1 dn t nm).x x0 0 (n - 1)).2
      = (bisect (create_spline xin yin n d1 dn t nm).x x0 0 (n - 1)).1 + 1 ∧
    ((bisect (create_spline xin yin n d1 dn t nm).x x0 0 (n - 1)).1 = 0 ∨
      rd xin (bisect (create_spline xin yin n d1 dn t nm).x x0 0 (n - 1)).1 ≤ x0) ∧
    ((bisect (create_spline xin yin n d1 dn t nm).x x0 0 (n - 1)).1 = n - 2 ∨
      x0 < rd xin ((bisect (create_spline xin yin n d1 dn t nm).x x0 0 (n - 1)).1 + 1)) := by
  obtain ⟨hn, -, -, -⟩ := hk
  obtain ⟨-, -, hxy⟩ := create_spline_xy xin yin n d1 dn t nm (by omega)
  obtain ⟨a1, a2, a3, a4, a5⟩ := bisect_spec (create_spline xin yin n d1 dn t nm).x x0
    (n - 1 - 0).toNat 0 (n - 1) rfl (by omega)
  generalize bisect (create_spline xin yin n d1 dn t nm).x x0 0 (n - 1) = r at a1 a2 a3 a4 a5 ⊢
  refine ⟨a2, by omega, a1, ?_, ?_⟩
  · rcases a4 with a4 | a4
    · exact Or.inl a4
    · rw [(hxy r.1 a2 (by omega)).1] at a4
      exact Or.inr a4
  · rcases a5 with a5 | a5
    · exact Or.inl (by omega)
    · rw [a1, (hxy (r.1 + 1) (by omega) (by omega)).1] at a5
      exact Or.inr a5

end SearchLemmas

section UniformLemmas

variable {K : Type} [LinearOrderedField K] [FloorRing K]

/-- On uniformly spaced knots the index computed by UniformLinear mode is the
lower index found by the binary search, for a query at or above `x_start`. -/
theorem linear_index_eq_bisect (xin yin : List K) (n : Int) (d1 dn : K) (t : Int) (nm : String)
    (hk : Knots xin yin n)
    (huni : ∀ k : Int, 0 ≤ k → k < n →
      rd xin k = rd xin 0 + (k : K) * (rd xin (n - 1) - rd xin 0) / ((n - 1 : Int) : K))
    (x0 : K) (hx0 : rd xin 0 ≤ x0) :
    MIN (truncToInt ((x0 - rd xin 0) / (rd xin (n - 1) - rd xin 0) * ((n - 1 : Int) : K)))
        (n - 2)
      = (bisect (create_spline xin yin n d1 dn t nm).x x0 0 (n - 1)).1 := by
  obtain ⟨b0, b1, -, b3, b4⟩ := bisect_built xin yin n d1 dn t nm hk x0
  obtain ⟨hn, -, -, hinc⟩ := hk
  generalize (bisect (create_spline xin yin n d1 dn t nm).x x0 0 (n - 1)).1 = klo at b0 b1 b3 b4 ⊢
  have hpos : rd xin 0 < rd xin (n - 1) :=
    increasing_of_adjacent xin n hinc 0 (n - 1) le_rfl (by omega) (by omega)
  have hd : 0 < rd xin (n - 1) - rd xin 0 := sub_pos.mpr hpos
  have hn1 : (0 : K) < ((n - 1 : Int) : K) := by
    have : (0 : Int) < n - 1 := by omega
    exact_mod_cast this
  -- position of a knot against the query, in index units
  have hidx : ∀ k : Int, 0 ≤ k → k < n →
      (rd xin k - rd xin 0) / (rd xin (n - 1) - rd xin 0) * ((n - 1 : Int) : K) = (k : K) := by
    intro k hk0 hk1
    have hn1' : ((n - 1 : Int) : K) ≠ 0 := hn1.ne'
    rw [huni k hk0 hk1]
    push_cast at hn1' ⊢
    field_simp
    ring
  have hmono : ∀ a b : K, a ≤ b →
      (a - rd xin 0) / (rd xin (n - 1) - rd xin 0) * ((n - 1 : Int) : K)
        ≤ (b - rd xin 0) / (rd xin (n - 1) - rd xin 0) * ((n - 1 : Int) : K) := by
    intro a b hab
    apply mul_le_mul_of_nonneg_right _ hn1.le
    exact div_le_div_of_nonneg_right (by linarith) hd.le
  have hsmono : ∀ a b : K, a < b →
      (a - rd xin 0) / (rd xin (n - 1) - rd xin 0) * ((n - 1 : Int) : K)
        < (b - rd xin 0) / (rd xin (n - 1) - rd xin 0) * ((n - 1 : Int) : K) := by
    intro a b hab
    apply mul_lt_mul_of_pos_right _ hn1
    exact div_lt_div_of_pos_right (by linarith) hd
  generalize ht : (x0 - rd xin 0) / (rd xin (n - 1) - rd xin 0) * ((n - 1 : Int) : K) = tq
  have ht0 : 0 ≤ tq := by
    rw [← ht]
    exact mul_nonneg (div_nonneg (sub_nonneg.mpr hx0) hd.le) hn1.le
  have hlow : (klo : K) ≤ tq := by
    rcases b3 with b3 | b3
    · rw [b3]; simpa using ht0
    · rw [← ht, ← hidx klo b0 (by omega)]
      exact hmono _ _ b3
  have hfl : truncToInt tq = ⌊tq⌋ := by
    unfold truncToInt
    rw [if_pos ht0]
  have hge : klo ≤ ⌊tq⌋ := Int.le_floor.mpr hlow
  rw [hfl]
  unfold MIN
  rcases b4 with b4 | b4
  · split <;> omega
  · have hup : tq < ((klo + 1 : Int) : K) := by
      rw [← ht, ← hidx (klo + 1) (by omega) (by omega)]
      exact hsmono _ _ b4
    have hlt : ⌊tq⌋ < klo + 1 := Int.floor_lt.mpr hup
    split <;> omega

end UniformLemmas

section TraceLemmas

variable {K : Type} [LinearOrderedField K]

theorem bisectTrace_spec (x : List K) (x0 : K) :
    ∀ (m : Nat) (klo khi : Int), (khi - klo).toNat = m →
      (∀ p ∈ bisectTrace x x0 klo khi,
        klo ≤ p.1 ∧ p.2 ≤ khi ∧ 1 < p.2 - p.1 ∧
        p.1 < (p.2 + p.1) >>> (1 : Nat) ∧ (p.2 + p.1) >>> (1 : Nat) < p.2) ∧
      List.Chain' (fun p q : Int × Int => q.2 - q.1 < p.2 - p.1) (bisectTrace x x0 klo khi) ∧
      (∀ p ∈ (bisectTrace x x0 klo khi).head?, p = (klo, khi)) ∧
      ((bisectTrace x x0 klo khi).length : Int) + 1 ≤ max (khi - klo) 1 := by
  intro m
  induction m using Nat.strong_induction_on with
  | _ m ih =>
    intro klo khi hm
    rw [bisectTrace]
    by_cases hgap : khi - klo > 1
    · simp only [hgap, if_true]
      have hmid := shiftRight_one (khi + klo)
      by_cases hk : rd x ((khi + klo) >>> (1 : Nat)) > x0
      · simp only [hk, if_true]
        obtain ⟨a1, a2, a3, a4⟩ := ih (((khi + klo) >>> (1 : Nat)) - klo).toNat (by omega) klo
          ((khi + klo) >>> (1 : Nat)) rfl
        refine ⟨?_, ?_, ?_, ?_⟩
        · intro p hp
          rcases List.mem_cons.mp hp with rfl | hp
          · exact ⟨le_rfl, le_rfl, hgap, by simp only; omega, by simp only; omega⟩
          · obtain ⟨b1, b2, b3, b4, b5⟩ := a1 p hp
            exact ⟨b1, by omega, b3, b4, b5⟩
        · rw [List.chain'_cons']
          refine ⟨?_, a2⟩
          intro q hq
          rw [a3 q hq]
          simp only
          omega
        · intro p hp
          simpa using hp.symm
        · rw [List.length_cons]
          push_cast
          omega
      · simp only [hk, if_false]
        obtain ⟨a1, a2, a3, a4⟩ := ih (khi - ((khi + klo) >>> (1 : Nat))).toNat (by omega)
          ((khi + klo) >>> (1 : Nat)) khi rfl
        refine ⟨?_, ?_, ?_, ?_⟩
        · intro p hp
          rcases List.mem_cons.mp hp with rfl | hp
          · exact ⟨le_rfl, le_rfl, hgap, by simp only; omega, by simp only; omega⟩
          · obtain ⟨b1, b2, b3, b4, b5⟩ := a1 p hp
            exact ⟨by omega, b2, b3, b4, b5⟩
        · rw [List.chain'_cons']
          refine ⟨?_, a2⟩
          intro q hq
          rw [a3 q hq]
          simp only
          omega
        · intro p hp
          simpa using hp.symm
        · rw [List.length_cons]
          push_cast
          omega
    · simp only [hgap, if_false]
      refine ⟨by simp, List.chain'_nil, by simp, ?_⟩
      simp

/-- The result of the search is read off the last recorded iteration: the
loop leaves `(klo, k)` or `(k, khi)` there, and `(klo, khi)` unchanged when no
iteration ran. -/
theorem bisect_eq_last (x : List K) (x0 : K) :
    ∀ (m : Nat) (klo khi : Int), (khi - klo).toNat = m →
      bisect x x0 klo khi
        = (((bisectTrace x x0 klo khi).getLast?.map fun p : Int × Int =>
            if rd x ((p.2 + p.1) >>> (1 : Nat)) > x0 then (p.1, (p.2 + p.1) >>> (1 : Nat))
            else ((p.2 + p.1) >>> (1 : Nat), p.2)).getD (klo, khi)) := by
  intro m
  induction m using Nat.strong_induction_on with
  | _ m ih =>
    intro klo khi hm
    rw [bisect, bisectTrace]
    by_cases hgap : khi - klo > 1
    · simp only [hgap, if_true]
      have hmid := shiftRight_one (khi + klo)
      by_cases hk : rd x ((khi + klo) >>> (1 : Nat)) > x0
      · simp only [hk, if_true]
        rw [ih (((khi + klo) >>> (1 : Nat)) - klo).toNat (by omega) klo
          ((khi + klo) >>> (1 : Nat)) rfl, List.getLast?_cons]
        cases h : (bisectTrace x x0 klo ((khi + klo) >>> (1 : Nat))).getLast? with
        | none => simp [hk]
        | some p => simp
      · simp only [hk, if_false]
        rw [ih (khi - ((khi + klo) >>> (1 : Nat))).toNat (by omega)
          ((khi + klo) >>> (1 : Nat)) khi rfl, List.getLast?_cons]
        cases h : (bisectTrace x x0 ((khi + klo) >>> (1 : Nat)) khi).getLast? with
        | none => simp [hk]
        | some p => simp
    · simp only [hgap, if_false]
      simp

end TraceLemmas

section LogLemmas

/-- The index `MIN(int(t), n-2)` of the direct lookups is `klo` as soon as
`0 ≤ klo ≤ t` and either `t < klo + 1` or `klo = n - 2`. -/
theorem min_trunc_eq {K : Type} [LinearOrderedField K] [FloorRing K] (tq : K) (klo n : Int)
    (ht0 : 0 ≤ tq) (hlow : (klo : K) ≤ tq) (hup : klo = n - 2 ∨ tq < ((klo + 1 : Int) : K))
    (h1 : klo ≤ n - 2) : MIN (truncToInt tq) (n - 2) = klo := by
  have hfl : truncToInt tq = ⌊tq⌋ := by
    unfold truncToInt
    rw [if_pos ht0]
  have hge : klo ≤ ⌊tq⌋ := Int.le_floor.mpr hlow
  rw [hfl]
  unfold MIN
  rcases hup with hup | hup
  · split <;> omega
  · have hlt : ⌊tq⌋ < klo + 1 := Int.floor_lt.mpr hup
    split <;> omega

/-- On geometrically spaced knots the index computed by UniformLogarithmic
mode with the real logarithm is the lower index found by the binary search,
for a query at or above `x_start`. -/
theorem log_index_eq_bisect (xin yin : List ℝ) (n : Int) (d1 dn : ℝ) (t : Int) (nm : String)
    (hk : Knots xin yin n) (hpos : 0 < rd xin 0)
    (hgeo : ∀ k : Int, 0 ≤ k → k < n →
      rd xin k = rd xin 0 * (rd xin (n - 1) / rd xin 0) ^ ((k : ℝ) / ((n - 1 : Int) : ℝ)))
    (x0 : ℝ) (hx0 : rd xin 0 ≤ x0) :
    MIN (truncToInt (Real.log (x0 / rd xin 0) / Real.log (rd xin (n - 1) / rd xin 0)
        * ((n - 1 : Int) : ℝ))) (n - 2)
      = (bisect (create_spline xin yin n d1 dn t nm).x x0 0 (n - 1)).1 := by
  obtain ⟨b0, b1, -, b3, b4⟩ := bisect_built xin yin n d1 dn t nm hk x0
  obtain ⟨hn, -, -, hinc⟩ := hk
  generalize (bisect (create_spline xin yin n d1 dn t nm).x x0 0 (n - 1)).1 = klo at b0 b1 b3 b4 ⊢
  have hmono := increasing_of_adjacent xin n hinc
  have hend : rd xin 0 < rd xin (n - 1) := hmono 0 (n - 1) le_rfl (by omega) (by omega)
  have hr : 1 < rd xin (n - 1) / rd xin 0 := (one_lt_div hpos).mpr hend
  have hL : 0 < Real.log (rd xin (n - 1) / rd xin 0) := Real.log_pos hr
  have hn1 : (0 : ℝ) < ((n - 1 : Int) : ℝ) := by
    have : (0 : Int) < n - 1 := by omega
    exact_mod_cast this
  have hxpos : ∀ k : Int, 0 ≤ k → k < n → 0 < rd xin k := by
    intro k hk0 hk1
    by_cases h : k = 0
    · rw [h]; exact hpos
    · exact lt_trans hpos (hmono 0 k le_rfl (by omega) hk1)
  -- position of a knot, in index units
  have hidx : ∀ k : Int, 0 ≤ k → k < n →
      Real.log (rd xin k / rd xin 0) / Real.log (rd xin (n - 1) / rd xin 0)
        * ((n - 1 : Int) : ℝ) = (k : ℝ) := by
    intro k hk0 hk1
    have e : rd xin k / rd xin 0
        = (rd xin (n - 1) / rd xin 0) ^ ((k : ℝ) / ((n - 1 : Int) : ℝ)) := by
      rw [hgeo k hk0 hk1]
      field_simp
    have hL' := hL.ne'
    have hn1' : (n : ℝ) - 1 ≠ 0 := by
      have := hn1.ne'
      push_cast at this
      exact this
    rw [e, Real.log_rpow (lt_trans zero_lt_one hr)]
    push_cast
    field_simp
    ring
  have hmonoT : ∀ a b : ℝ, 0 < a → a ≤ b →
      Real.log (a / rd xin 0) / Real.log (rd xin (n - 1) / rd xin 0) * ((n - 1 : Int) : ℝ)
        ≤ Real.log (b / rd xin 0) / Real.log (rd xin (n - 1) / rd xin 0)
          * ((n - 1 : Int) : ℝ) := by
    intro a b ha hab
    apply mul_le_mul_of_nonneg_right _ hn1.le
    apply div_le_div_of_nonneg_right _ hL.le
    exact Real.log_le_log (div_pos ha hpos) (div_le_div_of_nonneg_right hab hpos.le)
  have hsmonoT : ∀ a b : ℝ, 0 < a → a < b →
      Real.log (a / rd xin 0) / Real.log (rd xin (n - 1) / rd xin 0) * ((n - 1 : Int) : ℝ)
        < Real.log (b / rd xin 0) / Real.log (rd xin (n - 1) / rd xin 0)
          * ((n - 1 : Int) : ℝ) := by
    intro a b ha hab
    apply mul_lt_mul_of_pos_right _ hn1
    apply div_lt_div_of_pos_right _ hL
    exact Real.log_lt_log (div_pos ha hpos) (div_lt_div_of_pos_right hab hpos)
  have hx0pos : 0 < x0 := lt_of_lt_of_le hpos hx0
  apply min_trunc_eq _ klo n
  · have := hmonoT (rd xin 0) x0 hpos hx0
    rw [hidx 0 le_rfl (by omega)] at this
    simpa using this
  · rcases b3 with b3 | b3
    · have := hmonoT (rd xin 0) x0 hpos hx0
      rw [hidx 0 le_rfl (by omega)] at this
      rw [b3]
      simpa using this
    · rw [← hidx klo b0 (by omega)]
      exact hmonoT _ _ (hxpos klo b0 (by omega)) b3
  · rcases b4 with b4 | b4
    · exact Or.inl b4
    · right
      rw [← hidx (klo + 1) (by omega) (by omega)]
      exact hsmonoT _ _ hx0pos b4
  · exact b1

end LogLemmas

section OdeLemmas

variable {K : Type} [LinearOrderedField K]

theorem advanceTo_reaches (c : StepControl K) (s : OdeSolver K) (target : K) :
    ∀ (fuel : Nat) (x : K) (y : List K) (h : K) (r : K × List K × K),
      advanceTo c s target fuel x y h = some r → r.1 = target := by
  intro fuel
  induction fuel with
  | zero =>
    intro x y h r hr
    simp [advanceTo] at hr
  | succ fuel ih =>
    intro x y h r hr
    rw [advanceTo] at hr
    by_cases hx : x = target
    · simp only [hx, if_true, Option.some.injEq] at hr
      rw [← hr]
    · simp only [hx, if_false] at hr
      generalize (if x + h > target then target - x else h) = hc at hr
      by_cases he : (c.trial s.rightHandSide x y hc).2 ≤ s.epsilon
      · simp only [he, if_true] at hr
        exact ih _ _ _ r hr
      · simp only [he, if_false] at hr
        by_cases hs : c.shrink hc < s.h_min
        · simp only [hs, if_true] at hr
          exact absurd hr (by simp)
        · simp only [hs, if_false] at hr
          exact ih _ _ _ r hr

theorem outputLoop_x_array (c : StepControl K) (s : OdeSolver K) (fuel : Nat) :
    ∀ (m : Nat) (i : Int) (x : K) (y : List K) (h : K) (xs : List K) (ys : List (List K))
      (r : OdeSolution K), outputLoop c s fuel m i x y h xs ys = some r →
      r.x_array = xs ++ (List.range m).map (fun j : Nat => outputAbscissa s (i + j)) := by
  intro m
  induction m with
  | zero =>
    intro i x y h xs ys r hr
    simp only [outputLoop, Option.some.injEq] at hr
    rw [← hr]
    simp
  | succ m ih =>
    intro i x y h xs ys r hr
    rw [outputLoop] at hr
    cases hadv : advanceTo c s (outputAbscissa s i) fuel x y h with
    | none =>
      rw [hadv] at hr
      exact absurd hr (by simp)
    | some q =>
      rw [hadv] at hr
      simp only at hr
      have hq := advanceTo_reaches c s _ fuel x y h q hadv
      rw [ih (i + 1) _ _ _ _ _ r hr, hq, List.range_succ_eq_map, List.map_cons, List.map_map,
        List.append_assoc]
      congr 1
      simp only [List.singleton_append, Nat.cast_zero, add_zero, List.cons.injEq, true_and]
      apply List.map_congr_left
      intro j _
      simp only [Function.comp, Nat.cast_succ]
      congr 1
      ring

end OdeLemmas

section OdeLemmas2

variable {K : Type} [LinearOrderedField K]

/-- When every trial step is accepted and the step size stays at or above
`h0`, `k + 1` trial steps reach a target at distance at most `k * h0`. -/
theorem advanceTo_succeeds (c : StepControl K) (s : OdeSolver K) (target h0 : K)
    (hacc : ∀ (x : K) (y : List K) (h : K), (c.trial s.rightHandSide x y h).2 ≤ s.epsilon)
    (hgrow : ∀ h : K, h0 ≤ c.grow h) :
    ∀ (k fuel : Nat) (x : K) (y : List K) (h : K), x ≤ target → target - x ≤ (k : K) * h0 →
      h0 ≤ h → k + 1 ≤ fuel →
      ∃ r : K × List K × K, advanceTo c s target fuel x y h = some r ∧ h0 ≤ r.2.2 := by
  intro k
  induction k with
  | zero =>
    intro fuel x y h hx hd hh hf
    obtain ⟨f', rfl⟩ : ∃ f', fuel = f' + 1 := ⟨fuel - 1, by omega⟩
    have hxt : x = target := by
      simp only [Nat.cast_zero, zero_mul] at hd
      linarith
    rw [advanceTo]
    simp only [hxt, if_true]
    exact ⟨_, rfl, hh⟩
  | succ k ih =>
    intro fuel x y h hx hd hh hf
    obtain ⟨f', rfl⟩ : ∃ f', fuel = f' + 1 := ⟨fuel - 1, by omega⟩
    rw [advanceTo]
    by_cases hxt : x = target
    · simp only [hxt, if_true]
      exact ⟨_, rfl, hh⟩
    · simp only [hxt, if_false]
      by_cases hov : x + h > target
      · simp only [hov, if_true, hacc]
        exact ih f' _ _ _ (by linarith) (by
          have : (0 : K) ≤ (k : K) * h0 := by
            by_cases hk0 : k = 0
            · simp [hk0]
            · have hkpos : (0 : K) < (k : K) := by exact_mod_cast Nat.pos_of_ne_zero hk0
              have hh0 : 0 ≤ h0 := by
                by_contra hneg
                push_neg at hneg
                have : ((k + 1 : Nat) : K) * h0 < 0 :=
                  mul_neg_of_pos_of_neg (by exact_mod_cast Nat.succ_pos k) hneg
                have hx' : x < target := lt_of_le_of_ne hx hxt
                linarith
              exact mul_nonneg hkpos.le hh0
          linarith) (hgrow _) (by omega)
      · simp only [hov, if_false, hacc, if_true]
        exact ih f' _ _ _ (by linarith) (by
          push_cast at hd
          linarith) (hgrow _) (by omega)

theorem outputAbscissa_succ (s : OdeSolver K) (i : Int) :
    outputAbscissa s (i + 1) - outputAbscissa s i
      = (s.xmax - s.xmin) / ((s.n - 1 : Int) : K) := by
  unfold outputAbscissa
  push_cast
  ring

theorem outputLoop_succeeds (c : StepControl K) (s : OdeSolver K) (h0 : K) (k fuel : Nat)
    (hacc : ∀ (x : K) (y : List K) (h : K), (c.trial s.rightHandSide x y h).2 ≤ s.epsilon)
    (hgrow : ∀ h : K, h0 ≤ c.grow h)
    (hpos : 0 ≤ (s.xmax - s.xmin) / ((s.n - 1 : Int) : K))
    (hk : (s.xmax - s.xmin) / ((s.n - 1 : Int) : K) ≤ (k : K) * h0) (hf : k + 1 ≤ fuel) :
    ∀ (m : Nat) (i : Int) (x : K) (y : List K) (h : K) (xs : List K) (ys : List (List K)),
      x = outputAbscissa s (i - 1) → h0 ≤ h →
      ∃ r : OdeSolution K, outputLoop c s fuel m i x y h xs ys = some r := by
  intro m
  induction m with
  | zero =>
    intro i x y h xs ys _ _
    exact ⟨_, rfl⟩
  | succ m ih =>
    intro i x y h xs ys hx hh
    have hstep := outputAbscissa_succ s (i - 1)
    rw [sub_add_cancel] at hstep
    obtain ⟨q, hq, hq2⟩ := advanceTo_succeeds c s (outputAbscissa s i) h0 hacc hgrow k fuel x y h
      (by rw [hx]; linarith) (by rw [hx, hstep]; exact hk) hh hf
    have hq1 := advanceTo_reaches c s _ fuel x y h q hq
    rw [outputLoop, hq]
    simp only
    exact ih (i + 1) _ _ _ _ _ (by rw [hq1, add_sub_cancel_right]) hq2

end OdeLemmas2

section OdeLemmas3

variable {K : Type} [LinearOrderedField K]

theorem rd_cons_pos (a : K) (l : List K) (i : Int) (h : 0 < i) :
    rd (a :: l) i = rd l (i - 1) := by
  obtain ⟨j, rfl⟩ : ∃ j : Nat, i = j + 1 := ⟨(i - 1).toNat, by omega⟩
  have e1 : (0 : Int) ≤ (j : Int) + 1 := by omega
  have e2 : ((j : Int) + 1).toNat = j + 1 := by omega
  unfold rd
  simp [e1, e2]

theorem rd_map_range (g : Nat → K) (m : Nat) (j : Int) (h0 : 0 ≤ j) (h1 : j < m) :
    rd ((List.range m).map g) j = g j.toNat := by
  have h2 : j.toNat < m := by omega
  unfold rd
  simp [h0, List.getD_eq_getElem?_getD, h2]

/-- The abscissas recorded by a solve that ends in `Solved`. -/
theorem solve_x_array (c : StepControl K) (s : OdeSolver K) (fuel : Nat) (r : OdeSolution K)
    (h : solve c s fuel = some r) :
    2 ≤ s.n ∧ s.xmin < s.xmax ∧
    r.x_array = s.xmin :: (List.range (s.n - 1).toNat).map
      (fun j : Nat => outputAbscissa s (1 + j)) := by
  unfold solve at h
  by_cases hdeg : s.neq ≤ 0 ∨ s.n < 2 ∨ s.xmin ≥ s.xmax
  · simp only [hdeg, if_true] at h
    exact absurd h (by simp)
  · simp only [hdeg, if_false] at h
    push_neg at hdeg
    refine ⟨hdeg.2.1, hdeg.2.2, ?_⟩
    rw [outputLoop_x_array c s fuel _ _ _ _ _ _ _ r h]
    rfl

end OdeLemmas3

/-- Sample input used to instantiate the statements: the knots `0, 1, 3`
with ordinates `5, 7, 2`. -/
theorem knots_sample : Knots [(0 : ℚ), 1, 3] [5, 7, 2] 3 := by
  refine ⟨by decide, by decide, by decide, ?_⟩
  intro i h0 h1
  have h2 : i = 0 ∨ i = 1 := by omega
  rcases h2 with rfl | rfl <;> simp [rd]

/-- The value of `f`'s formula on a bracket `(klo, klo+1)` inside the arrays
of a spline built on strictly increasing knots, written out on the input
data: with `h = x[klo+1]-x[klo]`, `a = (x[klo+1]-x0)/h` and `b = (x0-x[klo])/h`
it is `a*y[klo] + b*y[klo+1] + ((a*a*a-a)*y2[klo] + (b*b*b-b)*y2[klo+1])*(h*h)/6`. -/
theorem segmentValue_built {K : Type} [LinearOrderedField K] (xin yin : List K) (n : Int)
    (d1 dn : K) (t : Int) (nm : String) (hk : Knots xin yin n) (klo : Int) (h0 : 0 ≤ klo)
    (h1 : klo ≤ n - 2) (x0 : K) :
    segmentValue (create_spline xin yin n d1 dn t nm) klo (klo + 1) x0
      = some ((rd xin (klo + 1) - x0) / (rd xin (klo + 1) - rd xin klo) * rd yin klo
          + (x0 - rd xin klo) / (rd xin (klo + 1) - rd xin klo) * rd yin (klo + 1)
          + (((rd xin (klo + 1) - x0) / (rd xin (klo + 1) - rd xin klo)
                * ((rd xin (klo + 1) - x0) / (rd xin (klo + 1) - rd xin klo))
                * ((rd xin (klo + 1) - x0) / (rd xin (klo + 1) - rd xin klo))
                - (rd xin (klo + 1) - x0) / (rd xin (klo + 1) - rd xin klo))
              * rd (create_spline xin yin n d1 dn t nm).y2 klo
            + ((x0 - rd xin klo) / (rd xin (klo + 1) - rd xin klo)
                * ((x0 - rd xin klo) / (rd xin (klo + 1) - rd xin klo))
                * ((x0 - rd xin klo) / (rd xin (klo + 1) - rd xin klo))
                - (x0 - rd xin klo) / (rd xin (klo + 1) - rd xin klo))
              * rd (create_spline xin yin n d1 dn t nm).y2 (klo + 1))
            * ((rd xin (klo + 1) - rd xin klo) * (rd xin (klo + 1) - rd xin klo)) / 6) := by
  obtain ⟨hn, -, -, hinc⟩ := hk
  obtain ⟨-, -, hxy⟩ := create_spline_xy xin yin n d1 dn t nm (by omega)
  have ea := hxy klo h0 (by omega)
  have eb := hxy (klo + 1) (by omega) (by omega)
  have hw : rd xin (klo + 1) - rd xin klo ≠ 0 := (sub_pos.mpr (hinc klo h0 (by omega))).ne'
  unfold segmentValue
  simp only [ea.1, ea.2, eb.1, eb.2, hw, if_false]

/-! ## The claims -/

set_option linter.unusedVariables false

/-- C1. Knot reproduction: a spline built by `create_spline` from `n ≥ 2`
strictly increasing abscissas returns `y[i]` at every knot `x[i]`, whatever
the boundary hints, in Arbitrary mode (`type = 0`) and, when the knots are
uniformly spaced, in UniformLinear mode (`type = 1`). -/
theorem C1_knot_reproduction {K : Type} [LinearOrderedField K] [FloorRing K] (lg : K → K)
    (xin yin : List K) (n : Int) (dydx1 dydxn : K)
    (typein : Int) (namein : String) (hk : Knots xin yin n)
    (hmode : typein = 0 ∨ (typein = 1 ∧ ∀ k : Int, 0 ≤ k → k < n →
      rd xin k = rd xin 0 + (k : K) * (rd xin (n - 1) - rd xin 0) / ((n - 1 : Int) : K)))
    (i : Int) (hi0 : 0 ≤ i) (hin : i < n) :
    f lg (create_spline xin yin n dydx1 dydxn typein namein) (rd xin i) = some (rd yin i) := by
  have hb := bracket_at_knot lg xin yin n dydx1 dydxn typein namein hk hmode i hi0 hin
  obtain ⟨hn, -, -, hinc⟩ := hk
  obtain ⟨-, -, hxy⟩ := create_spline_xy xin yin n dydx1 dydxn typein namein (by omega)
  unfold f
  rcases hb with ⟨hb, hlt⟩ | ⟨hb, hlast⟩
  · rw [hb]
    simp only
    rw [← (hxy i hi0 hin).1, ← (hxy i hi0 hin).2]
    apply segmentValue_left
    rw [(hxy i hi0 hin).1, (hxy (i + 1) (by omega) hlt).1]
    exact (hinc i hi0 hlt).ne
  · rw [hb]
    simp only
    rw [← (hxy i hi0 hin).1, ← (hxy i hi0 hin).2]
    apply segmentValue_right
    rw [(hxy i hi0 hin).1, (hxy (i - 1) (by omega) (by omega)).1]
    have := hinc (i - 1) (by omega) (by omega)
    rw [sub_add_cancel] at this
    exact this.ne

theorem C1_knot_reproduction_witness :
    Knots [(0 : ℚ), 1, 3] [5, 7, 2] 3 ∧
      f (fun _ => 0) (create_spline [(0 : ℚ), 1, 3] [5, 7, 2] 3 0 1e30 0 "") 1 = some 7 := by
  refine ⟨knots_sample, ?_⟩
  have h := C1_knot_reproduction (fun _ => 0) [(0 : ℚ), 1, 3] [5, 7, 2] 3 0 1e30 0 ""
    knots_sample
    (Or.inl rfl) 1 (by decide) (by decide)
  simpa [rd] using h

/-- C2. Clamped boundary condition: for `n ≥ 2` strictly increasing
abscissas in Arbitrary mode, a hint `dydx1 ≤ 0.99e30` is the derivative of the
spline at the first knot, and a hint `dydxn ≤ 0.99e30` is its derivative at
the last knot; each end holds whatever the hint at the other end. -/
theorem C2_clamped_boundary {K : Type} [LinearOrderedField K] [FloorRing K] (lg : K → K)
    (xin yin : List K) (n : Int) (dydx1 dydxn : K)
    (namein : String) (hk : Knots xin yin n) :
    (dydx1 ≤ 0.99e30 →
      dfdx lg (create_spline xin yin n dydx1 dydxn 0 namein) (rd xin 0) = some dydx1) ∧
    (dydxn ≤ 0.99e30 →
      dfdx lg (create_spline xin yin n dydx1 dydxn 0 namein) (rd xin (n - 1)) = some dydxn) := by
  have hn := hk.1
  constructor
  · intro hc
    have hb := bracket_at_knot lg xin yin n dydx1 dydxn 0 namein hk (Or.inl rfl) 0 le_rfl
      (by omega)
    rcases hb with ⟨hb, -⟩ | ⟨-, hlast⟩
    · unfold dfdx
      rw [hb]
      exact clamped_left_slope xin yin n dydx1 dydxn 0 namein hk (not_lt.mpr hc)
    · omega
  · intro hc
    have hb := bracket_at_knot lg xin yin n dydx1 dydxn 0 namein hk (Or.inl rfl) (n - 1)
      (by omega) (by omega)
    rcases hb with ⟨-, hlt⟩ | ⟨hb, -⟩
    · omega
    · unfold dfdx
      rw [hb]
      have e : n - 1 - 1 = n - 2 := by ring
      simp only [e]
      exact clamped_right_slope xin yin n dydx1 dydxn 0 namein hk (not_lt.mpr hc)

theorem C2_clamped_boundary_witness :
    Knots [(0 : ℚ), 1, 3] [5, 7, 2] 3 ∧
      dfdx (fun _ => 0) (create_spline [(0 : ℚ), 1, 3] [5, 7, 2] 3 2 (-1) 0 "") 0 = some 2 ∧
      dfdx (fun _ => 0) (create_spline [(0 : ℚ), 1, 3] [5, 7, 2] 3 2 (-1) 0 "") 3
        = some (-1) := by
  have h := C2_clamped_boundary (fun _ => 0) [(0 : ℚ), 1, 3] [5, 7, 2] 3 2 (-1) "" knots_sample
  exact ⟨knots_sample, by simpa [rd] using h.1 (by norm_num),
    by simpa [rd] using h.2 (by norm_num)⟩

/-- C3. Natural boundary condition: after `create_spline` with `n ≥ 2`
strictly increasing abscissas, a hint `dydx1 > 0.99e30` leaves `y2[0] = 0` and
a hint `dydxn > 0.99e30` leaves `y2[n-1] = 0`.  The threshold is strict: a
hint equal to `0.99e30` is treated as a clamped slope, so that the boundary
segment has that slope at the end knot. -/
theorem C3_natural_boundary {K : Type} [LinearOrderedField K] (xin yin : List K) (n : Int)
    (dydx1 dydxn : K) (typein : Int)
    (namein : String) (hk : Knots xin yin n) :
    (dydx1 > 0.99e30 → rd (create_spline xin yin n dydx1 dydxn typein namein).y2 0 = 0) ∧
    (dydxn > 0.99e30 → rd (create_spline xin yin n dydx1 dydxn typein namein).y2 (n - 1) = 0) ∧
    (dydx1 = 0.99e30 →
      segmentSlope (create_spline xin yin n dydx1 dydxn typein namein) 0 1 (rd xin 0)
        = some dydx1) ∧
    (dydxn = 0.99e30 →
      segmentSlope (create_spline xin yin n dydx1 dydxn typein namein) (n - 2) (n - 1)
        (rd xin (n - 1)) = some dydxn) :=
  ⟨(left_relation xin yin n dydx1 dydxn typein namein hk).1,
   (right_relation xin yin n dydx1 dydxn typein namein hk).1,
   fun h => clamped_left_slope xin yin n dydx1 dydxn typein namein hk (not_lt.mpr h.le),
   fun h => clamped_right_slope xin yin n dydx1 dydxn typein namein hk (not_lt.mpr h.le)⟩

theorem C3_natural_boundary_witness :
    Knots [(0 : ℚ), 1, 3] [5, 7, 2] 3 ∧
      rd (create_spline [(0 : ℚ), 1, 3] [5, 7, 2] 3 1e30 1e30 0 "").y2 0 = 0 ∧
      rd (create_spline [(0 : ℚ), 1, 3] [5, 7, 2] 3 1e30 1e30 0 "").y2 2 = 0 := by
  have h := C3_natural_boundary [(0 : ℚ), 1, 3] [5, 7, 2] 3 1e30 1e30 0 "" knots_sample
  exact ⟨knots_sample, h.1 (by norm_num), by simpa using h.2.1 (by norm_num)⟩

/-- C4. First-derivative continuity at interior knots: for `n ≥ 3` strictly
increasing abscissas and every interior index `1 ≤ i ≤ n-2`, the second
derivatives stored by `create_spline` satisfy the tridiagonal equation
`(x[i]-x[i-1])/6*y2[i-1] + (x[i+1]-x[i-1])/3*y2[i] + (x[i+1]-x[i])/6*y2[i+1]
 = (y[i+1]-y[i])/(x[i+1]-x[i]) - (y[i]-y[i-1])/(x[i]-x[i-1])`,
and the slope of the segment `[x[i-1], x[i]]` at `x[i]` is the slope of the
segment `[x[i], x[i+1]]` at `x[i]`. -/
theorem C4_derivative_continuity {K : Type} [LinearOrderedField K] (xin yin : List K) (n : Int)
    (dydx1 dydxn : K) (typein : Int)
    (namein : String) (hk : Knots xin yin n) (hn3 : 3 ≤ n) (i : Int) (hi1 : 1 ≤ i)
    (hi2 : i ≤ n - 2) :
    (rd xin i - rd xin (i - 1)) / 6
          * rd (create_spline xin yin n dydx1 dydxn typein namein).y2 (i - 1)
        + (rd xin (i + 1) - rd xin (i - 1)) / 3
          * rd (create_spline xin yin n dydx1 dydxn typein namein).y2 i
        + (rd xin (i + 1) - rd xin i) / 6
          * rd (create_spline xin yin n dydx1 dydxn typein namein).y2 (i + 1)
      = (rd yin (i + 1) - rd yin i) / (rd xin (i + 1) - rd xin i)
        - (rd yin i - rd yin (i - 1)) / (rd xin i - rd xin (i - 1)) ∧
    segmentSlope (create_spline xin yin n dydx1 dydxn typein namein) (i - 1) i (rd xin i)
      = segmentSlope (create_spline xin yin n dydx1 dydxn typein namein) i (i + 1) (rd xin i) := by
  have hrel := interior_relation xin yin n dydx1 dydxn typein namein hk i hi1 hi2
  obtain ⟨hn, -, -, hinc⟩ := hk
  obtain ⟨-, -, hxy⟩ := create_spline_xy xin yin n dydx1 dydxn typein namein (by omega)
  have a := hinc (i - 1) (by omega) (by omega)
  rw [sub_add_cancel] at a
  have b := hinc i (by omega) (by omega)
  have hL : rd xin i - rd xin (i - 1) ≠ 0 := (sub_pos.mpr a).ne'
  have hR : rd xin (i + 1) - rd xin i ≠ 0 := (sub_pos.mpr b).ne'
  have hH : rd xin (i + 1) - rd xin (i - 1) ≠ 0 := by
    have : (0 : K) < rd xin (i + 1) - rd xin (i - 1) := by linarith
    exact this.ne'
  have e0 := hxy (i - 1) (by omega) (by omega)
  have e1 := hxy i (by omega) (by omega)
  have e2 := hxy (i + 1) (by omega) (by omega)
  have htri : (rd xin i - rd xin (i - 1)) / 6
          * rd (create_spline xin yin n dydx1 dydxn typein namein).y2 (i - 1)
        + (rd xin (i + 1) - rd xin (i - 1)) / 3
          * rd (create_spline xin yin n dydx1 dydxn typein namein).y2 i
        + (rd xin (i + 1) - rd xin i) / 6
          * rd (create_spline xin yin n dydx1 dydxn typein namein).y2 (i + 1)
      = (rd yin (i + 1) - rd yin i) / (rd xin (i + 1) - rd xin i)
        - (rd yin i - rd yin (i - 1)) / (rd xin i - rd xin (i - 1)) := by
    generalize rd (create_spline xin yin n dydx1 dydxn typein namein).y2 (i - 1) = m0 at hrel ⊢
    generalize rd (create_spline xin yin n dydx1 dydxn typein namein).y2 i = m1 at hrel ⊢
    generalize rd (create_spline xin yin n dydx1 dydxn typein namein).y2 (i + 1) = m2 at hrel ⊢
    generalize (rd yin (i + 1) - rd yin i) / (rd xin (i + 1) - rd xin i)
        - (rd yin i - rd yin (i - 1)) / (rd xin i - rd xin (i - 1)) = r at hrel ⊢
    have h6 : (rd xin (i + 1) - rd xin (i - 1)) / 6
        * ((rd xin i - rd xin (i - 1)) / (rd xin (i + 1) - rd xin (i - 1)) * m0 + 2 * m1
          + (1 - (rd xin i - rd xin (i - 1)) / (rd xin (i + 1) - rd xin (i - 1))) * m2) = r := by
      rw [hrel]
      field_simp
      ring
    rw [← h6]
    field_simp
    ring
  refine ⟨htri, ?_⟩
  have s1 := segmentSlope_right (create_spline xin yin n dydx1 dydxn typein namein) (i - 1) i
    (by rw [e0.1, e1.1]; exact a.ne)
  have s2 := segmentSlope_left (create_spline xin yin n dydx1 dydxn typein namein) i (i + 1)
    (by rw [e1.1, e2.1]; exact b.ne)
  rw [e1.1] at s1 s2
  rw [s1, s2, Option.some.injEq]
  simp only [e0.1, e0.2, e1.1, e1.2, e2.1, e2.2]
  linear_combination htri

theorem C4_derivative_continuity_witness :
    Knots [(0 : ℚ), 1, 3] [5, 7, 2] 3 ∧
      ((1 - 0) / 6 * rd (create_spline [(0 : ℚ), 1, 3] [5, 7, 2] 3 2 1e30 0 "").y2 0
        + (3 - 0) / 3 * rd (create_spline [(0 : ℚ), 1, 3] [5, 7, 2] 3 2 1e30 0 "").y2 1
        + (3 - 1) / 6 * rd (create_spline [(0 : ℚ), 1, 3] [5, 7, 2] 3 2 1e30 0 "").y2 2
        = (2 - 7) / (3 - 1) - (7 - 5) / (1 - 0)) ∧
      segmentSlope (create_spline [(0 : ℚ), 1, 3] [5, 7, 2] 3 2 1e30 0 "") 0 1 1
        = segmentSlope (create_spline [(0 : ℚ), 1, 3] [5, 7, 2] 3 2 1e30 0 "") 1 2 1 := by
  have h := C4_derivative_continuity [(0 : ℚ), 1, 3] [5, 7, 2] 3 2 1e30 0 "" knots_sample
    (by decide) 1 (by decide) (by decide)
  exact ⟨knots_sample, by simpa [rd] using h.1, by simpa [rd] using h.2⟩

/-- C5 (as stated) fails: the samples `0, 1, 4` of `x^2` at the knots
`0, 1, 2`, fitted with the natural condition at both ends, give
`f(1/2) = 5/16`, not `(1/2)^2 = 1/4`. -/
theorem C5_counterexample :
    Knots [(0 : ℚ), 1, 2] [0, 1, 4] 3 ∧
    (∀ i : Int, 0 ≤ i → i < 3 →
      rd [(0 : ℚ), 1, 4] i = cubic 0 0 1 0 (rd [(0 : ℚ), 1, 2] i)) ∧
    rd [(0 : ℚ), 1, 2] 0 ≤ 1 / 2 ∧ (1 / 2 : ℚ) ≤ rd [(0 : ℚ), 1, 2] (3 - 1) ∧
    f (fun _ => 0) (create_spline [(0 : ℚ), 1, 2] [0, 1, 4] 3 1e30 1e30 0 "") (1 / 2)
      = some (5 / 16) ∧
    (5 / 16 : ℚ) ≠ cubic 0 0 1 0 (1 / 2) := by
  refine ⟨⟨by decide, by decide, by decide, ?_⟩, ?_, ?_, ?_, ?_, ?_⟩
  · intro i h0 h1
    have h2 : i = 0 ∨ i = 1 := by omega
    rcases h2 with rfl | rfl <;> simp [rd]
  · intro i h0 h1
    have h2 : i = 0 ∨ i = 1 ∨ i = 2 := by omega
    rcases h2 with rfl | rfl | rfl
    · simp [rd, cubic]
    · simp [rd, cubic]
    · simp [rd, cubic]
      norm_num
  · simp [rd]
  · simp [rd]
    norm_num
  · simp [f, bracket, bisect, segmentValue, create_spline, copyLoop, newArray, leftBoundary,
      sweepLoop, rightBoundary, backLoop, rd, wr, shiftRight_one]
    norm_num
  · simp [cubic]
    norm_num

/-- C5 (amended). Interpolation exactness when the boundary conditions agree
with the polynomial: for `n ≥ 3` strictly increasing knots and samples
`y[i] = p(x[i])` of a cubic `p`, if each end is either clamped to the slope of
`p` there (hint `≤ 0.99e30`) or natural (hint `> 0.99e30`) with `p''`
vanishing there, then `f(x) = p(x)` at every `x` in `[x[0], x[n-1]]`; in
UniformLogarithmic mode this needs the index ratio
`log(x/x_start)/log(x_end/x_start)` not to be negative. -/
theorem C5_cubic_exactness_amended {K : Type} [LinearOrderedField K] [FloorRing K]
    (lg : K → K) (c0 c1 c2 c3 : K) (xin yin : List K) (n : Int) (dydx1 dydxn : K)
    (typein : Int) (namein : String) (hk : Knots xin yin n) (hn3 : 3 ≤ n)
    (hy : ∀ i : Int, 0 ≤ i → i < n → rd yin i = cubic c0 c1 c2 c3 (rd xin i))
    (hleft : (dydx1 ≤ 0.99e30 ∧ dydx1 = cubicD c1 c2 c3 (rd xin 0)) ∨
      (dydx1 > 0.99e30 ∧ cubicDD c2 c3 (rd xin 0) = 0))
    (hright : (dydxn ≤ 0.99e30 ∧ dydxn = cubicD c1 c2 c3 (rd xin (n - 1))) ∨
      (dydxn > 0.99e30 ∧ cubicDD c2 c3 (rd xin (n - 1)) = 0))
    (x0 : K) (hx0 : rd xin 0 ≤ x0) (hx1 : x0 ≤ rd xin (n - 1))
    (hlg : typein = 2 → 0 ≤ lg (x0 / rd xin 0) / lg (rd xin (n - 1) / rd xin 0)) :
    f lg (create_spline xin yin n dydx1 dydxn typein namein) x0
      = some (cubic c0 c1 c2 c3 x0) := by
  have hmode : (typein ≠ 1 ∧ typein ≠ 2) ∨ (typein = 1 ∧ rd xin 0 ≤ x0) ∨
      (typein = 2 ∧ 0 ≤ lg (x0 / rd xin 0) / lg (rd xin (n - 1) / rd xin 0)) := by
    by_cases h1 : typein = 1
    · exact Or.inr (Or.inl ⟨h1, hx0⟩)
    · by_cases h2 : typein = 2
      · exact Or.inr (Or.inr ⟨h2, hlg h2⟩)
      · exact Or.inl ⟨h1, h2⟩
  obtain ⟨b0, b1, b2⟩ := bracket_in_range lg xin yin n dydx1 dydxn typein namein hk x0 hmode
  unfold f
  rw [b2]
  exact (cubic_on_bracket c0 c1 c2 c3 xin yin n dydx1 dydxn typein namein hk hy
    (hleft.imp (fun h => ⟨not_lt.mpr h.1, h.2⟩) id)
    (hright.imp (fun h => ⟨not_lt.mpr h.1, h.2⟩) id) _ b0 b1 x0).1

theorem C5_cubic_exactness_amended_witness :
    Knots [(0 : ℚ), 1, 2] [0, 1, 4] 3 ∧
    f (fun _ => 0) (create_spline [(0 : ℚ), 1, 2] [0, 1, 4] 3 0 4 0 "") (1 / 2)
      = some (1 / 4) := by
  have hk : Knots [(0 : ℚ), 1, 2] [0, 1, 4] 3 := by
    refine ⟨by decide, by decide, by decide, ?_⟩
    intro i h0 h1
    have h2 : i = 0 ∨ i = 1 := by omega
    rcases h2 with rfl | rfl <;> simp [rd]
  refine ⟨hk, ?_⟩
  have h := C5_cubic_exactness_amended (fun _ => 0) 0 0 1 0 [(0 : ℚ), 1, 2] [0, 1, 4] 3 0 4 0 ""
    hk (by decide)
    (by
      intro i h0 h1
      have h2 : i = 0 ∨ i = 1 ∨ i = 2 := by omega
      rcases h2 with rfl | rfl | rfl
      · simp [rd, cubic]
      · simp [rd, cubic]
      · simp [rd, cubic]
        norm_num)
    (Or.inl ⟨by norm_num, by simp [rd, cubicD]⟩)
    (Or.inl ⟨by norm_num, by simp [rd, cubicD]; norm_num⟩)
    (1 / 2) (by simp [rd]) (by simp [rd]; norm_num) (by intro h; exact absurd h (by decide))
  simpa [cubic] using h

/-- C6. Binary-search bracketing: in Arbitrary mode, for `n ≥ 2` strictly
increasing knots and a query with `x[0] ≤ x0 ≤ x[n-1]`, the search of `f` and
`dfdx` ends on an adjacent pair `khi = klo + 1` inside the arrays with
`x[klo] ≤ x0 ≤ x[khi]`. -/
theorem C6_bisect_brackets {K : Type} [LinearOrderedField K] [FloorRing K] (lg : K → K)
    (xin yin : List K) (n : Int) (dydx1 dydxn : K) (namein : String) (hk : Knots xin yin n)
    (x0 : K) (hx0 : rd xin 0 ≤ x0) (hx1 : x0 ≤ rd xin (n - 1)) :
    (bracket lg (create_spline xin yin n dydx1 dydxn 0 namein) x0).2
      = (bracket lg (create_spline xin yin n dydx1 dydxn 0 namein) x0).1 + 1 ∧
    0 ≤ (bracket lg (create_spline xin yin n dydx1 dydxn 0 namein) x0).1 ∧
    (bracket lg (create_spline xin yin n dydx1 dydxn 0 namein) x0).2 ≤ n - 1 ∧
    rd (create_spline xin yin n dydx1 dydxn 0 namein).x
        (bracket lg (create_spline xin yin n dydx1 dydxn 0 namein) x0).1 ≤ x0 ∧
    x0 ≤ rd (create_spline xin yin n dydx1 dydxn 0 namein).x
        (bracket lg (create_spline xin yin n dydx1 dydxn 0 namein) x0).2 := by
  obtain ⟨b0, b1, b2, b3, b4⟩ := bisect_built xin yin n dydx1 dydxn 0 namein hk x0
  obtain ⟨-, -, hxy⟩ := create_spline_xy xin yin n dydx1 dydxn 0 namein (by have := hk.1; omega)
  rw [bracket_arbitrary lg _ _ (by show (0 : Int) ≠ 1; decide) (by show (0 : Int) ≠ 2; decide)]
  show (bisect _ x0 0 (n - 1)).2 = (bisect _ x0 0 (n - 1)).1 + 1 ∧
    0 ≤ (bisect _ x0 0 (n - 1)).1 ∧ (bisect _ x0 0 (n - 1)).2 ≤ n - 1 ∧
    rd _ (bisect _ x0 0 (n - 1)).1 ≤ x0 ∧ x0 ≤ rd _ (bisect _ x0 0 (n - 1)).2
  generalize bisect (create_spline xin yin n dydx1 dydxn 0 namein).x x0 0 (n - 1) = r
    at b0 b1 b2 b3 b4 ⊢
  refine ⟨b2, b0, by omega, ?_, ?_⟩
  · rw [(hxy r.1 b0 (by omega)).1]
    rcases b3 with b3 | b3
    · rw [b3]; exact hx0
    · exact b3
  · rw [b2, (hxy (r.1 + 1) (by omega) (by omega)).1]
    rcases b4 with b4 | b4
    · rw [b4]
      have e : n - 2 + 1 = n - 1 := by ring
      rw [e]; exact hx1
    · exact b4.le

theorem C6_bisect_brackets_witness :
    Knots [(0 : ℚ), 1, 3] [5, 7, 2] 3 ∧ rd [(0 : ℚ), 1, 3] 0 ≤ 2 ∧
    (2 : ℚ) ≤ rd [(0 : ℚ), 1, 3] (3 - 1) ∧
    (bracket (fun _ => 0) (create_spline [(0 : ℚ), 1, 3] [5, 7, 2] 3 2 (-1) 0 "") 2).2
      = (bracket (fun _ => 0) (create_spline [(0 : ℚ), 1, 3] [5, 7, 2] 3 2 (-1) 0 "") 2).1 + 1 ∧
    rd (create_spline [(0 : ℚ), 1, 3] [5, 7, 2] 3 2 (-1) 0 "").x
        (bracket (fun _ => 0) (create_spline [(0 : ℚ), 1, 3] [5, 7, 2] 3 2 (-1) 0 "") 2).1 ≤ 2 ∧
    2 ≤ rd (create_spline [(0 : ℚ), 1, 3] [5, 7, 2] 3 2 (-1) 0 "").x
        (bracket (fun _ => 0) (create_spline [(0 : ℚ), 1, 3] [5, 7, 2] 3 2 (-1) 0 "") 2).2 := by
  have hx0 : rd [(0 : ℚ), 1, 3] 0 ≤ 2 := by simp [rd]
  have hx1 : (2 : ℚ) ≤ rd [(0 : ℚ), 1, 3] (3 - 1) := by simp [rd]; norm_num
  have h := C6_bisect_brackets (fun _ => 0) [(0 : ℚ), 1, 3] [5, 7, 2] 3 2 (-1) "" knots_sample 2
    hx0 hx1
  exact ⟨knots_sample, hx0, hx1, h.1, h.2.2.2.1, h.2.2.2.2⟩

/-- C7. Lookup-mode equivalence: on uniformly spaced knots
`x[k] = x_start + k*(x_end-x_start)/(n-1)` with `n ≥ 2`, two splines built
from the same data that differ only in `type` (0 and 1) select the same
bracket and return the same `f(x0)` and the same `dfdx(x0)` for every query
`x0` in `[x_start, x_end]`. -/
theorem C7_lookup_mode_equivalence {K : Type} [LinearOrderedField K] [FloorRing K] (lg : K → K)
    (xin yin : List K) (n : Int) (dydx1 dydxn : K) (namein : String) (hk : Knots xin yin n)
    (huni : ∀ k : Int, 0 ≤ k → k < n →
      rd xin k = rd xin 0 + (k : K) * (rd xin (n - 1) - rd xin 0) / ((n - 1 : Int) : K))
    (x0 : K) (hx0 : rd xin 0 ≤ x0) (hx1 : x0 ≤ rd xin (n - 1)) :
    bracket lg (create_spline xin yin n dydx1 dydxn 0 namein) x0
      = bracket lg (create_spline xin yin n dydx1 dydxn 1 namein) x0 ∧
    f lg (create_spline xin yin n dydx1 dydxn 0 namein) x0
      = f lg (create_spline xin yin n dydx1 dydxn 1 namein) x0 ∧
    dfdx lg (create_spline xin yin n dydx1 dydxn 0 namein) x0
      = dfdx lg (create_spline xin yin n dydx1 dydxn 1 namein) x0 := by
  have hidx := linear_index_eq_bisect xin yin n dydx1 dydxn 0 namein hk huni x0 hx0
  obtain ⟨-, -, b2, -, -⟩ := bisect_built xin yin n dydx1 dydxn 0 namein hk x0
  have hb : bracket lg (create_spline xin yin n dydx1 dydxn 0 namein) x0
      = bracket lg (create_spline xin yin n dydx1 dydxn 1 namein) x0 := by
    rw [bracket_arbitrary lg _ _ (by show (0 : Int) ≠ 1; decide) (by show (0 : Int) ≠ 2; decide),
      bracket_linear lg _ _ rfl]
    show bisect _ x0 0 (n - 1) = (MIN (truncToInt ((x0 - rd xin 0) / (rd xin (n - 1) - rd xin 0)
        * ((n - 1 : Int) : K))) (n - 2), MIN (truncToInt ((x0 - rd xin 0)
        / (rd xin (n - 1) - rd xin 0) * ((n - 1 : Int) : K))) (n - 2) + 1)
    rw [hidx, ← b2]
  refine ⟨hb, ?_, ?_⟩
  · unfold f
    rw [hb]
    rfl
  · unfold dfdx
    rw [hb]
    rfl

theorem C7_lookup_mode_equivalence_witness :
    Knots [(0 : ℚ), 2, 4] [5, 7, 2] 3 ∧ rd [(0 : ℚ), 2, 4] 0 ≤ 3 ∧
    (3 : ℚ) ≤ rd [(0 : ℚ), 2, 4] (3 - 1) ∧
    f (fun _ => 0) (create_spline [(0 : ℚ), 2, 4] [5, 7, 2] 3 2 (-1) 0 "") 3
      = f (fun _ => 0) (create_spline [(0 : ℚ), 2, 4] [5, 7, 2] 3 2 (-1) 1 "") 3 ∧
    dfdx (fun _ => 0) (create_spline [(0 : ℚ), 2, 4] [5, 7, 2] 3 2 (-1) 0 "") 3
      = dfdx (fun _ => 0) (create_spline [(0 : ℚ), 2, 4] [5, 7, 2] 3 2 (-1) 1 "") 3 := by
  have hk : Knots [(0 : ℚ), 2, 4] [5, 7, 2] 3 := by
    refine ⟨by decide, by decide, by decide, ?_⟩
    intro i h0 h1
    have h2 : i = 0 ∨ i = 1 := by omega
    rcases h2 with rfl | rfl
    all_goals (simp [rd]; try norm_num)
  have hx0 : rd [(0 : ℚ), 2, 4] 0 ≤ 3 := by simp [rd]
  have hx1 : (3 : ℚ) ≤ rd [(0 : ℚ), 2, 4] (3 - 1) := by simp [rd]; norm_num
  have h := C7_lookup_mode_equivalence (fun _ => 0) [(0 : ℚ), 2, 4] [5, 7, 2] 3 2 (-1) "" hk
    (by
      intro k h0 h1
      have h2 : k = 0 ∨ k = 1 ∨ k = 2 := by omega
      rcases h2 with rfl | rfl | rfl
      all_goals (simp [rd]; try norm_num))
    3 hx0 hx1
  exact ⟨hk, hx0, hx1, h.2.1, h.2.2⟩

/-- C8. The code at a query below the domain in UniformLinear mode: on the
knots `0, 1, 2` the query `x = -2` gives `klo = -2` and `khi = -1`, outside
the arrays, where the clamped formula of the specification gives `0`. -/
theorem C8_linear_index_below_domain :
    bracket (fun _ => 0) (create_spline [(0 : ℚ), 1, 2] [5, 7, 2] 3 1e30 1e30 1 "") (-2)
      = (-2, -1) ∧
    specLinearIndex (create_spline [(0 : ℚ), 1, 2] [5, 7, 2] 3 1e30 1e30 1 "") (-2) = 0 := by
  have e : ((-2 : ℚ) - (create_spline [(0 : ℚ), 1, 2] [5, 7, 2] 3 1e30 1e30 1 "").x_start)
      / ((create_spline [(0 : ℚ), 1, 2] [5, 7, 2] 3 1e30 1e30 1 "").x_end
        - (create_spline [(0 : ℚ), 1, 2] [5, 7, 2] 3 1e30 1e30 1 "").x_start)
      * (((create_spline [(0 : ℚ), 1, 2] [5, 7, 2] 3 1e30 1e30 1 "").n - 1 : Int) : ℚ)
      = ((-2 : Int) : ℚ) := by
    simp [create_spline, rd]
  constructor
  · rw [bracket_linear _ _ _ rfl, e, truncToInt_intCast]
    show (MIN (-2) (3 - 2), MIN (-2) (3 - 2) + 1) = (-2, -1)
    decide
  · unfold specLinearIndex
    rw [e, Int.floor_intCast]
    show max 0 (min (-2) (3 - 2)) = (0 : Int)
    decide

/-- C9. Out-of-range extrapolation in Arbitrary mode with `n ≥ 2` strictly
increasing knots: a query below `x[0]` is evaluated on the bracket `(0, 1)`
and a query above `x[n-1]` on the bracket `(n-2, n-1)`, and `f` returns the
value at the query of that segment's cubic formula
`a*y[klo] + b*y[khi] + ((a*a*a-a)*y2[klo] + (b*b*b-b)*y2[khi])*(h*h)/6` with
`h = x[khi]-x[klo]`, `a = (x[khi]-x0)/h`, `b = (x0-x[klo])/h`.  That value is
not the boundary ordinate: the natural spline through `(0,0)`, `(1,1)`, `(2,4)`
has `y2 = 0, 3, 0` and gives `f(5/2) = 91/16`, not `y[2] = 4`, and
`f(-1/2) = -5/16`, not `y[0] = 0`. -/
theorem C9_extrapolation {K : Type} [LinearOrderedField K] [FloorRing K] (lg : K → K)
    (xin yin : List K) (n : Int) (dydx1 dydxn : K) (namein : String) (hk : Knots xin yin n)
    (x0 : K) :
    (x0 < rd xin 0 →
      bracket lg (create_spline xin yin n dydx1 dydxn 0 namein) x0 = (0, 1) ∧
      f lg (create_spline xin yin n dydx1 dydxn 0 namein) x0
        = some ((rd xin 1 - x0) / (rd xin 1 - rd xin 0) * rd yin 0
          + (x0 - rd xin 0) / (rd xin 1 - rd xin 0) * rd yin 1
          + (((rd xin 1 - x0) / (rd xin 1 - rd xin 0)
                * ((rd xin 1 - x0) / (rd xin 1 - rd xin 0))
                * ((rd xin 1 - x0) / (rd xin 1 - rd xin 0))
                - (rd xin 1 - x0) / (rd xin 1 - rd xin 0))
              * rd (create_spline xin yin n dydx1 dydxn 0 namein).y2 0
            + ((x0 - rd xin 0) / (rd xin 1 - rd xin 0)
                * ((x0 - rd xin 0) / (rd xin 1 - rd xin 0))
                * ((x0 - rd xin 0) / (rd xin 1 - rd xin 0))
                - (x0 - rd xin 0) / (rd xin 1 - rd xin 0))
              * rd (create_spline xin yin n dydx1 dydxn 0 namein).y2 1)
            * ((rd xin 1 - rd xin 0) * (rd xin 1 - rd xin 0)) / 6)) ∧
    (rd xin (n - 1) < x0 →
      bracket lg (create_spline xin yin n dydx1 dydxn 0 namein) x0 = (n - 2, n - 1) ∧
      f lg (create_spline xin yin n dydx1 dydxn 0 namein) x0
        = some ((rd xin (n - 1) - x0) / (rd xin (n - 1) - rd xin (n - 2)) * rd yin (n - 2)
          + (x0 - rd xin (n - 2)) / (rd xin (n - 1) - rd xin (n - 2)) * rd yin (n - 1)
          + (((rd xin (n - 1) - x0) / (rd xin (n - 1) - rd xin (n - 2))
                * ((rd xin (n - 1) - x0) / (rd xin (n - 1) - rd xin (n - 2)))
                * ((rd xin (n - 1) - x0) / (rd xin (n - 1) - rd xin (n - 2)))
                - (rd xin (n - 1) - x0) / (rd xin (n - 1) - rd xin (n - 2)))
              * rd (create_spline xin yin n dydx1 dydxn 0 namein).y2 (n - 2)
            + ((x0 - rd xin (n - 2)) / (rd xin (n - 1) - rd xin (n - 2))
                * ((x0 - rd xin (n - 2)) / (rd xin (n - 1) - rd xin (n - 2)))
                * ((x0 - rd xin (n - 2)) / (rd xin (n - 1) - rd xin (n - 2)))
                - (x0 - rd xin (n - 2)) / (rd xin (n - 1) - rd xin (n - 2)))
              * rd (create_spline xin yin n dydx1 dydxn 0 namein).y2 (n - 1))
            * ((rd xin (n - 1) - rd xin (n - 2)) * (rd xin (n - 1) - rd xin (n - 2))) / 6)) ∧
    ((create_spline [(0 : ℚ), 1, 2] [0, 1, 4] 3 1e30 1e30 0 "").y2 = [0, 3, 0] ∧
      f (fun _ => 0) (create_spline [(0 : ℚ), 1, 2] [0, 1, 4] 3 1e30 1e30 0 "") (5 / 2)
        = some (91 / 16) ∧
      rd [(0 : ℚ), 1, 4] (3 - 1) = 4 ∧
      f (fun _ => 0) (create_spline [(0 : ℚ), 1, 2] [0, 1, 4] 3 1e30 1e30 0 "") (-1 / 2)
        = some (-5 / 16) ∧
      rd [(0 : ℚ), 1, 4] 0 = 0) := by
  obtain ⟨b0, b1, b2, b3, b4⟩ := bisect_built xin yin n dydx1 dydxn 0 namein hk x0
  have hb := bracket_arbitrary lg (create_spline xin yin n dydx1 dydxn 0 namein) x0
    (by show (0 : Int) ≠ 1; decide) (by show (0 : Int) ≠ 2; decide)
  have hb' : bracket lg (create_spline xin yin n dydx1 dydxn 0 namein) x0
      = bisect (create_spline xin yin n dydx1 dydxn 0 namein).x x0 0 (n - 1) := hb
  have hn := hk.1
  have hmono := increasing_of_adjacent xin n hk.2.2.2
  generalize bisect (create_spline xin yin n dydx1 dydxn 0 namein).x x0 0 (n - 1) = r
    at b0 b1 b2 b3 b4 hb'
  refine ⟨?_, ?_, ?_⟩
  · intro hlt
    have hklo : r.1 = 0 := by
      rcases b3 with b3 | b3
      · exact b3
      · by_contra hne
        have := hmono 0 r.1 le_rfl (by omega) (by omega)
        exact absurd (lt_of_lt_of_le this b3) (not_lt.mpr hlt.le)
    have hbr : bracket lg (create_spline xin yin n dydx1 dydxn 0 namein) x0 = (0, 1) := by
      rw [hb']
      apply Prod.ext
      · exact hklo
      · rw [b2, hklo]; rfl
    refine ⟨hbr, ?_⟩
    have hseg := segmentValue_built xin yin n dydx1 dydxn 0 namein hk 0 le_rfl (by omega) x0
    rw [zero_add] at hseg
    unfold f
    rw [hbr]
    exact hseg
  · intro hgt
    have hklo : r.1 = n - 2 := by
      rcases b4 with b4 | b4
      · exact b4
      · by_contra hne
        have := hmono (r.1 + 1) (n - 1) (by omega) (by omega) (by omega)
        exact absurd (lt_trans b4 this) (not_lt.mpr hgt.le)
    have hbr : bracket lg (create_spline xin yin n dydx1 dydxn 0 namein) x0
        = (n - 2, n - 1) := by
      rw [hb']
      apply Prod.ext
      · exact hklo
      · rw [b2, hklo]; show n - 2 + 1 = n - 1; ring
    refine ⟨hbr, ?_⟩
    have hseg := segmentValue_built xin yin n dydx1 dydxn 0 namein hk (n - 2) (by omega) le_rfl
      x0
    have e : n - 2 + 1 = n - 1 := by ring
    rw [e] at hseg
    unfold f
    rw [hbr]
    exact hseg
  · refine ⟨?_, ?_, ?_, ?_, ?_⟩
    · simp [create_spline, copyLoop, newArray, leftBoundary, sweepLoop, rightBoundary, backLoop,
        rd, wr]
      norm_num
    · have hbr : bracket (fun _ => 0)
          (create_spline [(0 : ℚ), 1, 2] [0, 1, 4] 3 1e30 1e30 0 "") (5 / 2) = (1, 2) := by
        simp [bracket, bisect, create_spline, copyLoop, newArray, leftBoundary, sweepLoop,
          rightBoundary, backLoop, rd, wr, shiftRight_one]
        norm_num
      unfold f
      rw [hbr]
      simp [segmentValue, create_spline, copyLoop, newArray, leftBoundary, sweepLoop,
        rightBoundary, backLoop, rd, wr]
      norm_num
    · simp [rd]
    · simp [f, bracket, bisect, segmentValue, create_spline, copyLoop, newArray, leftBoundary,
        sweepLoop, rightBoundary, backLoop, rd, wr, shiftRight_one]
      norm_num
    · simp [rd]

theorem C9_extrapolation_witness :
    Knots [(0 : ℚ), 1, 2] [0, 1, 4] 3 ∧ (-1 / 2 : ℚ) < rd [(0 : ℚ), 1, 2] 0 ∧
    rd [(0 : ℚ), 1, 2] (3 - 1) < 5 / 2 ∧
    bracket (fun _ => 0) (create_spline [(0 : ℚ), 1, 2] [0, 1, 4] 3 1e30 1e30 0 "") (-1 / 2)
      = (0, 1) ∧
    f (fun _ => 0) (create_spline [(0 : ℚ), 1, 2] [0, 1, 4] 3 1e30 1e30 0 "") (-1 / 2)
      = some (-5 / 16) ∧
    bracket (fun _ => 0) (create_spline [(0 : ℚ), 1, 2] [0, 1, 4] 3 1e30 1e30 0 "") (5 / 2)
      = (1, 2) ∧
    f (fun _ => 0) (create_spline [(0 : ℚ), 1, 2] [0, 1, 4] 3 1e30 1e30 0 "") (5 / 2)
      = some (91 / 16) := by
  have hk : Knots [(0 : ℚ), 1, 2] [0, 1, 4] 3 := by
    refine ⟨by decide, by decide, by decide, ?_⟩
    intro i h0 h1
    have h2 : i = 0 ∨ i = 1 := by omega
    rcases h2 with rfl | rfl
    all_goals (simp [rd]; try norm_num)
  have hlo : (-1 / 2 : ℚ) < rd [(0 : ℚ), 1, 2] 0 := by simp [rd]; norm_num
  have hhi : rd [(0 : ℚ), 1, 2] (3 - 1) < 5 / 2 := by simp [rd]; norm_num
  have hy2 : (create_spline [(0 : ℚ), 1, 2] [0, 1, 4] 3 1e30 1e30 0 "").y2 = [0, 3, 0] := by
    simp [create_spline, copyLoop, newArray, leftBoundary, sweepLoop, rightBoundary, backLoop,
      rd, wr]
    norm_num
  have hA := (C9_extrapolation (fun _ => 0) [(0 : ℚ), 1, 2] [0, 1, 4] 3 1e30 1e30 "" hk
    (-1 / 2)).1 hlo
  have hB := (C9_extrapolation (fun _ => 0) [(0 : ℚ), 1, 2] [0, 1, 4] 3 1e30 1e30 "" hk
    (5 / 2)).2.1 hhi
  refine ⟨hk, hlo, hhi, hA.1, ?_, hB.1, ?_⟩
  · rw [hA.2, hy2]
    simp [rd]
    norm_num
  · rw [hB.2, hy2]
    simp [rd]
    norm_num

/-- C10. The code at a query above the knot range: the natural spline through
`(0,0)` and `(1,1)` in Arbitrary mode returns `f(2) = 2`, the value of the
extrapolated segment, while the closest value promised by the comment of `f`
is `y[n-1] = 1`; below the range it returns `f(-1) = -1` while `y[0] = 0`. -/
theorem C10_closest_value_not_returned :
    Knots [(0 : ℚ), 1] [0, 1] 2 ∧
    (create_spline [(0 : ℚ), 1] [0, 1] 2 1e30 1e30 0 "").x_end < 2 ∧
    f (fun _ => 0) (create_spline [(0 : ℚ), 1] [0, 1] 2 1e30 1e30 0 "") 2 = some 2 ∧
    rd (create_spline [(0 : ℚ), 1] [0, 1] 2 1e30 1e30 0 "").y (2 - 1) = 1 ∧
    (-1 : ℚ) < (create_spline [(0 : ℚ), 1] [0, 1] 2 1e30 1e30 0 "").x_start ∧
    f (fun _ => 0) (create_spline [(0 : ℚ), 1] [0, 1] 2 1e30 1e30 0 "") (-1) = some (-1) ∧
    rd (create_spline [(0 : ℚ), 1] [0, 1] 2 1e30 1e30 0 "").y 0 = 0 := by
  refine ⟨⟨by decide, by decide, by decide, ?_⟩, ?_, ?_, ?_, ?_, ?_, ?_⟩
  · intro i h0 h1
    have h2 : i = 0 := by omega
    subst h2
    simp [rd]
  · simp [create_spline, rd]
  · simp [f, bracket, bisect, segmentValue, create_spline, copyLoop, newArray, leftBoundary,
      sweepLoop, rightBoundary, backLoop, rd, wr]
    norm_num
  · simp [create_spline, copyLoop, newArray, rd, wr]
  · simp [create_spline, rd]
  · simp [f, bracket, bisect, segmentValue, create_spline, copyLoop, newArray, leftBoundary,
      sweepLoop, rightBoundary, backLoop, rd, wr]
    norm_num
  · simp [create_spline, copyLoop, newArray, rd, wr]

/-- C11. Degenerate interval at evaluation is fatal: for every spline state
and every query, when the located bracket has width `x[khi] - x[klo] = 0` both
`f` and `dfdx` end in `exit(1)` and return no value; and whenever `f` or `dfdx`
returns a value, the width of the bracket is not zero. -/
theorem C11_degenerate_interval_fatal {K : Type} [LinearOrderedField K] [FloorRing K]
    (lg : K → K) (s : Spline K) (x0 : K) :
    (rd s.x (bracket lg s x0).2 - rd s.x (bracket lg s x0).1 = 0 →
      f lg s x0 = none ∧ dfdx lg s x0 = none) ∧
    (∀ v : K, f lg s x0 = some v →
      rd s.x (bracket lg s x0).2 - rd s.x (bracket lg s x0).1 ≠ 0) ∧
    (∀ v : K, dfdx lg s x0 = some v →
      rd s.x (bracket lg s x0).2 - rd s.x (bracket lg s x0).1 ≠ 0) := by
  refine ⟨?_, ?_, ?_⟩
  · intro h
    constructor
    · unfold f segmentValue
      simp only [h, if_true]
    · unfold dfdx segmentSlope
      simp only [h, if_true]
  · intro v hv h
    unfold f segmentValue at hv
    simp only [h, if_true] at hv
    exact absurd hv (by simp)
  · intro v hv h
    unfold dfdx segmentSlope at hv
    simp only [h, if_true] at hv
    exact absurd hv (by simp)

theorem C11_degenerate_interval_fatal_witness :
    rd (create_spline [(1 : ℚ), 1] [3, 4] 2 1e30 1e30 0 "").x
        (bracket (fun _ => 0) (create_spline [(1 : ℚ), 1] [3, 4] 2 1e30 1e30 0 "") 1).2
      - rd (create_spline [(1 : ℚ), 1] [3, 4] 2 1e30 1e30 0 "").x
        (bracket (fun _ => 0) (create_spline [(1 : ℚ), 1] [3, 4] 2 1e30 1e30 0 "") 1).1 = 0 ∧
    f (fun _ => 0) (create_spline [(1 : ℚ), 1] [3, 4] 2 1e30 1e30 0 "") 1 = none ∧
    dfdx (fun _ => 0) (create_spline [(1 : ℚ), 1] [3, 4] 2 1e30 1e30 0 "") 1 = none := by
  have hw : rd (create_spline [(1 : ℚ), 1] [3, 4] 2 1e30 1e30 0 "").x
        (bracket (fun _ => 0) (create_spline [(1 : ℚ), 1] [3, 4] 2 1e30 1e30 0 "") 1).2
      - rd (create_spline [(1 : ℚ), 1] [3, 4] 2 1e30 1e30 0 "").x
        (bracket (fun _ => 0) (create_spline [(1 : ℚ), 1] [3, 4] 2 1e30 1e30 0 "") 1).1 = 0 := by
    simp [bracket, bisect, create_spline, copyLoop, newArray, rd, wr]
  exact ⟨hw, (C11_degenerate_interval_fatal (fun _ => 0)
    (create_spline [(1 : ℚ), 1] [3, 4] 2 1e30 1e30 0 "") 1).1 hw⟩

/-- C12 (as stated) fails: `create_spline` returns a spline, with the
abscissas stored as given, for the two equal abscissas `1, 1` (`n = 2 < 3`)
and for the abscissas `0, 2, 1`, which are not increasing. -/
theorem C12_counterexample :
    create_spline [(1 : ℚ), 1] [3, 4] 2 1e30 1e30 0 "s"
      = { name := "s", y := [3, 4], x := [1, 1], y2 := [0, 0], x_start := 1, x_end := 1,
          n := 2, type := 0 } ∧
    create_spline [(0 : ℚ), 2, 1] [0, 1, 0] 3 1e30 1e30 0 "s"
      = { name := "s", y := [0, 1, 0], x := [0, 2, 1], y2 := [0, 3 / 2, 0], x_start := 0,
          x_end := 1, n := 3, type := 0 } := by
  constructor
  · simp [create_spline, copyLoop, newArray, leftBoundary, sweepLoop, rightBoundary, backLoop,
      rd, wr]
    norm_num
  · simp [create_spline, copyLoop, newArray, leftBoundary, sweepLoop, rightBoundary, backLoop,
      rd, wr]
    norm_num

/-- C12 (amended). `create_spline` contains no check of its input: for every
`n ≥ 2` and input arrays of at least `n` cells, whatever the abscissas (equal,
not increasing) and also for `n = 2 < 3`, it returns a spline that stores
`n`, `type`, `name`, `x_start = x[0]`, `x_end = x[n-1]` and copies of
`x[0..n-1]` and `y[0..n-1]`.  Equal abscissas are reported only at evaluation:
in Arbitrary mode both `f` and `dfdx` stop with `exit(1)` for every query
whose located bracket joins two equal abscissas.  Inputs with `n < 2` or
shorter arrays are outside this statement. -/
theorem C12_no_validation_amended {K : Type} [LinearOrderedField K] [FloorRing K]
    (lg : K → K) (xin yin : List K) (n : Int) (dydx1 dydxn : K) (typein : Int)
    (namein : String) (hn : 2 ≤ n) (hlx : n ≤ (xin.length : Int))
    (hly : n ≤ (yin.length : Int)) :
    (create_spline xin yin n dydx1 dydxn typein namein).n = n ∧
    (create_spline xin yin n dydx1 dydxn typein namein).type = typein ∧
    (create_spline xin yin n dydx1 dydxn typein namein).name = namein ∧
    (create_spline xin yin n dydx1 dydxn typein namein).x_start = rd xin 0 ∧
    (create_spline xin yin n dydx1 dydxn typein namein).x_end = rd xin (n - 1) ∧
    (∀ j : Int, 0 ≤ j → j < n →
      rd (create_spline xin yin n dydx1 dydxn typein namein).x j = rd xin j ∧
      rd (create_spline xin yin n dydx1 dydxn typein namein).y j = rd yin j) ∧
    (typein = 0 → ∀ x0 : K,
      rd xin (bracket lg (create_spline xin yin n dydx1 dydxn typein namein) x0).2
        = rd xin (bracket lg (create_spline xin yin n dydx1 dydxn typein namein) x0).1 →
      f lg (create_spline xin yin n dydx1 dydxn typein namein) x0 = none ∧
      dfdx lg (create_spline xin yin n dydx1 dydxn typein namein) x0 = none) := by
  obtain ⟨-, -, hxy⟩ := create_spline_xy xin yin n dydx1 dydxn typein namein (by omega)
  refine ⟨rfl, rfl, rfl, rfl, rfl, hxy, ?_⟩
  intro ht x0 heq
  have hb := bracket_arbitrary lg (create_spline xin yin n dydx1 dydxn typein namein) x0
    (by show typein ≠ 1; omega) (by show typein ≠ 2; omega)
  have hb' : bracket lg (create_spline xin yin n dydx1 dydxn typein namein) x0
      = bisect (create_spline xin yin n dydx1 dydxn typein namein).x x0 0 (n - 1) := hb
  obtain ⟨a1, a2, a3, -, -⟩ := bisect_spec (create_spline xin yin n dydx1 dydxn typein namein).x
    x0 (n - 1 - 0).toNat 0 (n - 1) rfl (by omega)
  rw [← hb'] at a1 a2 a3
  have hw : rd (create_spline xin yin n dydx1 dydxn typein namein).x
        (bracket lg (create_spline xin yin n dydx1 dydxn typein namein) x0).2
      - rd (create_spline xin yin n dydx1 dydxn typein namein).x
        (bracket lg (create_spline xin yin n dydx1 dydxn typein namein) x0).1 = 0 := by
    rw [(hxy _ (by omega) (by omega)).1, (hxy _ a2 (by omega)).1, heq, sub_self]
  constructor
  · unfold f segmentValue
    simp only [hw, if_true]
  · unfold dfdx segmentSlope
    simp only [hw, if_true]

theorem C12_no_validation_amended_witness :
    (2 : Int) ≤ 2 ∧ (2 : Int) ≤ (([(1 : ℚ), 1] : List ℚ).length : Int) ∧
    (2 : Int) ≤ (([(3 : ℚ), 4] : List ℚ).length : Int) ∧
    (create_spline [(1 : ℚ), 1] [3, 4] 2 1e30 1e30 0 "s").n = 2 ∧
    rd (create_spline [(1 : ℚ), 1] [3, 4] 2 1e30 1e30 0 "s").x 0 = 1 ∧
    rd (create_spline [(1 : ℚ), 1] [3, 4] 2 1e30 1e30 0 "s").x 1 = 1 ∧
    f (fun _ => 0) (create_spline [(1 : ℚ), 1] [3, 4] 2 1e30 1e30 0 "s") 1 = none ∧
    dfdx (fun _ => 0) (create_spline [(1 : ℚ), 1] [3, 4] 2 1e30 1e30 0 "s") 1 = none := by
  have h := C12_no_validation_amended (fun _ => 0) [(1 : ℚ), 1] [3, 4] 2 1e30 1e30 0 "s"
    (by decide) (by decide) (by decide)
  obtain ⟨h1, -, -, -, -, h6, h7⟩ := h
  have hb : bracket (fun _ => 0) (create_spline [(1 : ℚ), 1] [3, 4] 2 1e30 1e30 0 "s") 1
      = (0, 1) := by
    simp [bracket, bisect, create_spline]
  have h8 := h7 rfl 1 (by rw [hb]; simp [rd])
  exact ⟨by decide, by decide, by decide, h1,
    by simpa [rd] using (h6 0 (by decide) (by decide)).1,
    by simpa [rd] using (h6 1 (by decide) (by decide)).1, h8.1, h8.2⟩

/-- C13. `dfdx` is the derivative of `f`: over the reals, on any fixed bracket
`(klo, khi)` of non-zero width and for any stored `y`, `y2`, both segment
formulas return a value at every query, and the value returned by the formula
of `dfdx` at `x0` is the derivative at `x0` of the value returned by the
formula of `f` as a function of the query. -/
theorem C13_dfdx_is_derivative (s : Spline ℝ) (klo khi : Int)
    (hw : rd s.x khi - rd s.x klo ≠ 0) (x0 : ℝ) :
    ∃ v d : ℝ, segmentValue s klo khi x0 = some v ∧ segmentSlope s klo khi x0 = some d ∧
      HasDerivAt (fun x : ℝ => (segmentValue s klo khi x).getD 0) d x0 := by
  have hval : ∀ x : ℝ, (segmentValue s klo khi x).getD 0
      = (rd s.x khi - x) / (rd s.x khi - rd s.x klo) * rd s.y klo
        + (x - rd s.x klo) / (rd s.x khi - rd s.x klo) * rd s.y khi
        + (((rd s.x khi - x) / (rd s.x khi - rd s.x klo)
              * ((rd s.x khi - x) / (rd s.x khi - rd s.x klo))
              * ((rd s.x khi - x) / (rd s.x khi - rd s.x klo))
              - (rd s.x khi - x) / (rd s.x khi - rd s.x klo)) * rd s.y2 klo
          + ((x - rd s.x klo) / (rd s.x khi - rd s.x klo)
              * ((x - rd s.x klo) / (rd s.x khi - rd s.x klo))
              * ((x - rd s.x klo) / (rd s.x khi - rd s.x klo))
              - (x - rd s.x klo) / (rd s.x khi - rd s.x klo)) * rd s.y2 khi)
          * ((rd s.x khi - rd s.x klo) * (rd s.x khi - rd s.x klo)) / 6 := by
    intro x
    unfold segmentValue
    simp only [hw, if_false, Option.getD_some]
  have hv : ∃ v : ℝ, segmentValue s klo khi x0 = some v := by
    unfold segmentValue
    simp only [hw, if_false]
    exact ⟨_, rfl⟩
  obtain ⟨v, hv⟩ := hv
  refine ⟨v, (rd s.y khi - rd s.y klo) / (rd s.x khi - rd s.x klo)
      + (rd s.x khi - rd s.x klo) / 6
        * (-(3 * ((rd s.x khi - x0) / (rd s.x khi - rd s.x klo))
              * ((rd s.x khi - x0) / (rd s.x khi - rd s.x klo)) - 1) * rd s.y2 klo
          + (3 * ((x0 - rd s.x klo) / (rd s.x khi - rd s.x klo))
              * ((x0 - rd s.x klo) / (rd s.x khi - rd s.x klo)) - 1) * rd s.y2 khi), hv, ?_, ?_⟩
  · unfold segmentSlope
    simp only [hw, if_false]
  · rw [show (fun x : ℝ => (segmentValue s klo khi x).getD 0) = _ from funext hval]
    generalize rd s.x khi = xh at hw ⊢
    generalize rd s.x klo = xl at hw ⊢
    generalize rd s.y klo = yl
    generalize rd s.y khi = yh
    generalize rd s.y2 klo = ml
    generalize rd s.y2 khi = mh
    have ha : HasDerivAt (fun x : ℝ => (xh - x) / (xh - xl)) (-1 / (xh - xl)) x0 := by
      have := ((hasDerivAt_id x0).const_sub xh).div_const (xh - xl)
      simpa using this
    have hb : HasDerivAt (fun x : ℝ => (x - xl) / (xh - xl)) (1 / (xh - xl)) x0 := by
      have := ((hasDerivAt_id x0).sub_const xl).div_const (xh - xl)
      simpa using this
    have hlin := (ha.mul_const yl).add (hb.mul_const yh)
    have hA := ((((ha.mul ha).mul ha).sub ha).mul_const ml)
    have hB := ((((hb.mul hb).mul hb).sub hb).mul_const mh)
    have hcub := ((hA.add hB).mul_const ((xh - xl) * (xh - xl))).div_const 6
    have h := hlin.add hcub
    convert h using 1
    field_simp
    ring

theorem C13_dfdx_is_derivative_witness :
    rd (create_spline [(0 : ℝ), 2] [0, 1] 2 1e30 1e30 0 "").x 1
      - rd (create_spline [(0 : ℝ), 2] [0, 1] 2 1e30 1e30 0 "").x 0 ≠ 0 ∧
    ∃ v d : ℝ,
      segmentValue (create_spline [(0 : ℝ), 2] [0, 1] 2 1e30 1e30 0 "") 0 1 1 = some v ∧
      segmentSlope (create_spline [(0 : ℝ), 2] [0, 1] 2 1e30 1e30 0 "") 0 1 1 = some d ∧
      HasDerivAt (fun x : ℝ =>
        (segmentValue (create_spline [(0 : ℝ), 2] [0, 1] 2 1e30 1e30 0 "") 0 1 x).getD 0)
        d 1 := by
  have hxy := (create_spline_xy [(0 : ℝ), 2] [0, 1] 2 1e30 1e30 0 "" (by decide)).2.2
  have hw : rd (create_spline [(0 : ℝ), 2] [0, 1] 2 1e30 1e30 0 "").x 1
      - rd (create_spline [(0 : ℝ), 2] [0, 1] 2 1e30 1e30 0 "").x 0 ≠ 0 := by
    rw [(hxy 1 (by decide) (by decide)).1, (hxy 0 (by decide) (by decide)).1]
    simp [rd]
  exact ⟨hw, C13_dfdx_is_derivative _ 0 1 hw 1⟩

/-- C14. Output-grid exactness of the ODE solver, on the solver modelled from
the specification: whatever the step control does, a solve that ends in
`Solved` has recorded exactly `n ≥ 2` abscissas, `x[i] = xmin + i*(xmax-xmin)/(n-1)`
for every `i`, with `x[0] = xmin` and `x[n-1] = xmax`.  Such solves exist: a
solve on a non-degenerate configuration ends in `Solved` when every trial step
is accepted, the step size never falls below some `h0` and the bound on the
number of trial steps exceeds `k` with `(xmax-xmin)/(n-1) ≤ k*h0`. -/
theorem C14_output_grid_exact {K : Type} [LinearOrderedField K] (c : StepControl K)
    (s : OdeSolver K) (fuel : Nat) :
    (∀ r : OdeSolution K, solve c s fuel = some r →
      2 ≤ s.n ∧ (r.x_array.length : Int) = s.n ∧
      (∀ i : Int, 0 ≤ i → i < s.n →
        rd r.x_array i = s.xmin + (i : K) * (s.xmax - s.xmin) / ((s.n - 1 : Int) : K)) ∧
      rd r.x_array 0 = s.xmin ∧ rd r.x_array (s.n - 1) = s.xmax) ∧
    (∀ (h0 : K) (k : Nat), 0 < s.neq → 2 ≤ s.n → s.xmin < s.xmax →
      (∀ (x : K) (y : List K) (h : K), (c.trial s.rightHandSide x y h).2 ≤ s.epsilon) →
      (∀ h : K, h0 ≤ c.grow h) → h0 ≤ s.h_start →
      (s.xmax - s.xmin) / ((s.n - 1 : Int) : K) ≤ (k : K) * h0 → k + 1 ≤ fuel →
      ∃ r : OdeSolution K, solve c s fuel = some r) := by
  constructor
  · intro r hr
    obtain ⟨hn, hlt, hx⟩ := solve_x_array c s fuel r hr
    have hn1 : ((s.n - 1 : Int) : K) ≠ 0 := by
      have : (s.n - 1 : Int) ≠ 0 := by omega
      exact_mod_cast this
    have hall : ∀ i : Int, 0 ≤ i → i < s.n →
        rd r.x_array i = s.xmin + (i : K) * (s.xmax - s.xmin) / ((s.n - 1 : Int) : K) := by
      intro i h0 h1
      rw [hx]
      by_cases hi : i = 0
      · subst hi
        simp [rd]
      · rw [rd_cons_pos _ _ _ (by omega), rd_map_range _ _ _ (by omega) (by omega)]
        unfold outputAbscissa
        have e : (1 : Int) + ((i - 1).toNat : Int) = i := by omega
        rw [e]
    refine ⟨hn, ?_, hall, ?_, ?_⟩
    · rw [hx]
      simp only [List.length_cons, List.length_map, List.length_range]
      push_cast
      omega
    · have := hall 0 le_rfl (by omega)
      simpa using this
    · rw [hall (s.n - 1) (by omega) (by omega)]
      push_cast at hn1 ⊢
      field_simp
  · intro h0 k hneq hn hlt hacc hgrow hstart hk hf
    have hdeg : ¬ (s.neq ≤ 0 ∨ s.n < 2 ∨ s.xmin ≥ s.xmax) := by
      push_neg
      exact ⟨hneq, hn, hlt⟩
    have hn1 : (0 : K) < ((s.n - 1 : Int) : K) := by
      have : (0 : Int) < s.n - 1 := by omega
      exact_mod_cast this
    unfold solve
    simp only [hdeg, if_false]
    exact outputLoop_succeeds c s h0 k fuel hacc hgrow
      (div_nonneg (sub_nonneg.mpr hlt.le) hn1.le) hk hf _ 1 _ _ _ _ _
      (by unfold outputAbscissa; simp) hstart

theorem C14_output_grid_exact_witness :
    ∃ r : OdeSolution ℚ,
      solve
        ({ trial := fun rhs x y h =>
              ([rd y 0 + h * rd (rhs x y) 0, rd y 1 + h * rd (rhs x y) 1], 0)
           grow := fun h => max (2 * h) (1 / 4)
           shrink := fun h => h / 2 } : StepControl ℚ)
        ({ n := 3, neq := 2, rightHandSide := fun x y => (ode2 x y [0, 0]).2, xmin := 0,
           xmax := 1, ic := [1, 1], epsilon := 1 / 1000, h_start := 1 / 4, h_min := 0 } :
          OdeSolver ℚ) 5
        = some r ∧
      rd r.x_array 0 = 0 ∧ rd r.x_array 1 = 1 / 2 ∧ rd r.x_array 2 = 1 := by
  have h := C14_output_grid_exact
    ({ trial := fun rhs x y h =>
          ([rd y 0 + h * rd (rhs x y) 0, rd y 1 + h * rd (rhs x y) 1], 0)
       grow := fun h => max (2 * h) (1 / 4)
       shrink := fun h => h / 2 } : StepControl ℚ)
    ({ n := 3, neq := 2, rightHandSide := fun x y => (ode2 x y [0, 0]).2, xmin := 0,
       xmax := 1, ic := [1, 1], epsilon := 1 / 1000, h_start := 1 / 4, h_min := 0 } :
      OdeSolver ℚ) 5
  obtain ⟨r, hr⟩ := h.2 (1 / 4) 2 (by decide) (by decide) (by norm_num)
    (by intro x y h; norm_num) (by intro h; exact le_max_right _ _) le_rfl (by norm_num)
    (by decide)
  obtain ⟨-, -, hall, -, -⟩ := h.1 r hr
  refine ⟨r, hr, ?_, ?_, ?_⟩
  · have := hall 0 (by decide) (by decide)
    simpa using this
  · have := hall 1 (by decide) (by decide)
    rw [this]
    norm_num
  · have := hall 2 (by decide) (by decide)
    rw [this]
    norm_num

/-- C15. Cubic reproduction with exact clamped ends: for every cubic `p`,
`n ≥ 2` strictly increasing knots, ordinates `y[i] = p(x[i])` and hints
`dydx1 = p'(x[0])`, `dydxn = p'(x[n-1])`, both `≤ 0.99e30`, `create_spline`
stores `y2[i] = p''(x[i])` at every knot, and in Arbitrary mode `f(x) = p(x)`
and `dfdx(x) = p'(x)` for every `x` in `[x[0], x[n-1]]`. -/
theorem C15_cubic_reproduction_clamped {K : Type} [LinearOrderedField K] [FloorRing K]
    (lg : K → K) (c0 c1 c2 c3 : K) (xin yin : List K) (n : Int) (dydx1 dydxn : K)
    (namein : String) (hk : Knots xin yin n)
    (hy : ∀ i : Int, 0 ≤ i → i < n → rd yin i = cubic c0 c1 c2 c3 (rd xin i))
    (h1 : dydx1 = cubicD c1 c2 c3 (rd xin 0)) (h1' : dydx1 ≤ 0.99e30)
    (hn : dydxn = cubicD c1 c2 c3 (rd xin (n - 1))) (hn' : dydxn ≤ 0.99e30) :
    (∀ i : Int, 0 ≤ i → i < n →
      rd (create_spline xin yin n dydx1 dydxn 0 namein).y2 i = cubicDD c2 c3 (rd xin i)) ∧
    ∀ x0 : K, rd xin 0 ≤ x0 → x0 ≤ rd xin (n - 1) →
      f lg (create_spline xin yin n dydx1 dydxn 0 namein) x0 = some (cubic c0 c1 c2 c3 x0) ∧
      dfdx lg (create_spline xin yin n dydx1 dydxn 0 namein) x0
        = some (cubicD c1 c2 c3 x0) := by
  have hleft : (¬ dydx1 > 0.99e30 ∧ dydx1 = cubicD c1 c2 c3 (rd xin 0)) ∨
      (dydx1 > 0.99e30 ∧ cubicDD c2 c3 (rd xin 0) = 0) := Or.inl ⟨not_lt.mpr h1', h1⟩
  have hright : (¬ dydxn > 0.99e30 ∧ dydxn = cubicD c1 c2 c3 (rd xin (n - 1))) ∨
      (dydxn > 0.99e30 ∧ cubicDD c2 c3 (rd xin (n - 1)) = 0) := Or.inl ⟨not_lt.mpr hn', hn⟩
  refine ⟨cubic_y2 c0 c1 c2 c3 xin yin n dydx1 dydxn 0 namein hk hy hleft hright, ?_⟩
  intro x0 hx0 hx1
  obtain ⟨b0, b1, b2⟩ := bracket_in_range lg xin yin n dydx1 dydxn 0 namein hk x0
    (Or.inl ⟨by decide, by decide⟩)
  have hseg := cubic_on_bracket c0 c1 c2 c3 xin yin n dydx1 dydxn 0 namein hk hy hleft hright
    _ b0 b1 x0
  unfold f dfdx
  rw [b2]
  exact hseg

theorem C15_cubic_reproduction_clamped_witness :
    Knots [(0 : ℚ), 1, 2, 4] [0, 1, 8, 64] 4 ∧
    rd (create_spline [(0 : ℚ), 1, 2, 4] [0, 1, 8, 64] 4 0 48 0 "").y2 2 = 12 ∧
    f (fun _ => 0) (create_spline [(0 : ℚ), 1, 2, 4] [0, 1, 8, 64] 4 0 48 0 "") 3 = some 27 ∧
    dfdx (fun _ => 0) (create_spline [(0 : ℚ), 1, 2, 4] [0, 1, 8, 64] 4 0 48 0 "") 3
      = some 27 := by
  have hk : Knots [(0 : ℚ), 1, 2, 4] [0, 1, 8, 64] 4 := by
    refine ⟨by decide, by decide, by decide, ?_⟩
    intro i h0 h1
    have h2 : i = 0 ∨ i = 1 ∨ i = 2 := by omega
    rcases h2 with rfl | rfl | rfl
    all_goals (simp [rd]; try norm_num)
  have h := C15_cubic_reproduction_clamped (fun _ => 0) 0 0 0 1 [(0 : ℚ), 1, 2, 4]
    [0, 1, 8, 64] 4 0 48 "" hk
    (by
      intro i h0 h1
      have h2 : i = 0 ∨ i = 1 ∨ i = 2 ∨ i = 3 := by omega
      rcases h2 with rfl | rfl | rfl | rfl
      all_goals (simp [rd, cubic]; try norm_num))
    (by simp [rd, cubicD]) (by norm_num) (by simp [rd, cubicD]; norm_num) (by norm_num)
  refine ⟨hk, ?_, ?_, ?_⟩
  · have := h.1 2 (by decide) (by decide)
    simp [rd, cubicDD] at this ⊢
    rw [this]; norm_num
  · have := (h.2 3 (by simp [rd]) (by simp [rd]; norm_num)).1
    simp [cubic] at this
    rw [this]; norm_num
  · have := (h.2 3 (by simp [rd]) (by simp [rd]; norm_num)).2
    simp [cubicD] at this
    rw [this]; norm_num

/-- C16. UniformLogarithmic lookup agrees with the binary search: over the
reals, with `log` the natural logarithm, for geometrically spaced knots
`x[k] = x_start*(x_end/x_start)^(k/(n-1))` with `n ≥ 2` and
`0 < x_start < x_end`, and every query in `[x_start, x_end]`, type 2 computes
`klo = MIN(int(log(x0/x_start)/log(x_end/x_start)*(n-1)), n-2)`, which is the
bracket selected by the binary search of type 0, and `f` and `dfdx` return the
same results in both modes. -/
theorem C16_log_lookup_agrees (xin yin : List ℝ) (n : Int) (dydx1 dydxn : ℝ) (namein : String)
    (hk : Knots xin yin n) (hpos : 0 < rd xin 0)
    (hgeo : ∀ k : Int, 0 ≤ k → k < n →
      rd xin k = rd xin 0 * (rd xin (n - 1) / rd xin 0) ^ ((k : ℝ) / ((n - 1 : Int) : ℝ)))
    (x0 : ℝ) (hx0 : rd xin 0 ≤ x0) (hx1 : x0 ≤ rd xin (n - 1)) :
    (bracket Real.log (create_spline xin yin n dydx1 dydxn 2 namein) x0).1
      = MIN (truncToInt (Real.log (x0 / rd xin 0) / Real.log (rd xin (n - 1) / rd xin 0)
          * ((n - 1 : Int) : ℝ))) (n - 2) ∧
    bracket Real.log (create_spline xin yin n dydx1 dydxn 2 namein) x0
      = bracket Real.log (create_spline xin yin n dydx1 dydxn 0 namein) x0 ∧
    f Real.log (create_spline xin yin n dydx1 dydxn 2 namein) x0
      = f Real.log (create_spline xin yin n dydx1 dydxn 0 namein) x0 ∧
    dfdx Real.log (create_spline xin yin n dydx1 dydxn 2 namein) x0
      = dfdx Real.log (create_spline xin yin n dydx1 dydxn 0 namein) x0 := by
  have hidx := log_index_eq_bisect xin yin n dydx1 dydxn 0 namein hk hpos hgeo x0 hx0
  obtain ⟨-, -, b2, -, -⟩ := bisect_built xin yin n dydx1 dydxn 0 namein hk x0
  have h2 : bracket Real.log (create_spline xin yin n dydx1 dydxn 2 namein) x0
      = (MIN (truncToInt (Real.log (x0 / rd xin 0) / Real.log (rd xin (n - 1) / rd xin 0)
          * ((n - 1 : Int) : ℝ))) (n - 2),
         MIN (truncToInt (Real.log (x0 / rd xin 0) / Real.log (rd xin (n - 1) / rd xin 0)
          * ((n - 1 : Int) : ℝ))) (n - 2) + 1) := by
    unfold bracket
    have t1 : (create_spline xin yin n dydx1 dydxn 2 namein).type ≠ 1 := by
      show (2 : Int) ≠ 1
      decide
    have t2 : (create_spline xin yin n dydx1 dydxn 2 namein).type = 2 := rfl
    rw [if_neg t1, if_pos t2]
    rfl
  have h0 : bracket Real.log (create_spline xin yin n dydx1 dydxn 0 namein) x0
      = bisect (create_spline xin yin n dydx1 dydxn 0 namein).x x0 0 (n - 1) :=
    bracket_arbitrary Real.log _ _ (by show (0 : Int) ≠ 1; decide) (by show (0 : Int) ≠ 2; decide)
  have hb : bracket Real.log (create_spline xin yin n dydx1 dydxn 2 namein) x0
      = bracket Real.log (create_spline xin yin n dydx1 dydxn 0 namein) x0 := by
    rw [h2, h0, hidx, ← b2]
  refine ⟨by rw [h2], hb, ?_, ?_⟩
  · unfold f
    rw [hb]
    rfl
  · unfold dfdx
    rw [hb]
    rfl

theorem C16_log_lookup_agrees_witness :
    Knots [(1 : ℝ), 2, 4] [5, 7, 2] 3 ∧ (0 : ℝ) < rd [(1 : ℝ), 2, 4] 0 ∧
    rd [(1 : ℝ), 2, 4] 0 ≤ 3 ∧ (3 : ℝ) ≤ rd [(1 : ℝ), 2, 4] (3 - 1) ∧
    f Real.log (create_spline [(1 : ℝ), 2, 4] [5, 7, 2] 3 2 (-1) 2 "") 3
      = f Real.log (create_spline [(1 : ℝ), 2, 4] [5, 7, 2] 3 2 (-1) 0 "") 3 ∧
    dfdx Real.log (create_spline [(1 : ℝ), 2, 4] [5, 7, 2] 3 2 (-1) 2 "") 3
      = dfdx Real.log (create_spline [(1 : ℝ), 2, 4] [5, 7, 2] 3 2 (-1) 0 "") 3 := by
  have hk : Knots [(1 : ℝ), 2, 4] [5, 7, 2] 3 := by
    refine ⟨by decide, by decide, by decide, ?_⟩
    intro i h0 h1
    have h2 : i = 0 ∨ i = 1 := by omega
    rcases h2 with rfl | rfl
    all_goals (simp [rd]; try norm_num)
  have hp : (0 : ℝ) < rd [(1 : ℝ), 2, 4] 0 := by simp [rd]
  have hx0 : rd [(1 : ℝ), 2, 4] 0 ≤ 3 := by simp [rd]
  have hx1 : (3 : ℝ) ≤ rd [(1 : ℝ), 2, 4] (3 - 1) := by simp [rd]; norm_num
  have hsq : (4 : ℝ) ^ ((1 : ℝ) / 2) = 2 := by
    rw [show (4 : ℝ) = 2 ^ (2 : ℝ) by norm_num, ← Real.rpow_mul (by norm_num)]
    norm_num
  have h := C16_log_lookup_agrees [(1 : ℝ), 2, 4] [5, 7, 2] 3 2 (-1) "" hk hp
    (by
      intro k h0 h1
      have h2 : k = 0 ∨ k = 1 ∨ k = 2 := by omega
      rcases h2 with rfl | rfl | rfl
      · simp [rd]
      · simp [rd]
        norm_num
        exact hsq.symm
      · simp [rd])
    3 hx0 hx1
  exact ⟨hk, hp, hx0, hx1, h.2.2.1, h.2.2.2⟩

/-- C17. Assignment copies structure but not data: after `a = b` the target
has the `n`, `type`, `x_start`, `x_end` and `name` of the source; its arrays
`x`, `y`, `y2` are fresh arrays of length `n` when `n > 0` and null otherwise,
and their contents do not come from the source: two sources that agree on
`n`, `type`, `x_start`, `x_end` and `name` give the same target state.  So
`a.f(x0)` need not equal `b.f(x0)`: for the natural spline `b` through `(0,0)`
and `(1,1)`, `b.f(1/2) = 1/2` while `a.f(1/2)` exits when the fresh cells hold
zeros. -/
theorem C17_assignment_copies_structure {K : Type} [LinearOrderedField K]
    (gx gy gy2 : Nat → K) (a b b' : Spline K)
    (hagree : b.n = b'.n ∧ b.type = b'.type ∧ b.x_start = b'.x_start ∧ b.x_end = b'.x_end ∧
      b.name = b'.name) :
    (operatorAssign gx gy gy2 a b).n = b.n ∧
    (operatorAssign gx gy gy2 a b).type = b.type ∧
    (operatorAssign gx gy gy2 a b).x_start = b.x_start ∧
    (operatorAssign gx gy gy2 a b).x_end = b.x_end ∧
    (operatorAssign gx gy gy2 a b).name = b.name ∧
    (0 < b.n →
      ((operatorAssign gx gy gy2 a b).x.length : Int) = b.n ∧
      ((operatorAssign gx gy gy2 a b).y.length : Int) = b.n ∧
      ((operatorAssign gx gy gy2 a b).y2.length : Int) = b.n) ∧
    (b.n ≤ 0 →
      (operatorAssign gx gy gy2 a b).x = [] ∧ (operatorAssign gx gy gy2 a b).y = [] ∧
      (operatorAssign gx gy gy2 a b).y2 = []) ∧
    operatorAssign gx gy gy2 a b = operatorAssign gx gy gy2 a b' ∧
    (f (fun _ => 0) (create_spline [(0 : ℚ), 1] [0, 1] 2 1e30 1e30 0 "") (1 / 2)
        = some (1 / 2) ∧
      f (fun _ => 0) (operatorAssign (fun _ => 0) (fun _ => 0) (fun _ => 0)
          (create_spline [(0 : ℚ), 1] [0, 1] 2 1e30 1e30 0 "")
          (create_spline [(0 : ℚ), 1] [0, 1] 2 1e30 1e30 0 "")) (1 / 2) = none) := by
  obtain ⟨h1, h2, h3, h4, h5⟩ := hagree
  refine ⟨rfl, rfl, rfl, rfl, rfl, ?_, ?_, ?_, ?_, ?_⟩
  · intro hn
    have hn' : b.n > 0 := hn
    have hl : ∀ g : Nat → K, (((newArrayOf g b.n).length : Nat) : Int) = b.n := by
      intro g
      simp [newArrayOf]
      omega
    simp only [operatorAssign, hn', if_true]
    exact ⟨hl gx, hl gy, hl gy2⟩
  · intro hn
    have hn' : ¬ b.n > 0 := by omega
    simp only [operatorAssign, hn', if_false]
    exact ⟨trivial, trivial, trivial⟩
  · simp only [operatorAssign, h1, h2, h3, h4, h5]
  · simp [f, bracket, bisect, segmentValue, create_spline, copyLoop, newArray, leftBoundary,
      sweepLoop, rightBoundary, backLoop, rd, wr]
    norm_num
  · simp [f, bracket, bisect, segmentValue, operatorAssign, newArrayOf, create_spline, rd]

theorem C17_assignment_copies_structure_witness :
    (create_spline [(0 : ℚ), 1, 2] [0, 1, 4] 3 1e30 1e30 0 "").x_start
      = (create_spline [(0 : ℚ), 1 / 2, 2] [5, 7, 2] 3 1e30 1e30 0 "").x_start ∧
    (create_spline [(0 : ℚ), 1, 2] [0, 1, 4] 3 1e30 1e30 0 "").x_end
      = (create_spline [(0 : ℚ), 1 / 2, 2] [5, 7, 2] 3 1e30 1e30 0 "").x_end ∧
    operatorAssign (fun _ => 0) (fun _ => 0) (fun _ => 0)
        (create_spline [(0 : ℚ), 1] [0, 1] 2 1e30 1e30 0 "")
        (create_spline [(0 : ℚ), 1, 2] [0, 1, 4] 3 1e30 1e30 0 "")
      = operatorAssign (fun _ => 0) (fun _ => 0) (fun _ => 0)
        (create_spline [(0 : ℚ), 1] [0, 1] 2 1e30 1e30 0 "")
        (create_spline [(0 : ℚ), 1 / 2, 2] [5, 7, 2] 3 1e30 1e30 0 "") := by
  have hs : (create_spline [(0 : ℚ), 1, 2] [0, 1, 4] 3 1e30 1e30 0 "").x_start
      = (create_spline [(0 : ℚ), 1 / 2, 2] [5, 7, 2] 3 1e30 1e30 0 "").x_start := by
    simp [create_spline, rd]
  have he : (create_spline [(0 : ℚ), 1, 2] [0, 1, 4] 3 1e30 1e30 0 "").x_end
      = (create_spline [(0 : ℚ), 1 / 2, 2] [5, 7, 2] 3 1e30 1e30 0 "").x_end := by
    simp [create_spline, rd]
  exact ⟨hs, he, (C17_assignment_copies_structure (fun _ => 0) (fun _ => 0) (fun _ => 0)
    (create_spline [(0 : ℚ), 1] [0, 1] 2 1e30 1e30 0 "")
    (create_spline [(0 : ℚ), 1, 2] [0, 1, 4] 3 1e30 1e30 0 "")
    (create_spline [(0 : ℚ), 1 / 2, 2] [5, 7, 2] 3 1e30 1e30 0 "")
    ⟨rfl, rfl, hs, he, rfl⟩).2.2.2.2.2.2.2.1⟩

/-- C18. No division by zero in construction: for `n ≥ 2` strictly increasing
abscissas and any ordinates and hints, every divisor of `create_spline` is
non-zero: each knot difference `x[i+1]-x[i]` and `x[i+1]-x[i-1]` is positive,
`0 < sig < 1`, every coefficient that the forward loop leaves in `y2[i]`
(`0 ≤ i ≤ n-2`) lies in `[-1/2, 0]`, the pivot `p = sig*y2[i-1]+2` satisfies
`3/2 < p ≤ 2`, and the right-boundary divisor `0.5*y2[n-2]+1` is at least
`3/4`. -/
theorem C18_no_division_by_zero {K : Type} [LinearOrderedField K] (xin yin : List K) (n : Int)
    (dydx1 dydxn : K) (typein : Int) (namein : String) (hk : Knots xin yin n) :
    (∀ i : Int, 0 ≤ i → i + 1 < n →
      0 < rd (create_spline xin yin n dydx1 dydxn typein namein).x (i + 1)
        - rd (create_spline xin yin n dydx1 dydxn typein namein).x i) ∧
    (∀ i : Int, 1 ≤ i → i < n - 1 →
      0 < rd (create_spline xin yin n dydx1 dydxn typein namein).x (i + 1)
        - rd (create_spline xin yin n dydx1 dydxn typein namein).x (i - 1) ∧
      0 < (rd (create_spline xin yin n dydx1 dydxn typein namein).x i
          - rd (create_spline xin yin n dydx1 dydxn typein namein).x (i - 1))
        / (rd (create_spline xin yin n dydx1 dydxn typein namein).x (i + 1)
          - rd (create_spline xin yin n dydx1 dydxn typein namein).x (i - 1)) ∧
      (rd (create_spline xin yin n dydx1 dydxn typein namein).x i
          - rd (create_spline xin yin n dydx1 dydxn typein namein).x (i - 1))
        / (rd (create_spline xin yin n dydx1 dydxn typein namein).x (i + 1)
          - rd (create_spline xin yin n dydx1 dydxn typein namein).x (i - 1)) < 1 ∧
      3 / 2 < (rd (create_spline xin yin n dydx1 dydxn typein namein).x i
          - rd (create_spline xin yin n dydx1 dydxn typein namein).x (i - 1))
        / (rd (create_spline xin yin n dydx1 dydxn typein namein).x (i + 1)
          - rd (create_spline xin yin n dydx1 dydxn typein namein).x (i - 1))
        * rd (forwardState xin yin n dydx1).1 (i - 1) + 2 ∧
      (rd (create_spline xin yin n dydx1 dydxn typein namein).x i
          - rd (create_spline xin yin n dydx1 dydxn typein namein).x (i - 1))
        / (rd (create_spline xin yin n dydx1 dydxn typein namein).x (i + 1)
          - rd (create_spline xin yin n dydx1 dydxn typein namein).x (i - 1))
        * rd (forwardState xin yin n dydx1).1 (i - 1) + 2 ≤ 2) ∧
    (∀ i : Int, 0 ≤ i → i ≤ n - 2 →
      -(1 / 2) ≤ rd (forwardState xin yin n dydx1).1 i ∧
      rd (forwardState xin yin n dydx1).1 i ≤ 0) ∧
    3 / 4 ≤ 0.5 * rd (forwardState xin yin n dydx1).1 (n - 2) + 1 := by
  have hD := forward_coeff_bounds xin yin n dydx1 hk
  obtain ⟨hn, -, -, hinc⟩ := hk
  obtain ⟨-, -, hxy⟩ := create_spline_xy xin yin n dydx1 dydxn typein namein (by omega)
  refine ⟨?_, ?_, hD, ?_⟩
  · intro i h0 h1
    rw [(hxy i h0 (by omega)).1, (hxy (i + 1) (by omega) h1).1]
    exact sub_pos.mpr (hinc i h0 h1)
  · intro i h1 h2
    rw [(hxy i (by omega) (by omega)).1, (hxy (i + 1) (by omega) (by omega)).1,
      (hxy (i - 1) (by omega) (by omega)).1]
    obtain ⟨s0, s1⟩ := sigma_bounds xin n hinc i h1 h2
    have hDi := hD (i - 1) (by omega) (by omega)
    obtain ⟨p0, p1, -, -⟩ := coeff_step _ _ s0 s1 hDi.1 hDi.2
    have a := hinc (i - 1) (by omega) (by omega)
    rw [sub_add_cancel] at a
    have b := hinc i (by omega) (by omega)
    exact ⟨by linarith, s0, s1, p0, p1⟩
  · have := (hD (n - 2) (by omega) le_rfl).1
    rw [lit_half]
    linarith

theorem C18_no_division_by_zero_witness :
    Knots [(0 : ℚ), 1, 3] [5, 7, 2] 3 ∧
    (∀ i : Int, 0 ≤ i → i ≤ 3 - 2 →
      -(1 / 2) ≤ rd (forwardState [(0 : ℚ), 1, 3] [5, 7, 2] 3 2).1 i ∧
      rd (forwardState [(0 : ℚ), 1, 3] [5, 7, 2] 3 2).1 i ≤ 0) ∧
    (3 / 4 : ℚ) ≤ 0.5 * rd (forwardState [(0 : ℚ), 1, 3] [5, 7, 2] 3 2).1 (3 - 2) + 1 := by
  have h := C18_no_division_by_zero [(0 : ℚ), 1, 3] [5, 7, 2] 3 2 (-1) 0 "" knots_sample
  exact ⟨knots_sample, h.2.2.1, h.2.2.2⟩

/-- C19. The binary search stops on in-bounds adjacent indices: in Arbitrary
mode, for every `n ≥ 2`, every contents of the array and every query, the
search ends with `khi = klo + 1` and `0 ≤ klo ≤ n - 2`; every iteration of the
`while` loop starts from a pair inside `0 .. n-1`, reads an index `k` with
`0 < k < n - 1`, and has a smaller `khi - klo` than the iteration before, so
that there are at most `n - 2` iterations.  The sums `khi + klo` stay below
`2^31` when `n ≤ 2^30 + 1`. -/
theorem C19_bisect_terminates_in_bounds {K : Type} [LinearOrderedField K] [FloorRing K]
    (lg : K → K) (s : Spline K) (x0 : K) (hn : 2 ≤ s.n) (ht : s.type = 0) :
    (bracket lg s x0).2 = (bracket lg s x0).1 + 1 ∧
    0 ≤ (bracket lg s x0).1 ∧ (bracket lg s x0).1 ≤ s.n - 2 ∧
    (∀ p ∈ bisectTrace s.x x0 0 (s.n - 1),
      0 ≤ p.1 ∧ p.2 ≤ s.n - 1 ∧
      0 < (p.2 + p.1) >>> (1 : Nat) ∧ (p.2 + p.1) >>> (1 : Nat) < s.n - 1 ∧
      (s.n ≤ 2 ^ 30 + 1 → p.2 + p.1 < 2 ^ 31)) ∧
    List.Chain' (fun p q : Int × Int => q.2 - q.1 < p.2 - p.1)
      (bisectTrace s.x x0 0 (s.n - 1)) ∧
    ((bisectTrace s.x x0 0 (s.n - 1)).length : Int) ≤ s.n - 2 ∧
    bracket lg s x0
      = (((bisectTrace s.x x0 0 (s.n - 1)).getLast?.map fun p : Int × Int =>
          if rd s.x ((p.2 + p.1) >>> (1 : Nat)) > x0 then (p.1, (p.2 + p.1) >>> (1 : Nat))
          else ((p.2 + p.1) >>> (1 : Nat), p.2)).getD (0, s.n - 1)) := by
  have hb := bracket_arbitrary lg s x0 (by rw [ht]; decide) (by rw [ht]; decide)
  obtain ⟨a1, a2, a3, -, -⟩ := bisect_spec s.x x0 (s.n - 1 - 0).toNat 0 (s.n - 1) rfl (by omega)
  obtain ⟨t1, t2, -, t4⟩ := bisectTrace_spec s.x x0 (s.n - 1 - 0).toNat 0 (s.n - 1) rfl
  have hlink := bisect_eq_last s.x x0 (s.n - 1 - 0).toNat 0 (s.n - 1) rfl
  rw [hb]
  refine ⟨a1, a2, by omega, ?_, t2, by omega, hlink⟩
  intro p hp
  obtain ⟨b1, b2, b3, b4, b5⟩ := t1 p hp
  refine ⟨b1, b2, by omega, by omega, ?_⟩
  intro hsmall
  have : (2 : Int) ^ 31 = 2147483648 := by norm_num
  have : (2 : Int) ^ 30 = 1073741824 := by norm_num
  omega

theorem C19_bisect_terminates_in_bounds_witness :
    (2 : Int) ≤ (create_spline [(0 : ℚ), 3, 1, 2] [5, 7, 2, 1] 4 1e30 1e30 0 "").n ∧
    (bracket (fun _ => 0) (create_spline [(0 : ℚ), 3, 1, 2] [5, 7, 2, 1] 4 1e30 1e30 0 "") 2).2
      = (bracket (fun _ => 0)
          (create_spline [(0 : ℚ), 3, 1, 2] [5, 7, 2, 1] 4 1e30 1e30 0 "") 2).1 + 1 ∧
    ((bisectTrace (create_spline [(0 : ℚ), 3, 1, 2] [5, 7, 2, 1] 4 1e30 1e30 0 "").x 2 0
        ((create_spline [(0 : ℚ), 3, 1, 2] [5, 7, 2, 1] 4 1e30 1e30 0 "").n - 1)).length : Int)
      ≤ (create_spline [(0 : ℚ), 3, 1, 2] [5, 7, 2, 1] 4 1e30 1e30 0 "").n - 2 := by
  have hn : (2 : Int) ≤ (create_spline [(0 : ℚ), 3, 1, 2] [5, 7, 2, 1] 4 1e30 1e30 0 "").n := by
    show (2 : Int) ≤ 4
    decide
  have h := C19_bisect_terminates_in_bounds (fun _ => 0)
    (create_spline [(0 : ℚ), 3, 1, 2] [5, 7, 2, 1] 4 1e30 1e30 0 "") 2 hn rfl
  exact ⟨hn, h.1, h.2.2.2.2.2.1⟩

/-- C20. The closed form documented for demo system 2: for all initial values
`a = y1(0)` and `b = y2(0)`, the functions `y2(x) = b + x` and
`y1(x) = a + b*x + x^2/2` take these values at `x = 0`, and at every `x` their
derivatives are the two components that `ode2` writes for the state
`(y1(x), y2(x))`, namely `(y2(x), 1)`.  `ode2` writes `dydx[0]` and `dydx[1]`
only and leaves `y` as it was. -/
theorem C20_ode2_closed_form (a b x : ℝ) (y dydx : List ℝ) (hy : 2 ≤ y.length)
    (hd : 2 ≤ dydx.length) :
    (a + b * 0 + (0 : ℝ) ^ 2 / 2 = a ∧ b + (0 : ℝ) = b) ∧
    HasDerivAt (fun t : ℝ => a + b * t + t ^ 2 / 2)
      (rd (ode2 x [a + b * x + x ^ 2 / 2, b + x] dydx).2 0) x ∧
    HasDerivAt (fun t : ℝ => b + t)
      (rd (ode2 x [a + b * x + x ^ 2 / 2, b + x] dydx).2 1) x ∧
    rd (ode2 x [a + b * x + x ^ 2 / 2, b + x] dydx).2 0 = b + x ∧
    rd (ode2 x [a + b * x + x ^ 2 / 2, b + x] dydx).2 1 = 1 ∧
    (ode2 x y dydx).1 = y ∧
    rd (ode2 x y dydx).2 0 = rd y 1 ∧ rd (ode2 x y dydx).2 1 = 1 ∧
    (ode2 x y dydx).2.length = dydx.length ∧
    ∀ j : Int, j ≠ 0 → j ≠ 1 → rd (ode2 x y dydx).2 j = rd dydx j := by
  have w0 : ∀ y' : List ℝ, rd (ode2 x y' dydx).2 0 = rd y' 1 := by
    intro y'
    unfold ode2
    rw [rd_wr_ne _ _ _ _ (by decide), rd_wr_same _ _ _ le_rfl (by omega)]
  have w1 : ∀ y' : List ℝ, rd (ode2 x y' dydx).2 1 = 1 := by
    intro y'
    unfold ode2
    rw [rd_wr_same _ _ _ (by decide) (by rw [length_wr]; omega)]
  have e0 : rd (ode2 x [a + b * x + x ^ 2 / 2, b + x] dydx).2 0 = b + x := by
    rw [w0]
    simp [rd]
  refine ⟨⟨by ring, by ring⟩, ?_, ?_, e0, w1 _, rfl, w0 y, w1 y, ?_, ?_⟩
  · rw [e0]
    have h := ((hasDerivAt_id x).const_mul b).const_add a |>.add
      (((hasDerivAt_id x).pow 2).div_const 2)
    convert h using 1
    simp
  · rw [w1]
    have h := (hasDerivAt_id x).const_add b
    simpa using h
  · unfold ode2
    rw [length_wr, length_wr]
  · intro j h0 h1
    unfold ode2
    rw [rd_wr_ne _ _ _ _ h1, rd_wr_ne _ _ _ _ h0]

theorem C20_ode2_closed_form_witness :
    2 ≤ [(1 : ℝ), 1].length ∧ 2 ≤ [(0 : ℝ), 0].length ∧
    HasDerivAt (fun t : ℝ => 1 + 1 * t + t ^ 2 / 2)
      (rd (ode2 (1 / 2) [1 + 1 * (1 / 2 : ℝ) + (1 / 2) ^ 2 / 2, 1 + 1 / 2] [0, 0]).2 0) (1 / 2) ∧
    (ode2 (1 / 2 : ℝ) [1, 1] [0, 0]).1 = [1, 1] :=
  ⟨by decide, by decide,
    (C20_ode2_closed_form 1 1 (1 / 2) [1, 1] [0, 0] (by decide) (by decide)).2.1,
    (C20_ode2_closed_form 1 1 (1 / 2) [1, 1] [0, 0] (by decide) (by decide)).2.2.2.2.2.1⟩

end Spec2Proof
